import Mathlib

/-!
# Verification development for `scc::mt_vcd_trace_file`

A shallow embedding of `src/sysc/scc/mt_vcd_trace.cpp` (the multi-threaded-style VCD
trace recorder of the SystemC-Components library) and theorems about it.

Modelling conventions

* Text written with `FPRINTF` is a `String`; one `FPRINTF` call produces one chunk, and a
  call of `cycle` returns the list of chunks it wrote.
* The LP64 data model is assumed: `unsigned long` and `unsigned long long` are 64 bits wide,
  `long` is 8 bytes.
* A shift `1 << bits` whose amount is not smaller than the width of the shifted operand is
  undefined behaviour; the emitters return `none` there.
* Observed objects live outside the recorder.  A trace holds the address of its object
  (this is what `get_hash` returns); the live values are a typed memory `Mem`.
* `std::vector<trace_entry> all_traces` owns one trace object per entry and is modelled as
  the list of those objects; `active_traces` holds copies of entries, i.e. pointers to the
  same objects, and is modelled as the list of their positions in `all_traces`.
* Reports (`SC_REPORT_ERROR`, `SC_REPORT_WARNING`) are collected as lists of messages; the
  report handler of the SystemC library is taken to return to the caller.
* Function-local `static` variables (the `rawdata` buffers of the vector `record`
  specialisations, the flag `warned` of `prune_name`) are explicit state.
-/

namespace scc

/-! ## Value kinds -/

/-- The fixed-width integer types registered through `DECL_TRACE_METHOD_B`. -/
inductive IntKind
  | unsigned_char | unsigned_short | unsigned_int | unsigned_long
  | char | short | int | long | int64 | uint64
  deriving DecidableEq, Repr

/-- The template instantiations `vcd_trace_t<T, OT>` created by the `trace` overloads. -/
inductive Kind
  | bool | sc_bit | sc_logic
  | int (t : IntKind)
  | float | double
  | sc_int_base | sc_uint_base | sc_signed | sc_unsigned
  | sc_fxval | sc_fxval_fast | sc_fxnum | sc_fxnum_fast
  | sc_bv_base | sc_lv_base
  deriving DecidableEq, Repr

/-- The four values of `sc_dt::sc_logic`. -/
inductive Logic
  | L0 | L1 | Z | X
  deriving DecidableEq, Repr

/-- Modelled from the spec: `sc_logic::to_char` (SystemC library, not part of this
repository) gives the character of a logic value; the spec names digit characters and
the unknown / high-impedance symbols. -/
def Logic.to_char : Logic → Char
  | .L0 => '0'
  | .L1 => '1'
  | .Z => 'Z'
  | .X => 'X'

/-- The representation of a value of the snapshot type `OT` of a kind:
* `bool`, `sc_bit`: a truth value;
* `sc_logic`: a four-valued logic value;
* fixed-width integers: the mathematical value;
* `float`: the 32-bit IEEE-754 pattern, `double`: the 64-bit pattern;
* fixed-point kinds: the 64-bit pattern of the value converted to `double`
  (the snapshot of `sc_fxnum` / `sc_fxnum_fast` is a `double`);
* numeric and bit vectors: the bits, index `i` of the list being bit `i`;
* logic vectors: the logic values, index `i` being position `i`. -/
@[reducible]
def Val : Kind → Type
  | .bool => Bool
  | .sc_bit => Bool
  | .sc_logic => Logic
  | .int _ => Int
  | .float => Nat
  | .double => Nat
  | .sc_int_base => List Bool
  | .sc_uint_base => List Bool
  | .sc_signed => List Bool
  | .sc_unsigned => List Bool
  | .sc_fxval => Nat
  | .sc_fxval_fast => Nat
  | .sc_fxnum => Nat
  | .sc_fxnum_fast => Nat
  | .sc_bv_base => List Bool
  | .sc_lv_base => List Logic

instance instDecidableEqVal : (k : Kind) → DecidableEq (Val k)
  | .bool => inferInstanceAs (DecidableEq Bool)
  | .sc_bit => inferInstanceAs (DecidableEq Bool)
  | .sc_logic => inferInstanceAs (DecidableEq Logic)
  | .int _ => inferInstanceAs (DecidableEq Int)
  | .float => inferInstanceAs (DecidableEq Nat)
  | .double => inferInstanceAs (DecidableEq Nat)
  | .sc_int_base => inferInstanceAs (DecidableEq (List Bool))
  | .sc_uint_base => inferInstanceAs (DecidableEq (List Bool))
  | .sc_signed => inferInstanceAs (DecidableEq (List Bool))
  | .sc_unsigned => inferInstanceAs (DecidableEq (List Bool))
  | .sc_fxval => inferInstanceAs (DecidableEq Nat)
  | .sc_fxval_fast => inferInstanceAs (DecidableEq Nat)
  | .sc_fxnum => inferInstanceAs (DecidableEq Nat)
  | .sc_fxnum_fast => inferInstanceAs (DecidableEq Nat)
  | .sc_bv_base => inferInstanceAs (DecidableEq (List Bool))
  | .sc_lv_base => inferInstanceAs (DecidableEq (List Logic))

/-- The typed memory of observed objects: the live value of the object of type `k`
at an address. -/
def Mem : Type := (k : Kind) → Nat → Val k

/-- Size in bytes of a fixed-width integer type (`sizeof(T)`, LP64). -/
def IntKind.sizeof : IntKind → Nat
  | .unsigned_char => 1
  | .unsigned_short => 2
  | .unsigned_int => 4
  | .unsigned_long => 8
  | .char => 1
  | .short => 2
  | .int => 4
  | .long => 8
  | .int64 => 8
  | .uint64 => 8

/-! ## IEEE-754 comparison on bit patterns -/

/-- A pattern with `e` exponent bits and `m` fraction bits is a NaN: exponent field all
ones, fraction field non-zero. -/
def ieee_is_nan (e m p : Nat) : Bool :=
  (p / 2 ^ m) % 2 ^ e == 2 ^ e - 1 && p % 2 ^ m != 0

/-- A pattern is a (positive or negative) zero: exponent and fraction fields are zero. -/
def ieee_is_zero (e m p : Nat) : Bool :=
  p % 2 ^ (e + m) == 0

/-- The C++ `!=` on floating-point operands, on their bit patterns: a NaN is unequal to
everything, the two zeros are equal, all other values are equal iff their patterns are. -/
def ieee_ne (e m p q : Nat) : Bool :=
  ieee_is_nan e m p || ieee_is_nan e m q ||
    (!(ieee_is_zero e m p && ieee_is_zero e m q) && p % 2 ^ (e + m + 1) != q % 2 ^ (e + m + 1))

/-- The operator `old_val != act_val` of a kind.  Floating-point snapshots compare by the
IEEE rules; every other kind compares its representation. -/
def Kind.ne : (k : Kind) → Val k → Val k → Bool
  | .bool, a, b => a != b
  | .sc_bit, a, b => a != b
  | .sc_logic, a, b => a != b
  | .int _, a, b => a != b
  | .float, a, b => ieee_ne 8 23 a b
  | .double, a, b => ieee_ne 11 52 a b
  | .sc_int_base, a, b => a != b
  | .sc_uint_base, a, b => a != b
  | .sc_signed, a, b => a != b
  | .sc_unsigned, a, b => a != b
  | .sc_fxval, a, b => ieee_ne 11 52 a b
  | .sc_fxval_fast, a, b => ieee_ne 11 52 a b
  | .sc_fxnum, a, b => ieee_ne 11 52 a b
  | .sc_fxnum_fast, a, b => ieee_ne 11 52 a b
  | .sc_bv_base, a, b => a != b
  | .sc_lv_base, a, b => a != b

/-! ## Emitters (anonymous namespace of the source) -/

/-- The text `fmt` produces for `{:b}`: the binary digits of the number, most significant
first, without leading zeros (`0` for zero). -/
def fmt_b (n : Nat) : String := String.mk (Nat.toDigits 2 n)

/-- The text `fmt` produces for `{}` applied to an unsigned number: its decimal digits. -/
def fmt_d (n : Nat) : String := String.mk (Nat.toDigits 10 n)

/-- Source function `vcdEmitValueChange(os, handle, bits, val)`: for one bit the first
character of `val`
followed by the handle; otherwise `b`, the first format argument, a space, the second
format argument.  The source passes `handle` first and `val` second. -/
def vcdEmitValueChange (handle : String) (bits : Nat) (val : String) : String :=
  if bits = 1 then String.mk [val.data.headD (Char.ofNat 0)] ++ handle ++ "\n"
  else "b" ++ handle ++ " " ++ val ++ "\n"

/-- The value of `1ul << bits` (and of `1ull << bits`): defined only for a shift amount
below the 64 bits of the operand. -/
def shl_one (bits : Nat) : Option Nat :=
  if bits < 64 then some (2 ^ bits) else none

/-- Source function `vcdEmitValueChange32(os, handle, bits, val)`: the argument is
converted to the
parameter type `uint32_t`, masked with `(1ul << bits) - 1` and printed in binary. -/
def vcdEmitValueChange32 (handle : String) (bits : Nat) (val : Int) : Option String :=
  (shl_one bits).map fun m =>
    "b" ++ fmt_b ((val % 2 ^ 32).toNat &&& (m - 1)) ++ " " ++ handle ++ "\n"

/-- Source function `vcdEmitValueChange64(os, handle, bits, val)`: the argument is
converted to the
parameter type `uint64_t`, masked with `(1ull << bits) - 1` and printed in binary. -/
def vcdEmitValueChange64 (handle : String) (bits : Nat) (val : Int) : Option String :=
  (shl_one bits).map fun m =>
    "b" ++ fmt_b ((val % 2 ^ 64).toNat &&& (m - 1)) ++ " " ++ handle ++ "\n"

/-- Source function `get_buffer_size(length)`: `length + 4096` rounded down to a multiple
of 4096
(`& ~(4096-1)` on a 64-bit `size_t`), at least 1024. -/
def get_buffer_size (length : Nat) : Nat :=
  max 1024 ((length + 4096) % 2 ^ 64 &&& (2 ^ 64 - 4096))

/-! ## Trace records -/

/-- Source `struct vcd_trace` together with the members of `vcd_trace_t<T, OT>`:
`old_val` is the
snapshot, `act_val` the address of the observed object the reference is bound to. -/
structure vcd_trace where
  kind : Kind
  name : String
  fst_hndl : String
  is_alias : Bool
  bits : Nat
  old_val : Val kind
  act_val : Nat

/-- Source function `get_bits()`: `sizeof(OT)*8` in general, with the specialisations of the source. -/
def get_bits : (k : Kind) → Val k → Nat
  | .bool, _ => 1
  | .sc_bit, _ => 1
  | .sc_logic, _ => 1
  | .int t, _ => t.sizeof * 8
  | .float, _ => 4 * 8
  | .double, _ => 8 * 8
  | .sc_int_base, v => v.length
  | .sc_uint_base, v => v.length
  | .sc_signed, v => v.length
  | .sc_unsigned, v => v.length
  | .sc_fxval, _ => 64
  | .sc_fxval_fast, _ => 64
  | .sc_fxnum, _ => 8 * 8
  | .sc_fxnum_fast, _ => 8 * 8
  | .sc_bv_base, v => v.length
  | .sc_lv_base, v => v.length

/-- The constructor `vcd_trace_t(object_, name, width)`: snapshot and reference are bound
to the object, `bits = width < 0 ? get_bits() : width`. -/
def vcd_trace_t (k : Kind) (mem : Mem) (object_ : Nat) (name : String) (width : Int) :
    vcd_trace :=
  { kind := k
    name := name
    fst_hndl := ""
    is_alias := false
    bits := if width < 0 then get_bits k (mem k object_) else width.toNat
    old_val := mem k object_
    act_val := object_ }

/-- Source function `get_hash()`: the address of the observed object. -/
def vcd_trace.get_hash (t : vcd_trace) : Nat := t.act_val

/-- Source function `vcd_trace_t::changed()`: `!is_alias && old_val != act_val`. -/
def vcd_trace.changed (t : vcd_trace) (mem : Mem) : Bool :=
  !t.is_alias && t.kind.ne t.old_val (mem t.kind t.act_val)

/-- Source function `vcd_trace_t::update()`: `old_val = act_val`. -/
def vcd_trace.update (t : vcd_trace) (mem : Mem) : vcd_trace :=
  { t with old_val := mem t.kind t.act_val }

/-- The free function `changed<T, OT>(trace)` stored as `compare_and_update`: update the
snapshot when the trace changed and tell whether it did. -/
def changed (t : vcd_trace) (mem : Mem) : Bool × vcd_trace :=
  if t.changed mem then (true, t.update mem) else (false, t)

/-! ## Recording a value -/

/-- One function-local `static std::vector<char> rawdata`: its size and its content up to
the first NUL character (the vector is zero-filled when constructed). -/
structure rawdata_buf where
  size : Nat
  chars : List Char
  deriving DecidableEq, Repr

/-- The four function-local static buffers of the numeric vector `record` specialisations;
`none` until the first call constructs the buffer. -/
structure Statics where
  sc_int_base : Option rawdata_buf
  sc_uint_base : Option rawdata_buf
  sc_signed : Option rawdata_buf
  sc_unsigned : Option rawdata_buf
  deriving DecidableEq, Repr

/-- The statics before any `record` call. -/
def Statics.fresh : Statics := ⟨none, none, none, none⟩

/-- The body shared by the `record` specialisations of `sc_int_base`, `sc_uint_base`,
`sc_signed` and `sc_unsigned`: the static buffer is constructed on the first call with
`get_buffer_size(length)`, the loop writes one digit per bit from bit `length-1` down to
bit 0 at the start of the buffer, no terminator is written, and the buffer is passed to
`vcdEmitValueChange` as a C string.  Writing or reading past the buffer is undefined. -/
def record_rawdata (buf : Option rawdata_buf) (handle : String) (bits : Nat)
    (old_val : List Bool) : Option (rawdata_buf × String) :=
  let b := buf.getD ⟨get_buffer_size old_val.length, []⟩
  let digits := (List.range old_val.length).reverse.map
    fun bitindex => Char.ofNat (48 + (old_val.getD bitindex false).toNat)
  let chars := digits ++ b.chars.drop old_val.length
  if old_val.length ≤ b.size ∧ chars.length < b.size then
    some (⟨b.size, chars⟩, vcdEmitValueChange handle bits (String.mk chars))
  else none

/-- Modelled from the spec: `sc_bv_base::to_string` (SystemC library) gives one digit
character per bit, most significant bit first. -/
def bv_to_string (v : List Bool) : String :=
  String.mk (v.reverse.map fun b => if b then '1' else '0')

/-- Modelled from the spec: `sc_lv_base::to_string` (SystemC library) gives one character
per position, most significant first, from the logic character set. -/
def lv_to_string (v : List Logic) : String :=
  String.mk (v.reverse.map Logic.to_char)

/-- Source function `record(os)` of a trace of kind `k` with identifier `handle`, width
`bits` and snapshot
`old_val`: the generic template for fixed-width integers and the specialisations. -/
def record_val : (k : Kind) → Statics → String → Nat → Val k → Option (Statics × String)
  | .bool, st, handle, _, old_val =>
      some (st, vcdEmitValueChange handle 1 (if old_val then "1" else "0"))
  | .sc_bit, st, handle, _, old_val =>
      some (st, vcdEmitValueChange handle 1 (if old_val then "1" else "0"))
  | .sc_logic, st, handle, _, old_val =>
      some (st, vcdEmitValueChange handle 1 (String.mk [old_val.to_char]))
  | .int t, st, handle, bits, old_val =>
      (if t.sizeof ≤ 4 then vcdEmitValueChange32 handle bits old_val
        else vcdEmitValueChange64 handle bits old_val).map fun s => (st, s)
  | .float, st, handle, _, old_val =>
      (vcdEmitValueChange32 handle 32 ((old_val % 2 ^ 32 : Nat) : Int)).map fun s => (st, s)
  | .double, st, handle, _, old_val =>
      (vcdEmitValueChange32 handle 64 ((old_val % 2 ^ 64 : Nat) : Int)).map fun s => (st, s)
  | .sc_int_base, st, handle, bits, old_val =>
      (record_rawdata st.sc_int_base handle bits old_val).map
        fun r => ({ st with sc_int_base := some r.1 }, r.2)
  | .sc_uint_base, st, handle, bits, old_val =>
      (record_rawdata st.sc_uint_base handle bits old_val).map
        fun r => ({ st with sc_uint_base := some r.1 }, r.2)
  | .sc_signed, st, handle, bits, old_val =>
      (record_rawdata st.sc_signed handle bits old_val).map
        fun r => ({ st with sc_signed := some r.1 }, r.2)
  | .sc_unsigned, st, handle, bits, old_val =>
      (record_rawdata st.sc_unsigned handle bits old_val).map
        fun r => ({ st with sc_unsigned := some r.1 }, r.2)
  | .sc_fxval, st, handle, _, old_val =>
      (vcdEmitValueChange64 handle 64 ((old_val % 2 ^ 64 : Nat) : Int)).map fun s => (st, s)
  | .sc_fxval_fast, st, handle, _, old_val =>
      (vcdEmitValueChange64 handle 64 ((old_val % 2 ^ 64 : Nat) : Int)).map fun s => (st, s)
  | .sc_fxnum, st, handle, _, old_val =>
      (vcdEmitValueChange32 handle 64 ((old_val % 2 ^ 64 : Nat) : Int)).map fun s => (st, s)
  | .sc_fxnum_fast, st, handle, _, old_val =>
      (vcdEmitValueChange32 handle 64 ((old_val % 2 ^ 64 : Nat) : Int)).map fun s => (st, s)
  | .sc_bv_base, st, handle, bits, old_val =>
      some (st, vcdEmitValueChange handle bits (bv_to_string old_val))
  | .sc_lv_base, st, handle, bits, old_val =>
      some (st, vcdEmitValueChange handle bits (lv_to_string old_val))

/-- The virtual `record(os)` of a trace object. -/
def vcd_trace.record (t : vcd_trace) (st : Statics) : Option (Statics × String) :=
  record_val t.kind st t.fst_hndl t.bits t.old_val

/-- Source function `update_and_record(os)`: `update(); record(os);`. -/
def vcd_trace.update_and_record (t : vcd_trace) (mem : Mem) (st : Statics) :
    vcd_trace × Option (Statics × String) :=
  ((t.update mem), (t.update mem).record st)

/-! ## Scope tree -/

/-- Modelled from the spec: `util::split(name, '.')` (utility header, not part of the
given sources) splits a name on the delimiter into its ordered segments; a name without
delimiter is one segment.  `cur` is the segment being read, in reverse. -/
def split_go (sep : Char) : List Char → List Char → List String
  | [], cur => [String.mk cur.reverse]
  | c :: cs, cur =>
      if c = sep then String.mk cur.reverse :: split_go sep cs []
      else split_go sep cs (c :: cur)

/-- Modelled from the spec: `util::split`, see `split_go`. -/
def split (s : String) (sep : Char) : List String := split_go sep s.data []

/-- Source `struct vcd_scope_stack`: the leaves `m_traces` in insertion order and the
child scopes
`m_scopes`.  A leaf keeps the trace as it is when it is added (the fields a declaration
line reads, `bits` and `fst_hndl`, are final by then).  The iteration order of the
`std::unordered_map` is unspecified; the model iterates in insertion order. -/
inductive vcd_scope_stack
  | mk (m_traces : List (String × vcd_trace)) (m_scopes : List (String × vcd_scope_stack))

/-- The leaves of a scope. -/
def vcd_scope_stack.m_traces : vcd_scope_stack → List (String × vcd_trace)
  | .mk ts _ => ts

/-- The child scopes of a scope. -/
def vcd_scope_stack.m_scopes : vcd_scope_stack → List (String × vcd_scope_stack)
  | .mk _ ss => ss

/-- A default-constructed scope. -/
def vcd_scope_stack.empty : vcd_scope_stack := .mk [] []

/-- Source function `add_trace_rec(beg, end, trace)` on the remaining segments: the last
segment becomes a
leaf, any other segment selects (or creates) the child scope to descend into.  The
segment list is never empty because `split` returns at least one segment. -/
def vcd_scope_stack.add_trace_rec : List String → vcd_trace → vcd_scope_stack → vcd_scope_stack
  | [], _, sc => sc
  | [seg], trace, .mk ts ss => .mk (ts ++ [(seg, trace)]) ss
  | seg :: rest, trace, .mk ts ss =>
      if ss.any (fun e => e.1 == seg) then
        .mk ts (ss.map fun e => if e.1 == seg then (e.1, add_trace_rec rest trace e.2) else e)
      else
        .mk ts (ss ++ [(seg, add_trace_rec rest trace .empty)])

/-- Source function `add_trace(trace)`. -/
def vcd_scope_stack.add_trace (sc : vcd_scope_stack) (trace : vcd_trace) : vcd_scope_stack :=
  sc.add_trace_rec (split trace.name '.') trace

/-- What printing the declarations produces: the chunks written to the file and the
messages passed to `SC_REPORT_ERROR`. -/
structure Printed where
  chunks : List String
  errors : List String
  deriving DecidableEq, Repr

/-- Concatenation of two printing results. -/
def Printed.append (a b : Printed) : Printed := ⟨a.chunks ++ b.chunks, a.errors ++ b.errors⟩

/-- Source function `print_variable_declaration_line(os, scoped_name, trc)`: a zero-width
trace is reported and gets no line, a one-bit trace gets the short form, any other the
form with a range.  `SC_REPORT_ERROR` belongs to the SystemC library; it is taken to
record the message and return, which is what the `return` statement behind it and the
specification ("reported, run continues") presuppose. -/
def print_variable_declaration_line (scoped_name : String) (trc : vcd_trace) : Printed :=
  match trc.bits with
  | 0 => ⟨[], ["\x27" ++ scoped_name ++ "\x27 has 0 bits"]⟩
  | 1 => ⟨["$var wire " ++ fmt_d trc.bits ++ " " ++ trc.fst_hndl ++ "  " ++ scoped_name
        ++ " $end\n"], []⟩
  | _ => ⟨["$var wire " ++ fmt_d trc.bits ++ " " ++ trc.fst_hndl ++ " " ++ scoped_name
        ++ " [" ++ fmt_d (trc.bits - 1) ++ ":0] $end\n"], []⟩

mutual
/-- Source function `print(os, scope_name)`: the scope header, the declaration lines of
the leaves, the
child scopes, the scope footer. -/
def vcd_scope_stack.print : vcd_scope_stack → String → Printed
  | .mk ts ss, scope_name =>
      (Printed.mk ["$scope module " ++ scope_name ++ " $end\n"] []).append
        (((ts.foldl (fun acc e => acc.append (print_variable_declaration_line e.1 e.2))
            (Printed.mk [] [])).append (vcd_scope_stack.print_scopes ss)).append
          (Printed.mk ["$upscope $end\n"] []))
/-- The loop `for (auto& e : m_scopes) e.second->print(os, e.first.c_str())`. -/
def vcd_scope_stack.print_scopes : List (String × vcd_scope_stack) → Printed
  | [] => Printed.mk [] []
  | (n, c) :: rest => (vcd_scope_stack.print c n).append (vcd_scope_stack.print_scopes rest)
end

/-! ## The recorder -/

/-- The members of `mt_vcd_trace_file` the recorder logic uses.  `all_traces` is the list
of trace objects, `active_traces` and `changed_traces` hold positions in `all_traces`. -/
structure mt_vcd_trace_file where
  all_traces : List vcd_trace
  active_traces : List Nat
  changed_traces : List Nat
  vcd_name_index : Nat
  initialized : Bool

/-- The recorder after construction: no traces, counter 0, not initialized. -/
def mt_vcd_trace_file.create : mt_vcd_trace_file :=
  { all_traces := [], active_traces := [], changed_traces := [], vcd_name_index := 0,
    initialized := false }

/-- Macros `DECL_TRACE_METHOD_A(tp)` and `DECL_TRACE_METHOD_C(tp, tpo)`:
`trace(object, name)` appends a new trace object built without a width. -/
def mt_vcd_trace_file.trace (f : mt_vcd_trace_file) (k : Kind) (mem : Mem) (object : Nat)
    (name : String) : mt_vcd_trace_file :=
  { f with all_traces := f.all_traces ++ [vcd_trace_t k mem object name (-1)] }

/-- Macro `DECL_TRACE_METHOD_B(tp)`: `trace(object, name, width)` for the fixed-width
integer
types.  The body is the one of `DECL_TRACE_METHOD_A`: the constructor is called with
`(object, name)` only, so its `width` parameter takes the default `-1`. -/
def mt_vcd_trace_file.trace_width (f : mt_vcd_trace_file) (t : IntKind) (mem : Mem)
    (object : Nat) (name : String) (_width : Int) : mt_vcd_trace_file :=
  { f with all_traces := f.all_traces ++ [vcd_trace_t (.int t) mem object name (-1)] }

/-- Source function `obtain_name()`: five base-26 digits of the counter, most significant
first, as
lowercase letters; the counter is incremented.  Returns the name and the new counter. -/
def obtain_name (vcd_name_index : Nat) : String × Nat :=
  let first_type_used := 97
  let used_types_count := 122 - 97 + 1
  let result := vcd_name_index
  let char6 := vcd_name_index % used_types_count
  let result := result / used_types_count
  let char5 := result % used_types_count
  let result := result / used_types_count
  let char4 := result % used_types_count
  let result := result / used_types_count
  let char3 := result % used_types_count
  let result := result / used_types_count
  let char2 := result % used_types_count
  (String.mk [Char.ofNat (char2 + first_type_used), Char.ofNat (char3 + first_type_used),
      Char.ofNat (char4 + first_type_used), Char.ofNat (char5 + first_type_used),
      Char.ofNat (char6 + first_type_used)],
    vcd_name_index + 1)

/-- The state of the loop of `init()`: the traces already processed, `alias_map` (most
recent insertion first; `find` returns the entry of a key, keys are inserted once),
the scope tree and the identifier counter. -/
structure init_state where
  done : List vcd_trace
  alias_map : List (Nat × String)
  scope : vcd_scope_stack
  vcd_name_index : Nat

/-- One iteration of the loop of `init()` for the entry `e`. -/
def init_step (s : init_state) (e : vcd_trace) : init_state :=
  let alias_it := s.alias_map.lookup e.get_hash
  let is_alias := alias_it.isSome
  let named := match alias_it with
    | some second => (second, s.vcd_name_index)
    | none => obtain_name s.vcd_name_index
  let trc := { e with is_alias := is_alias, fst_hndl := named.1 }
  { done := s.done ++ [trc]
    alias_map := if !is_alias then (trc.get_hash, trc.fst_hndl) :: s.alias_map else s.alias_map
    scope := s.scope.add_trace trc
    vcd_name_index := named.2 }

/-- The loop `for(auto& e : all_traces)` of `init()`. -/
def init_loop (vcd_name_index : Nat) (all_traces : List vcd_trace) : init_state :=
  all_traces.foldl init_step ⟨[], [], .empty, vcd_name_index⟩

/-- The `std::sort` of `init()` with the comparison `a.trc->name < b.trc->name` (byte-wise
lexicographic).  `std::sort` leaves the relative order of entries with equal names
unspecified; the model keeps their registration order. -/
def sort_traces (all_traces : List vcd_trace) : List vcd_trace :=
  all_traces.insertionSort fun a b => a.name.data ≤ b.name.data

/-- The `std::copy_if` of `init()`: the positions of the entries that are not aliases. -/
def copy_if_not_alias (all_traces : List vcd_trace) : List Nat :=
  (List.range all_traces.length).filter fun i =>
    match all_traces[i]? with
    | some trc => !trc.is_alias
    | none => false

/-- What a call reads from outside the recorder: the live values, the result of the enable
predicate (`none` when no predicate was supplied), the text of
`sc_core::sc_time_stamp()/1_ps` as `fmt` prints it, the text of the current date as
`strftime` gives it, of `sc_core::sc_version()` and of `(1_ps).to_string()`. -/
structure Env where
  mem : Mem
  check_enabled : Option Bool
  time_stamp : String
  date : String
  sc_version : String
  one_ps : String

/-- Source function `write_comment(comment)`. -/
def write_comment (comment : String) : String := "$comment\n" ++ comment ++ "\n$end\n\n"

/-- Source function `init()`: sort, assign aliases and identifiers, collect the active
traces, write the
header, the comment and the declarations.  Returns the recorder and what was printed. -/
def mt_vcd_trace_file.init (f : mt_vcd_trace_file) (env : Env) :
    mt_vcd_trace_file × Printed :=
  let s := init_loop f.vcd_name_index (sort_traces f.all_traces)
  let active := f.active_traces ++ copy_if_not_alias s.done
  ({ f with all_traces := s.done, active_traces := active, vcd_name_index := s.vcd_name_index },
   (Printed.mk
      ["$date\n     " ++ env.date ++ "\n$end\n\n",
       "$version\n " ++ env.sc_version ++ "\n$end\n\n",
       "$timescale\n     " ++ env.one_ps ++ "\n$end\n\n",
       write_comment ("tracing " ++ fmt_d active.length ++ " distinct traces out of "
         ++ fmt_d s.done.length ++ " traces")] []).append (s.scope.print "SystemC"))

/-- The loop `for(auto& e : active_traces) e.trc->update_and_record(vcd_out)` of the
initial dump: the snapshots of the listed traces are updated; the result of the writes
is `none` when a `record` is undefined. -/
def dump_all (mem : Mem) :
    List Nat → List vcd_trace × Option (Statics × List String) →
      List vcd_trace × Option (Statics × List String)
  | [], acc => acc
  | i :: rest, (traces, out) =>
      match traces[i]? with
      | none => dump_all mem rest (traces, out)
      | some trc =>
          match out with
          | none => dump_all mem rest (traces.set i (trc.update mem), none)
          | some w =>
              dump_all mem rest
                (traces.set i (trc.update_and_record mem w.1).1,
                 (trc.update_and_record mem w.1).2.map fun r => (r.1, w.2 ++ [r.2]))

/-- The loop `for(auto& e : active_traces) if(e.compare_and_update(e.trc))
changed_traces.push_back(e.trc)`. -/
def compare_all (mem : Mem) :
    List Nat → List vcd_trace × List Nat → List vcd_trace × List Nat
  | [], acc => acc
  | i :: rest, (traces, changed_traces) =>
      match traces[i]? with
      | none => compare_all mem rest (traces, changed_traces)
      | some trc =>
          if (changed trc mem).1 then
            compare_all mem rest (traces.set i (changed trc mem).2, changed_traces ++ [i])
          else compare_all mem rest (traces, changed_traces)

/-- The loop `for(auto& t : changed_traces) t->record(vcd_out)`. -/
def record_all (traces : List vcd_trace) :
    List Nat → Option (Statics × List String) → Option (Statics × List String)
  | [], out => out
  | i :: rest, out =>
      match traces[i]? with
      | none => record_all traces rest out
      | some trc =>
          record_all traces rest
            (out.bind fun w => (trc.record w.1).map fun r => (r.1, w.2 ++ [r.2]))

/-- The result of a call of `cycle`: the recorder afterwards, the messages reported with
`SC_REPORT_ERROR`, and the static buffers together with the chunks written to `vcd_out`
(`none` when a write of the call is undefined). -/
structure cycle_result where
  file : mt_vcd_trace_file
  errors : List String
  written : Option (Statics × List String)

/-- Source function `cycle(delta_cycle)`. -/
def mt_vcd_trace_file.cycle (f : mt_vcd_trace_file) (st : Statics) (env : Env)
    (delta_cycle : Bool) : cycle_result :=
  if delta_cycle then ⟨f, [], some (st, [])⟩
  else if !f.initialized then
    let r := f.init env
    let d := dump_all env.mem r.1.active_traces
      (r.1.all_traces, some (st, r.2.chunks ++ ["$enddefinitions  $end\n\n$dumpvars\n"]))
    ⟨{ r.1 with all_traces := d.1, initialized := true }, r.2.errors,
      d.2.map fun w => (w.1, w.2 ++ ["$end\n\n"])⟩
  else if env.check_enabled = some false then ⟨f, [], some (st, [])⟩
  else
    let c := compare_all env.mem f.active_traces (f.all_traces, [])
    if c.2.length ≠ 0 then
      ⟨{ f with all_traces := c.1, changed_traces := c.2 }, [],
        record_all c.1 c.2 (some (st, ["#" ++ env.time_stamp ++ "\n"]))⟩
    else ⟨{ f with all_traces := c.1, changed_traces := c.2 }, [], some (st, [])⟩

/-- The part of a trace that `init()` leaves untouched and the claims speak about. -/
def vcd_trace.core (t : vcd_trace) : String × Nat × Nat × Kind :=
  (t.name, t.act_val, t.bits, t.kind)

/-- The invariant of the loop of `init()` after the entries `l` have been processed,
starting from the counter `c0`. -/
structure init_inv (c0 : Nat) (l : List vcd_trace) (s : init_state) : Prop where
  core_eq : s.done.map vcd_trace.core = l.map vcd_trace.core
  names : ∃ ks : List Nat, s.alias_map.map Prod.snd = ks.map (fun k => (obtain_name k).1) ∧
    ks.Nodup ∧ (∀ k ∈ ks, k < s.vcd_name_index) ∧ s.vcd_name_index = c0 + ks.length
  keys_nodup : (s.alias_map.map Prod.fst).Nodup
  keys_eq : ∀ h, h ∈ s.alias_map.map Prod.fst ↔ h ∈ l.map vcd_trace.get_hash
  handle : ∀ t ∈ s.done, s.alias_map.lookup t.get_hash = some t.fst_hndl
  alias_flag : ∀ (i : Nat) (t : vcd_trace), s.done[i]? = some t →
    (t.is_alias = true ↔ t.get_hash ∈ (s.done.take i).map vcd_trace.get_hash)


/-! ## Concrete recorders used as witnesses -/

def mem_zero : Mem := fun k _ => match k with
  | .bool => false
  | .sc_bit => false
  | .sc_logic => Logic.L0
  | .int _ => (0 : Int)
  | .float => (0 : Nat)
  | .double => (0 : Nat)
  | .sc_int_base => ([] : List Bool)
  | .sc_uint_base => ([] : List Bool)
  | .sc_signed => ([] : List Bool)
  | .sc_unsigned => ([] : List Bool)
  | .sc_fxval => (0 : Nat)
  | .sc_fxval_fast => (0 : Nat)
  | .sc_fxnum => (0 : Nat)
  | .sc_fxnum_fast => (0 : Nat)
  | .sc_bv_base => ([] : List Bool)
  | .sc_lv_base => ([] : List Logic)

def env_zero : Env := ⟨mem_zero, none, "5", "Jan 01, 2021       00:00:00", "SystemC 2.3.3", "1 ps"⟩

def file_flag_counter : mt_vcd_trace_file :=
  (mt_vcd_trace_file.create.trace .bool mem_zero 100 "top.flag").trace_width
    .unsigned_char mem_zero 200 "top.counter" 8

/-- The recorder of the scenario "two names bound to the same integer": `a.b` and `a.c`
registered for the object at address 300. -/
def file_ab_ac : mt_vcd_trace_file :=
  (mt_vcd_trace_file.create.trace_width .int mem_zero 300 "a.b" 32).trace_width
    .int mem_zero 300 "a.c" 32

/-! ## Reading of the claims about value lines -/

/-- The number a string of binary digits denotes, most significant digit first. -/
def bin_value (cs : List Char) : Nat :=
  cs.foldl (fun acc c => 2 * acc + (if c = '1' then 1 else 0)) 0

/-- The `w`-character binary string of a number, most significant bit first, leading
zeros kept (the encoding the specification describes for fixed-width integers). -/
def bin_padded (w n : Nat) : String :=
  String.mk ((List.range w).reverse.map fun i => if n.testBit i then '1' else '0')

/-- The value line the specification describes for a fixed-width integer of width `w`
with identifier `id` and value `v`: `b`, the `w`-character binary string of
`v & (2^w - 1)`, a space, the identifier, a newline. -/
def spec_int_line (w : Nat) (id : String) (v : Int) : String :=
  "b" ++ bin_padded w (v % 2 ^ w).toNat ++ " " ++ id ++ "\n"

/-- An 8-bit integer trace with snapshot 0 and identifier `aaaab`. -/
def trace_counter : vcd_trace :=
  ⟨.int .unsigned_char, "top.counter", "aaaab", false, 8, (0 : Int), 200⟩

/-- The value line the specification describes for a vector of more than one bit with
identifier `id` and encoded bit string `s`: `b`, the bit string, a space, the identifier,
a newline. -/
def spec_vector_line (id : String) (s : String) : String :=
  "b" ++ s ++ " " ++ id ++ "\n"

/-- A two-bit `sc_bv_base` trace with snapshot `10` and identifier `aaaaa`. -/
def trace_bv : vcd_trace :=
  ⟨.sc_bv_base, "top.vec", "aaaaa", false, 2, [false, true], 300⟩

/-- A recorder holding one `unsigned int` registered with the explicit width 8. -/
def file_width8 : mt_vcd_trace_file :=
  mt_vcd_trace_file.create.trace_width .unsigned_int mem_zero 200 "top.counter" 8

/-! ## Reading of the claims about change detection -/

/-- The kinds whose snapshot is a floating-point number. -/
def Kind.is_float : Kind → Bool
  | .float | .double | .sc_fxval | .sc_fxval_fast | .sc_fxnum | .sc_fxnum_fast => true
  | _ => false

/-- The value is a floating-point NaN (never the case for the other kinds). -/
def Kind.is_nan : (k : Kind) → Val k → Bool
  | .float, v => ieee_is_nan 8 23 v
  | .double, v => ieee_is_nan 11 52 v
  | .sc_fxval, v => ieee_is_nan 11 52 v
  | .sc_fxval_fast, v => ieee_is_nan 11 52 v
  | .sc_fxnum, v => ieee_is_nan 11 52 v
  | .sc_fxnum_fast, v => ieee_is_nan 11 52 v
  | .bool, _ => false
  | .sc_bit, _ => false
  | .sc_logic, _ => false
  | .int _, _ => false
  | .sc_int_base, _ => false
  | .sc_uint_base, _ => false
  | .sc_signed, _ => false
  | .sc_unsigned, _ => false
  | .sc_bv_base, _ => false
  | .sc_lv_base, _ => false

/-- The live value of the object a trace observes. -/
def vcd_trace.live (t : vcd_trace) (mem : Mem) : Val t.kind := mem t.kind t.act_val

/-- The snapshot of the trace has the same representation as the live value. -/
def vcd_trace.synced (t : vcd_trace) (mem : Mem) : Bool := decide (t.old_val = t.live mem)

/-- The snapshot of the trace differs from the live value under the `!=` of its kind. -/
def vcd_trace.ne_live (t : vcd_trace) (mem : Mem) : Bool := t.kind.ne t.old_val (t.live mem)

/-- The live value of the trace is a NaN. -/
def vcd_trace.live_is_nan (t : vcd_trace) (mem : Mem) : Bool := t.kind.is_nan (t.live mem)

/-- The trace at a position of the vector exists and differs from its live value under
the `!=` of its kind. -/
def differs_at (traces : List vcd_trace) (mem : Mem) (i : Nat) : Bool :=
  match traces[i]? with
  | some t => t.ne_live mem
  | none => false

/-- The value lines of a list of traces, recorded one after the other. -/
def emit_lines : Statics → List vcd_trace → Option (Statics × List String)
  | st, [] => some (st, [])
  | st, t :: ts => (t.record st).bind fun r => (emit_lines r.1 ts).map fun w => (w.1, r.2 :: w.2)

/-- The state an initialized recorder is in: the active entries are distinct positions of
existing traces that are not aliases. -/
@[reducible]
def mt_vcd_trace_file.wf (f : mt_vcd_trace_file) : Prop :=
  f.active_traces.Nodup ∧
    ∀ i ∈ f.active_traces, (f.all_traces[i]?).map vcd_trace.is_alias = some false

/-- The position `i` of the vector holds a trace that `changed()` reports. -/
def changed_at (traces : List vcd_trace) (mem : Mem) (i : Nat) : Bool :=
  match traces[i]? with
  | some t => t.changed mem
  | none => false

/-- The memory of the scenario after `top.flag` (the `bool` at address 100) became true. -/
def mem_flag : Mem := fun k a => match k with
  | .bool => decide (a = 100)
  | k => mem_zero k a

/-- The surroundings of a settled cycle at time 5 after `top.flag` became true. -/
def env_flag : Env := { env_zero with mem := mem_flag }

/-- The recorder of the scenario after its first settled cycle. -/
def file_flag_counter_init : mt_vcd_trace_file :=
  (file_flag_counter.cycle Statics.fresh env_zero false).file

/-- A recorder observing one `float` at address 100 (live value `+0.0`), after its first
settled cycle. -/
def file_float_init : mt_vcd_trace_file :=
  ((mt_vcd_trace_file.create.trace .float mem_zero 100 "top.f").cycle
    Statics.fresh env_zero false).file

/-- The memory in which the `float` objects hold `-0.0` (pattern `0x80000000`). -/
def mem_negzero : Mem := fun k a => match k with
  | .float => (2 ^ 31 : Nat)
  | k => mem_zero k a

/-- The surroundings of a settled cycle after the floats became `-0.0`. -/
def env_negzero : Env := { env_zero with mem := mem_negzero }

/-- The memory in which the `float` objects hold a quiet NaN (pattern `0x7FC00000`). -/
def mem_nan : Mem := fun k a => match k with
  | .float => (2143289344 : Nat)
  | k => mem_zero k a

/-- The surroundings of a settled cycle while the floats hold a NaN. -/
def env_nan : Env := { env_zero with mem := mem_nan }

/-- A recorder with one `float` registered while it holds a NaN, not yet initialized. -/
def file_float_nan : mt_vcd_trace_file :=
  mt_vcd_trace_file.create.trace .float mem_nan 100 "top.f"

/-- A `bool` trace with snapshot false and identifier `aaaab`, observing address 100. -/
def trace_flag : vcd_trace := ⟨.bool, "top.flag", "aaaab", false, 1, false, 100⟩

/-- A `float` trace with snapshot `+0.0` and identifier `aaaaa`, observing address 100. -/
def trace_float : vcd_trace := ⟨.float, "top.f", "aaaaa", false, 32, (0 : Nat), 100⟩

/-- The surroundings of a settled cycle during which the enable predicate returns false,
with `top.flag` already true. -/
def env_flag_disabled : Env := { env_flag with check_enabled := some false }

/-- The surroundings of a settled cycle during which the enable predicate returns false,
with the floats already `-0.0`. -/
def env_negzero_disabled : Env := { env_negzero with check_enabled := some false }

/-- The surroundings of a settled cycle during which the enable predicate returns true,
with the floats `-0.0`. -/
def env_negzero_enabled : Env := { env_negzero with check_enabled := some true }

/-- The recorder observing a NaN `float`, after its first settled cycle. -/
def file_float_nan_init : mt_vcd_trace_file :=
  (file_float_nan.cycle Statics.fresh env_nan false).file

/-! ## Reading of the claims about identifiers -/

/-- The number a string of lowercase letters denotes in base 26, most significant symbol
first, `a` being the digit 0. -/
def base26_value (cs : List Char) : Nat :=
  cs.foldl (fun acc c => 26 * acc + (c.toNat - 97)) 0

/-- The character is a lowercase letter `a` .. `z`. -/
def is_lowercase (c : Char) : Bool := decide (97 ≤ c.toNat ∧ c.toNat ≤ 122)

/-! ## Name sanitising -/

/-- The loop of `prune_name`: every `[` becomes `(`, every `]` becomes `)`; the flag tells
whether a bracket was replaced (`braces_removed`). -/
def prune_chars : List Char → List Char × Bool
  | [] => ([], false)
  | c :: cs =>
      if c = '[' then ('(' :: (prune_chars cs).1, true)
      else if c = ']' then (')' :: (prune_chars cs).1, true)
      else (c :: (prune_chars cs).1, (prune_chars cs).2)

/-- Source function `prune_name(orig_name)` of the recorder called `name`, with the
function-local `static bool warned` as explicit state: returns the rewritten name, the
value of `warned` afterwards and the messages passed to `SC_REPORT_WARNING`.  The body
never assigns `warned`. -/
def prune_name (name : String) (warned : Bool) (orig_name : String) :
    String × Bool × List String :=
  let hier_name := String.mk (prune_chars orig_name.data).1
  let braces_removed := (prune_chars orig_name.data).2
  (hier_name, warned,
    if braces_removed && !warned then
      [name ++ ":\n" ++ "\tTraced objects found with name containing [], which may be\n"
        ++ "\tinterpreted by the waveform viewer in unexpected ways.\n"
        ++ "\tSo the [] is automatically replaced by ()."]
    else [])

/-- A sequence of `prune_name` calls in one run: the static flag is threaded through the
calls, the warnings of all calls are collected. -/
def prune_names (name : String) : Bool → List String → Bool × List String
  | warned, [] => (warned, [])
  | warned, n :: ns =>
      ((prune_names name (prune_name name warned n).2.1 ns).1,
        (prune_name name warned n).2.2 ++ (prune_names name (prune_name name warned n).2.1 ns).2)

/-! ## Concrete recorders and traces for the error-handling claims -/

/-- A recorder with one boolean registered under the name `top.sig[0]`. -/
def file_bracket : mt_vcd_trace_file :=
  mt_vcd_trace_file.create.trace .bool mem_zero 100 "top.sig[0]"

/-- The 64-bit pattern of the `double` value `1.0` (`0x3FF0000000000000`). -/
def pattern_one : Nat := 4607182418800017408

/-- The 64-bit pattern of the `double` value `2.0` (`0x4000000000000000`). -/
def pattern_two : Nat := 4611686018427387904

/-- A `double` trace with snapshot `1.0` and identifier `aaaaa`. -/
def trace_double : vcd_trace := ⟨.double, "top.d", "aaaaa", false, 64, pattern_one, 100⟩

/-- A fixed-point trace (`sc_fxval`) with snapshot `1.0` and identifier `aaaaa`. -/
def trace_fxval : vcd_trace := ⟨.sc_fxval, "top.x", "aaaaa", false, 64, pattern_one, 100⟩

/-- An `sc_int_base` trace of length 3 with snapshot `101` and identifier `aaaaa`. -/
def trace_int3 : vcd_trace :=
  ⟨.sc_int_base, "top.a", "aaaaa", false, 3, [true, false, true], 100⟩

/-- An `sc_int_base` trace of length 2 with snapshot `10` and identifier `aaaab`. -/
def trace_int2 : vcd_trace :=
  ⟨.sc_int_base, "top.b", "aaaab", false, 2, [false, true], 200⟩

/-- The memory in which the `sc_int_base` object at address 100 is three bits wide and
holds `101`, and every other `sc_int_base` object is two bits wide and holds `10`. -/
def mem_ints : Mem := fun k a => match k with
  | .sc_int_base => if a = 100 then [true, false, true] else [false, true]
  | k => mem_zero k a

/-- The surroundings of the first settled cycle with the memory `mem_ints`. -/
def env_ints : Env := { env_zero with mem := mem_ints }

/-- A recorder with the `sc_int_base` objects `top.a` (three bits, at address 100) and
`top.b` (two bits, at address 200), not yet initialized. -/
def file_int3_int2 : mt_vcd_trace_file :=
  (mt_vcd_trace_file.create.trace .sc_int_base mem_ints 100 "top.a").trace
    .sc_int_base mem_ints 200 "top.b"

/-! ## Reading of the claims about lists of registered traces -/

mutual
/-- All leaves of a scope tree with their display names, in the order `print` visits
them: the leaves of the scope itself, then those of the child scopes. -/
def vcd_scope_stack.leaves : vcd_scope_stack → List (String × vcd_trace)
  | .mk ts ss => ts ++ vcd_scope_stack.leaves_scopes ss
/-- The leaves of a list of child scopes, in order. -/
def vcd_scope_stack.leaves_scopes : List (String × vcd_scope_stack) → List (String × vcd_trace)
  | [] => []
  | (_, c) :: rest => c.leaves ++ vcd_scope_stack.leaves_scopes rest
end

mutual
/-- A property of the leaves and of the child names that holds at every scope of a tree. -/
def vcd_scope_stack.all_nodes (P : List (String × vcd_trace) → List String → Prop) :
    vcd_scope_stack → Prop
  | .mk ts ss => P ts (ss.map Prod.fst) ∧ vcd_scope_stack.all_nodes_scopes P ss
/-- The property holds at every scope of every tree of a list of child scopes. -/
def vcd_scope_stack.all_nodes_scopes (P : List (String × vcd_trace) → List String → Prop) :
    List (String × vcd_scope_stack) → Prop
  | [] => True
  | (_, c) :: rest => c.all_nodes P ∧ vcd_scope_stack.all_nodes_scopes P rest
end

/-- The chunk is a declaration line (it starts with `$var `). -/
def is_declaration (c : String) : Bool := c.data.take 5 == ['$', 'v', 'a', 'r', ' ']

/-- The last segment of a hierarchical name, the display name of its declaration. -/
def last_segment (name : String) : String := ((split name '.').getLast?).getD ""

/-- What the declaration of a trace prints: its declaration line under its display name,
or the error report when its width is 0. -/
def declaration_of (t : vcd_trace) : Printed :=
  print_variable_declaration_line (last_segment t.name) t

/-- The identifier `init()` gives the traces that observe the object with identity `h`:
the entry of `alias_map` for `h` when the loop has ended (the empty text when no
registered trace observes the object). -/
def init_handle (f : mt_vcd_trace_file) (h : Nat) : String :=
  ((init_loop f.vcd_name_index (sort_traces f.all_traces)).alias_map.lookup h).getD ""

/-- A registered trace carrying the identifier `init()` gives its object. -/
def vcd_trace.with_handle (t : vcd_trace) (f : mt_vcd_trace_file) : vcd_trace :=
  { t with fst_hndl := init_handle f t.get_hash }

/-- A recorder with the booleans `b` and `a.b`, not yet initialized. -/
def file_b_ab : mt_vcd_trace_file :=
  (mt_vcd_trace_file.create.trace .bool mem_zero 100 "b").trace .bool mem_zero 200 "a.b"

/-- The property of one scope the loop of `init()` maintains, `done` being the entries
processed so far: the child names are distinct, the leaves are processed entries in
their processing order, each under the last segment of its name. -/
def scope_ok (done : List vcd_trace) (ts : List (String × vcd_trace)) (ks : List String) :
    Prop :=
  ks.Nodup ∧ (ts.map Prod.snd).Sublist done ∧ ∀ e ∈ ts, e.1 = last_segment e.2.name

/-- A recorder with one `uint64` registered through the width-taking overload, not yet
initialized. -/
def file_uint64 : mt_vcd_trace_file :=
  mt_vcd_trace_file.create.trace_width .uint64 mem_zero 100 "top.q" 64

/-- The `uint64` trace of `file_uint64` as `init()` leaves it. -/
def trace_uint64 : vcd_trace := ⟨.int .uint64, "top.q", "aaaaa", false, 64, (0 : Int), 100⟩

/-! ## Reading of the claims about sequences of cycles -/

/-- The static buffers after a call that started with the buffers `st`; after a call
whose text is undefined they are taken as they were before it. -/
def cycle_result.statics (r : cycle_result) (st : Statics) : Statics :=
  match r.written with
  | some w => w.1
  | none => st

/-- The results of a sequence of `cycle` calls, each given by what it reads from outside
and its `delta_cycle` argument.  The recorder and the static buffers are passed from one
call to the next. -/
def run_cycles : mt_vcd_trace_file → Statics → List (Env × Bool) → List cycle_result
  | _, _, [] => []
  | f, st, call :: rest =>
      f.cycle st call.1 call.2 ::
        run_cycles (f.cycle st call.1 call.2).file ((f.cycle st call.1 call.2).statics st) rest

/-- The chunk starts with `$`.  Every chunk of the header and of the declarations does
(`$date`, `$version`, `$timescale`, `$comment`, `$scope`, `$var`, `$upscope`), and so do
the `$enddefinitions`/`$dumpvars` chunk and the `$end` chunk of the first cycle; a
timestamp line starts with `#`, a value line with a value character or with `b`. -/
def is_definition_chunk (c : String) : Bool := c.data.head? == some '$'

/-- A static buffer holds binary digits only (or was not constructed yet), as every
buffer does that only the `record` specialisations have written to. -/
def rawdata_ok : Option rawdata_buf → Bool
  | none => true
  | some b => b.chars.all fun c => c == '0' || c == '1'

/-- All four static buffers hold binary digits only. -/
def Statics.ok (st : Statics) : Bool :=
  rawdata_ok st.sc_int_base && rawdata_ok st.sc_uint_base && rawdata_ok st.sc_signed
    && rawdata_ok st.sc_unsigned

/-- The call wrote a chunk of the header or of the declarations (a chunk starting with
`$`); a call whose text is undefined has no such chunk to show. -/
def writes_definitions (r : cycle_result) : Bool :=
  match r.written with
  | some w => w.2.any is_definition_chunk
  | none => false

/-! # Properties -/

/-! ## The identifier allocator -/

theorem char_ofNat_toNat_small (n : Nat) (h : n < 55296) : (Char.ofNat n).toNat = n := by
  have hv : n.isValidChar := Or.inl h
  simp only [Char.ofNat, hv, dite_true]
  simp [Char.ofNatAux, Char.toNat, UInt32.toNat]

theorem letter_inj (a b : Nat) (ha : a < 26) (hb : b < 26)
    (h : Char.ofNat (a + 97) = Char.ofNat (b + 97)) : a = b := by
  have h1 := congrArg Char.toNat h
  rw [char_ofNat_toNat_small _ (by omega), char_ofNat_toNat_small _ (by omega)] at h1
  omega

theorem obtain_name_inj (i j : Nat) (hi : i < 26 ^ 5) (hj : j < 26 ^ 5)
    (h : (obtain_name i).1 = (obtain_name j).1) : i = j := by
  have h' := congrArg String.data h
  simp only [obtain_name, List.cons.injEq, and_true] at h'
  obtain ⟨h2, h3, h4, h5, h6⟩ := h'
  have e2 := letter_inj _ _ (Nat.mod_lt _ (by norm_num)) (Nat.mod_lt _ (by norm_num)) h2
  have e3 := letter_inj _ _ (Nat.mod_lt _ (by norm_num)) (Nat.mod_lt _ (by norm_num)) h3
  have e4 := letter_inj _ _ (Nat.mod_lt _ (by norm_num)) (Nat.mod_lt _ (by norm_num)) h4
  have e5 := letter_inj _ _ (Nat.mod_lt _ (by norm_num)) (Nat.mod_lt _ (by norm_num)) h5
  have e6 := letter_inj _ _ (Nat.mod_lt _ (by norm_num)) (Nat.mod_lt _ (by norm_num)) h6
  norm_num at hi hj e2 e3 e4 e5 e6
  omega

/-! ## The loop of `init()` -/

theorem lookup_isSome_iff (m : List (Nat × String)) (h : Nat) :
    (m.lookup h).isSome = true ↔ h ∈ m.map Prod.fst := by
  induction m with
  | nil => simp
  | cons p m ih =>
    obtain ⟨k, v⟩ := p
    by_cases hk : h = k
    · subst hk; simp [List.lookup]
    · have : (h == k) = false := by simpa using hk
      simp [List.lookup, this, ih, hk]

theorem lookup_mem (m : List (Nat × String)) (h : Nat) (v : String)
    (hl : m.lookup h = some v) : (h, v) ∈ m := by
  induction m with
  | nil => simp at hl
  | cons p m ih =>
    obtain ⟨k, w⟩ := p
    by_cases hk : h = k
    · subst hk; simp [List.lookup] at hl; simp [hl]
    · have : (h == k) = false := by simpa using hk
      simp [List.lookup, this] at hl
      exact List.mem_cons_of_mem _ (ih hl)

theorem obtain_name_snd (c : Nat) : (obtain_name c).2 = c + 1 := rfl

theorem core_hash (d l : List vcd_trace)
    (h : d.map vcd_trace.core = l.map vcd_trace.core) :
    d.map vcd_trace.get_hash = l.map vcd_trace.get_hash := by
  have := congrArg (List.map fun c : String × Nat × Nat × Kind => c.2.1) h
  simpa [List.map_map, Function.comp_def, vcd_trace.core, vcd_trace.get_hash] using this

theorem init_inv_start (c0 : Nat) : init_inv c0 [] ⟨[], [], .empty, c0⟩ where
  core_eq := rfl
  names := ⟨[], rfl, List.nodup_nil, by simp, rfl⟩
  keys_nodup := List.nodup_nil
  keys_eq := by simp
  handle := by simp
  alias_flag := by simp

theorem init_step_none (s : init_state) (e : vcd_trace)
    (hl : s.alias_map.lookup e.get_hash = none) :
    init_step s e =
      { done := s.done ++ [{ e with is_alias := false, fst_hndl := (obtain_name s.vcd_name_index).1 }]
        alias_map := (e.get_hash, (obtain_name s.vcd_name_index).1) :: s.alias_map
        scope := s.scope.add_trace
          { e with is_alias := false, fst_hndl := (obtain_name s.vcd_name_index).1 }
        vcd_name_index := s.vcd_name_index + 1 } := by
  unfold init_step
  simp only [hl]
  rfl

theorem init_step_some (s : init_state) (e : vcd_trace) (v : String)
    (hl : s.alias_map.lookup e.get_hash = some v) :
    init_step s e =
      { done := s.done ++ [{ e with is_alias := true, fst_hndl := v }]
        alias_map := s.alias_map
        scope := s.scope.add_trace { e with is_alias := true, fst_hndl := v }
        vcd_name_index := s.vcd_name_index } := by
  unfold init_step
  simp only [hl]
  rfl

theorem lookup_cons_ne (m : List (Nat × String)) (h k : Nat) (v : String) (hne : h ≠ k) :
    List.lookup h ((k, v) :: m) = List.lookup h m := by
  have : (h == k) = false := by simpa using hne
  simp [List.lookup, this]

theorem lookup_cons_self (m : List (Nat × String)) (k : Nat) (v : String) :
    List.lookup k ((k, v) :: m) = some v := by
  simp [List.lookup]

theorem init_inv_step (c0 : Nat) (l : List vcd_trace) (s : init_state) (e : vcd_trace)
    (inv : init_inv c0 l s) : init_inv c0 (l ++ [e]) (init_step s e) := by
  obtain ⟨hcore, ⟨ks, hks, hnd, hlt, hidx⟩, hkn, hke, hh, hfl⟩ := inv
  have hhash : s.done.map vcd_trace.get_hash = l.map vcd_trace.get_hash := core_hash _ _ hcore
  cases hl : s.alias_map.lookup e.get_hash with
  | none =>
    have hnot : e.get_hash ∉ s.alias_map.map Prod.fst := by
      rw [← lookup_isSome_iff, hl]; simp
    rw [init_step_none s e hl]
    refine ⟨?_, ⟨s.vcd_name_index :: ks, ?_, ?_, ?_, ?_⟩, ?_, ?_, ?_, ?_⟩
    · simp [hcore, vcd_trace.core]
    · simp [hks]
    · exact List.nodup_cons.2 ⟨fun hm => Nat.lt_irrefl _ (hlt _ hm), hnd⟩
    · intro k hk
      rcases List.mem_cons.1 hk with rfl | hk
      · exact Nat.lt_succ_self _
      · exact Nat.lt_succ_of_lt (hlt k hk)
    · simp only [List.length_cons, hidx]; omega
    · exact List.nodup_cons.2 ⟨hnot, hkn⟩
    · intro h
      simp only [List.map_cons, List.mem_cons, List.map_append, List.mem_append, List.map_nil,
        List.mem_singleton, hke h]
      tauto
    · intro t ht
      rcases List.mem_append.1 ht with ht | ht
      · have h1 := hh t ht
        have hne : t.get_hash ≠ e.get_hash := by
          intro heq; rw [heq, hl] at h1; exact Option.noConfusion h1
        rw [lookup_cons_ne _ _ _ _ hne]; exact h1
      · rw [List.mem_singleton.1 ht]
        exact lookup_cons_self _ _ _
    · intro i t hi
      rcases Nat.lt_or_ge i s.done.length with hlt1 | hge
      · rw [List.getElem?_append_left hlt1] at hi
        rw [List.take_append_of_le_length (Nat.le_of_lt hlt1)]
        exact hfl i t hi
      · rw [List.getElem?_append_right hge] at hi
        have hi0 : i - s.done.length = 0 := by
          rcases Nat.eq_zero_or_pos (i - s.done.length) with h0 | hpos
          · exact h0
          · rw [List.getElem?_eq_none (by simp only [List.length_singleton]; omega)] at hi
            exact Option.noConfusion hi
        have hie : i = s.done.length := by omega
        rw [hi0] at hi
        simp only [List.getElem?_cons_zero, Option.some.injEq] at hi
        subst hi
        rw [hie, List.take_left, hhash, ← hke]
        constructor
        · intro h; exact Bool.noConfusion h
        · intro h; exact absurd h hnot
  | some v =>
    have hin : e.get_hash ∈ s.alias_map.map Prod.fst := by
      rw [← lookup_isSome_iff, hl]; simp
    rw [init_step_some s e v hl]
    refine ⟨?_, ⟨ks, hks, hnd, hlt, hidx⟩, hkn, ?_, ?_, ?_⟩
    · simp [hcore, vcd_trace.core]
    · intro h
      simp only [List.map_append, List.mem_append, List.map_cons, List.map_nil,
        List.mem_singleton, hke h]
      constructor
      · intro h1; exact Or.inl h1
      · rintro (h1 | rfl)
        · exact h1
        · exact (hke _).1 hin
    · intro t ht
      rcases List.mem_append.1 ht with ht | ht
      · exact hh t ht
      · rw [List.mem_singleton.1 ht]; exact hl
    · intro i t hi
      rcases Nat.lt_or_ge i s.done.length with hlt1 | hge
      · rw [List.getElem?_append_left hlt1] at hi
        rw [List.take_append_of_le_length (Nat.le_of_lt hlt1)]
        exact hfl i t hi
      · rw [List.getElem?_append_right hge] at hi
        have hi0 : i - s.done.length = 0 := by
          rcases Nat.eq_zero_or_pos (i - s.done.length) with h0 | hpos
          · exact h0
          · rw [List.getElem?_eq_none (by simp only [List.length_singleton]; omega)] at hi
            exact Option.noConfusion hi
        have hie : i = s.done.length := by omega
        rw [hi0] at hi
        simp only [List.getElem?_cons_zero, Option.some.injEq] at hi
        subst hi
        rw [hie, List.take_left, hhash, ← hke]
        constructor
        · intro _; exact hin
        · intro _; rfl

theorem init_inv_foldl (c0 : Nat) (l2 : List vcd_trace) :
    ∀ (l1 : List vcd_trace) (s : init_state), init_inv c0 l1 s →
      init_inv c0 (l1 ++ l2) (l2.foldl init_step s) := by
  induction l2 with
  | nil => intro l1 s h; simpa using h
  | cons e l2 ih =>
    intro l1 s h
    have := ih (l1 ++ [e]) (init_step s e) (init_inv_step c0 l1 s e h)
    simpa using this

theorem init_inv_loop (c0 : Nat) (l : List vcd_trace) : init_inv c0 l (init_loop c0 l) := by
  have := init_inv_foldl c0 l [] _ (init_inv_start c0)
  simpa [init_loop] using this

theorem sort_traces_perm (l : List vcd_trace) : (sort_traces l).Perm l :=
  List.perm_insertionSort _ l

theorem init_all_traces (f : mt_vcd_trace_file) (env : Env) :
    (f.init env).1.all_traces = (init_loop f.vcd_name_index (sort_traces f.all_traces)).done := rfl

theorem init_loop_handles_nodup (c0 : Nat) (l : List vcd_trace)
    (hcap : c0 + (l.map vcd_trace.get_hash).dedup.length ≤ 26 ^ 5) :
    ((init_loop c0 l).alias_map.map Prod.snd).Nodup := by
  obtain ⟨_, ⟨ks, hks, hnd, hlt, hidx⟩, hkn, hke, _⟩ := init_inv_loop c0 l
  have hlen : ks.length = ((init_loop c0 l).alias_map.map Prod.fst).length := by
    have := congrArg List.length hks
    simp only [List.length_map] at this ⊢
    exact this.symm
  have hsub : (init_loop c0 l).alias_map.map Prod.fst ⊆ (l.map vcd_trace.get_hash).dedup := by
    intro h hh
    exact List.mem_dedup.2 ((hke h).1 hh)
  have hle := (List.subperm_of_subset hkn hsub).length_le
  rw [hks]
  refine List.Nodup.map_on ?_ hnd
  intro x hx y hy hxy
  have hx1 := hlt x hx
  have hy1 := hlt y hy
  exact obtain_name_inj x y (by omega) (by omega) hxy

/-- C1: after `init()` with the allocator counter at 0, traces with different storage
identities carry different identifiers, provided the registered traces have fewer than
`26^5` distinct storage identities. -/
theorem init_identifiers_distinct (f : mt_vcd_trace_file) (env : Env)
    (h0 : f.vcd_name_index = 0)
    (hcap : (f.all_traces.map vcd_trace.get_hash).dedup.length < 26 ^ 5)
    (a b : vcd_trace) (ha : a ∈ (f.init env).1.all_traces) (hb : b ∈ (f.init env).1.all_traces)
    (hne : a.get_hash ≠ b.get_hash) : a.fst_hndl ≠ b.fst_hndl := by
  rw [init_all_traces, h0] at ha hb
  have hperm : ((sort_traces f.all_traces).map vcd_trace.get_hash).dedup.length
      = (f.all_traces.map vcd_trace.get_hash).dedup.length :=
    (((sort_traces_perm f.all_traces).map _).dedup).length_eq
  have hnodup := init_loop_handles_nodup 0 (sort_traces f.all_traces) (by omega)
  have inv := init_inv_loop 0 (sort_traces f.all_traces)
  have ma := lookup_mem _ _ _ (inv.handle a ha)
  have mb := lookup_mem _ _ _ (inv.handle b hb)
  intro heq
  have := List.inj_on_of_nodup_map hnodup ma mb heq
  exact hne (congrArg Prod.fst this)


theorem init_identifiers_distinct_witness :
    ∃ a b : vcd_trace, a ∈ (file_flag_counter.init env_zero).1.all_traces ∧
      b ∈ (file_flag_counter.init env_zero).1.all_traces ∧ a.get_hash ≠ b.get_hash ∧
      a.fst_hndl ≠ b.fst_hndl :=
  ⟨⟨.int .unsigned_char, "top.counter", "aaaaa", false, 8, (0 : Int), 200⟩,
    ⟨.bool, "top.flag", "aaaab", false, 1, false, 100⟩,
    List.mem_cons_self _ _, List.mem_cons_of_mem _ (List.mem_cons_self _ _), by decide,
    init_identifiers_distinct file_flag_counter env_zero rfl (by decide) _ _
      (List.mem_cons_self _ _) (List.mem_cons_of_mem _ (List.mem_cons_self _ _)) (by decide)⟩

/-! ## Alias groups after `init()` -/

theorem sort_traces_sorted (l : List vcd_trace) :
    (sort_traces l).Sorted (fun a b => a.name.data ≤ b.name.data) := by
  haveI : IsTotal vcd_trace (fun a b => a.name.data ≤ b.name.data) :=
    ⟨fun a b => le_total a.name.data b.name.data⟩
  haveI : IsTrans vcd_trace (fun a b => a.name.data ≤ b.name.data) :=
    ⟨fun _ _ _ h1 h2 => le_trans (α := List Char) h1 h2⟩
  exact List.sorted_insertionSort _ l

theorem sorted_of_core_eq (d l : List vcd_trace)
    (h : d.map vcd_trace.core = l.map vcd_trace.core)
    (hs : l.Sorted (fun a b => a.name.data ≤ b.name.data)) :
    d.Sorted (fun a b => a.name.data ≤ b.name.data) := by
  have hn : d.map (fun t => t.name.data) = l.map (fun t => t.name.data) := by
    have := congrArg (List.map fun c : String × Nat × Nat × Kind => c.1.data) h
    simpa [List.map_map, Function.comp_def, vcd_trace.core] using this
  have h1 : (l.map (fun t => t.name.data)).Pairwise (· ≤ ·) := List.pairwise_map.2 hs
  rw [← hn] at h1
  exact List.pairwise_map.1 h1

theorem mem_copy_if_not_alias (d : List vcd_trace) (j : Nat) :
    j ∈ copy_if_not_alias d ↔ ∃ q, d[j]? = some q ∧ q.is_alias = false := by
  unfold copy_if_not_alias
  rw [List.mem_filter, List.mem_range]
  constructor
  · rintro ⟨hj, hq⟩
    rw [List.getElem?_eq_getElem hj] at hq
    exact ⟨d[j], List.getElem?_eq_getElem hj, by simpa using hq⟩
  · rintro ⟨q, hq, ha⟩
    have hj : j < d.length := (List.getElem?_eq_some_iff.1 hq).1
    refine ⟨hj, ?_⟩
    rw [hq]; simp [ha]

theorem copy_if_not_alias_nodup (d : List vcd_trace) : (copy_if_not_alias d).Nodup :=
  List.Nodup.filter _ (List.nodup_range _)

theorem eq_singleton_of_nodup (l : List Nat) (i : Nat) (hn : l.Nodup)
    (hm : ∀ x, x ∈ l ↔ x = i) : l = [i] := by
  have hp : l.Perm [i] :=
    (List.perm_ext_iff_of_nodup hn (List.nodup_singleton i)).2 (by simpa using hm)
  exact List.perm_singleton.1 hp

theorem init_active_traces (f : mt_vcd_trace_file) (env : Env) :
    (f.init env).1.active_traces =
      f.active_traces ++ copy_if_not_alias (f.init env).1.all_traces := rfl

/-- The alias structure of the processed entries: for an identity that occurs, the first
entry carrying it is the only one that is not an alias, and all entries carrying it share
its identifier. -/
theorem init_loop_primary (c0 : Nat) (l : List vcd_trace) (h : Nat)
    (hmem : h ∈ l.map vcd_trace.get_hash) :
    ∃ (i : Nat) (p : vcd_trace),
      (init_loop c0 l).done[i]? = some p ∧ p.get_hash = h ∧ p.is_alias = false ∧
      ∀ (j : Nat) (q : vcd_trace), (init_loop c0 l).done[j]? = some q → q.get_hash = h →
        (j ≠ i → i < j ∧ q.is_alias = true ∧ q.fst_hndl = p.fst_hndl) ∧
        (q.is_alias = false → j = i) := by
  have inv := init_inv_loop c0 l
  have hhash := core_hash _ _ inv.core_eq
  generalize (init_loop c0 l) = s at inv hhash
  rw [← hhash] at hmem
  obtain ⟨t, ht, hth⟩ := List.mem_map.1 hmem
  have hex : ∃ x ∈ s.done, (fun u : vcd_trace => decide (u.get_hash = h)) x = true :=
    ⟨t, ht, by simpa using hth⟩
  have hlt := List.findIdx_lt_length_of_exists hex
  have hget := List.findIdx_getElem?_eq_getElem_of_exists hex
  have hp := List.findIdx_of_getElem?_eq_some hget
  set i := s.done.findIdx fun u => decide (u.get_hash = h) with hi
  have hph : (s.done[i]).get_hash = h := by simpa using hp
  have hfirst : ∀ j q, s.done[j]? = some q → q.get_hash = h → i ≤ j := by
    intro j q hq hqh
    by_contra hcon
    have hji : j < i := Nat.lt_of_not_le hcon
    have := List.not_of_lt_findIdx hji
    obtain ⟨hj, hqe⟩ := List.getElem?_eq_some_iff.1 hq
    rw [hqe] at this
    simp [hqh] at this
  have hnot : (s.done[i]).is_alias = false := by
    by_contra hcon
    have htrue : (s.done[i]).is_alias = true := by simpa using hcon
    have hm := (inv.alias_flag i _ hget).1 htrue
    obtain ⟨u, hu, huh⟩ := List.mem_map.1 hm
    obtain ⟨j, hj, hju⟩ := List.getElem_of_mem hu
    have hjlen : j < i := by
      have := hj; simp only [List.length_take] at this; omega
    rw [List.getElem_take] at hju
    have hju2 : s.done[j]? = some u := by
      rw [← hju]; exact List.getElem?_eq_getElem _
    have := hfirst j u hju2 (by rw [huh, hph])
    omega
  refine ⟨i, s.done[i], hget, hph, hnot, ?_⟩
  intro j q hq hqh
  have hij := hfirst j q hq hqh
  have hmq : q ∈ s.done := List.getElem?_mem hq
  have hmp : s.done[i] ∈ s.done := List.getElem_mem _
  have hfst : q.fst_hndl = (s.done[i]).fst_hndl := by
    have h1 := inv.handle q hmq
    have h2 := inv.handle _ hmp
    rw [hqh] at h1; rw [hph] at h2
    rw [h1] at h2
    exact Option.some.inj h2
  have halias : j ≠ i → q.is_alias = true := by
    intro hne
    have hlt2 : i < j := by omega
    apply (inv.alias_flag j q hq).2
    refine List.mem_map.2 ⟨s.done[i], ?_, by rw [hph, hqh]⟩
    rw [List.mem_take_iff_getElem]
    exact ⟨i, by simp only [Nat.lt_min]; exact ⟨hlt2, hlt⟩, rfl⟩
  refine ⟨fun hne => ⟨by omega, halias hne, hfst⟩, ?_⟩
  intro hqa
  by_contra hne
  rw [halias hne] at hqa
  exact Bool.noConfusion hqa


/-- C2: after `init()` of a recorder whose active set is still empty, the traces are the
registered ones in name-sorted order, the active set is exactly the set of non-alias
traces, and for every storage identity that occurs the first trace carrying it is the only
non-alias one, every other trace carrying it is an alias with the same identifier, and
the active set has exactly one entry for the identity. -/
theorem init_alias_groups (f : mt_vcd_trace_file) (env : Env) (hfresh : f.active_traces = [])
    (h : Nat) (hmem : h ∈ f.all_traces.map vcd_trace.get_hash) :
    ((f.init env).1.all_traces.map vcd_trace.core).Perm (f.all_traces.map vcd_trace.core) ∧
    (f.init env).1.all_traces.Sorted (fun a b => a.name.data ≤ b.name.data) ∧
    (∀ j : Nat, j ∈ (f.init env).1.active_traces ↔
      ∃ q : vcd_trace, (f.init env).1.all_traces[j]? = some q ∧ q.is_alias = false) ∧
    (f.init env).1.active_traces.Nodup ∧
    ∃ (i : Nat) (p : vcd_trace),
      (f.init env).1.all_traces[i]? = some p ∧ p.get_hash = h ∧ p.is_alias = false ∧
      (∀ (j : Nat) (q : vcd_trace), (f.init env).1.all_traces[j]? = some q → q.get_hash = h →
        j ≠ i → i < j ∧ q.is_alias = true ∧ q.fst_hndl = p.fst_hndl) ∧
      (f.init env).1.active_traces.filter
        (fun j => decide ((f.init env).1.all_traces[j]?.map vcd_trace.get_hash = some h)) = [i] := by
  rw [init_active_traces, hfresh, List.nil_append, init_all_traces]
  have inv := init_inv_loop f.vcd_name_index (sort_traces f.all_traces)
  have hmem2 : h ∈ (sort_traces f.all_traces).map vcd_trace.get_hash :=
    ((sort_traces_perm f.all_traces).map _).mem_iff.2 hmem
  obtain ⟨i, p, hip, hph, hpa, hall⟩ :=
    init_loop_primary f.vcd_name_index (sort_traces f.all_traces) h hmem2
  refine ⟨?_, sorted_of_core_eq _ _ inv.core_eq (sort_traces_sorted _),
    mem_copy_if_not_alias _, copy_if_not_alias_nodup _, i, p, hip, hph, hpa,
    fun j q hq hqh hne => (hall j q hq hqh).1 hne, ?_⟩
  · rw [inv.core_eq]
    exact (sort_traces_perm f.all_traces).map _
  · apply eq_singleton_of_nodup _ _ (List.Nodup.filter _ (copy_if_not_alias_nodup _))
    intro x
    rw [List.mem_filter, mem_copy_if_not_alias]
    constructor
    · rintro ⟨⟨q, hq, hqa⟩, hd⟩
      rw [hq] at hd
      have hqh : q.get_hash = h := by simpa using hd
      exact (hall x q hq hqh).2 hqa
    · rintro rfl
      exact ⟨⟨p, hip, hpa⟩, by rw [hip]; simp [hph]⟩

theorem init_alias_groups_witness :
    ((file_ab_ac.init env_zero).1.all_traces.map vcd_trace.core).Perm (file_ab_ac.all_traces.map vcd_trace.core) ∧
    (file_ab_ac.init env_zero).1.all_traces.Sorted (fun a b => a.name.data ≤ b.name.data) ∧
    (∀ j : Nat, j ∈ (file_ab_ac.init env_zero).1.active_traces ↔
      ∃ q : vcd_trace, (file_ab_ac.init env_zero).1.all_traces[j]? = some q ∧ q.is_alias = false) ∧
    (file_ab_ac.init env_zero).1.active_traces.Nodup ∧
    ∃ (i : Nat) (p : vcd_trace),
      (file_ab_ac.init env_zero).1.all_traces[i]? = some p ∧ p.get_hash = 300 ∧ p.is_alias = false ∧
      (∀ (j : Nat) (q : vcd_trace), (file_ab_ac.init env_zero).1.all_traces[j]? = some q → q.get_hash = 300 →
        j ≠ i → i < j ∧ q.is_alias = true ∧ q.fst_hndl = p.fst_hndl) ∧
      (file_ab_ac.init env_zero).1.active_traces.filter
        (fun j => decide ((file_ab_ac.init env_zero).1.all_traces[j]?.map vcd_trace.get_hash = some 300)) = [i] :=
  init_alias_groups file_ab_ac env_zero rfl 300 (by decide)

/-! ## Value lines of fixed-width integers -/

theorem bin_value_append_singleton (pre : List Char) (c : Char) :
    bin_value (pre ++ [c]) = 2 * bin_value pre + (if c = '1' then 1 else 0) := by
  simp [bin_value, List.foldl_append]

theorem digitChar_mod_two (n : Nat) :
    (n % 2).digitChar = if n % 2 = 1 then '1' else '0' := by
  rcases Nat.mod_two_eq_zero_or_one n with h | h <;> rw [h] <;> rfl

/-- What `Nat.toDigitsCore 2` produces with enough fuel: the digits of `n` in front of the
accumulator, denoting `n`, without a leading zero unless `n = 0`. -/
theorem toDigitsCore_two (fuel : Nat) :
    ∀ (n : Nat) (ds : List Char), n < fuel →
      ∃ pre : List Char, Nat.toDigitsCore 2 fuel n ds = pre ++ ds ∧ bin_value pre = n ∧
        (∀ c ∈ pre, c = '0' ∨ c = '1') ∧ (pre.head? = some '0' → n = 0) ∧ pre ≠ [] ∧
        (∀ w, 1 ≤ w → n < 2 ^ w → pre.length ≤ w) := by
  induction fuel with
  | zero => intro n ds h; omega
  | succ fuel ih =>
    intro n ds hn
    have hbit : (if n % 2 = 1 then '1' else '0') = '1' ↔ n % 2 = 1 := by
      split <;> simp_all
    by_cases h0 : n / 2 = 0
    · refine ⟨[(n % 2).digitChar], ?_, ?_, ?_, ?_, by simp, ?_⟩
      · simp [Nat.toDigitsCore, h0]
      · rw [digitChar_mod_two]
        simp only [bin_value, List.foldl_cons, List.foldl_nil, hbit]
        split <;> omega
      · intro c hc
        rw [List.mem_singleton.1 hc, digitChar_mod_two]
        split <;> simp
      · intro hh
        rw [digitChar_mod_two] at hh
        simp only [List.head?_cons, Option.some.injEq] at hh
        split at hh
        · exact absurd hh (by decide)
        · omega
      · intro w hw _; simpa using hw
    · obtain ⟨pre, he, hv, hc, hh, hne, hlen⟩ :=
        ih (n / 2) ((n % 2).digitChar :: ds) (by omega)
      refine ⟨pre ++ [(n % 2).digitChar], ?_, ?_, ?_, ?_, by simp, ?_⟩
      · simp [Nat.toDigitsCore, h0, he]
      · rw [bin_value_append_singleton, hv, digitChar_mod_two]
        simp only [hbit]
        split <;> omega
      · intro c hc1
        rcases List.mem_append.1 hc1 with h1 | h1
        · exact hc c h1
        · rw [List.mem_singleton.1 h1, digitChar_mod_two]
          split <;> simp
      · intro hh1
        cases pre with
        | nil => exact absurd rfl hne
        | cons a pre =>
          simp only [List.cons_append, List.head?_cons] at hh1 hh
          exact absurd (hh hh1) h0
      · intro w hw hnw
        have hw2 : 2 ≤ w := by
          by_contra hcon
          have : w = 1 := by omega
          subst this
          omega
        have := hlen (w - 1) (by omega) (by
          have h2 : 2 ^ w = 2 * 2 ^ (w - 1) := by
            rw [← Nat.pow_succ']; congr 1; omega
          omega)
        simp only [List.length_append, List.length_singleton]
        omega

/-- The text of `{:b}`: binary digits denoting the number, no leading zero unless the
number is zero, at most `w` digits for a number below `2^w`. -/
theorem fmt_b_spec (n : Nat) :
    bin_value (fmt_b n).data = n ∧ (∀ c ∈ (fmt_b n).data, c = '0' ∨ c = '1') ∧
      ((fmt_b n).data.head? = some '0' → n = 0) ∧
      (∀ w, 1 ≤ w → n < 2 ^ w → (fmt_b n).length ≤ w) := by
  obtain ⟨pre, he, hv, hc, hh, _, hlen⟩ := toDigitsCore_two (n + 1) n [] (Nat.lt_succ_self n)
  have hd : (fmt_b n).data = pre := by
    simp [fmt_b, Nat.toDigits, he]
  refine ⟨by rw [hd]; exact hv, by rw [hd]; exact hc, by rw [hd]; exact hh, ?_⟩
  intro w hw hn
  have : (fmt_b n).length = pre.length := by
    rw [← hd]; rfl
  rw [this]; exact hlen w hw hn

theorem shl_one_lt (bits : Nat) (h : bits < 64) : shl_one bits = some (2 ^ bits) := by
  simp [shl_one, h]

/-- C3 (as the code behaves): `record()` of a fixed-width integer trace of width `w`
between 1 and 63 writes `b`, the binary digits of the masked value without leading zeros,
a space, the identifier and a newline; the masked value is the snapshot converted to
`uint32_t` (types of at most 4 bytes) or `uint64_t`, reduced modulo `2^w`. -/
theorem record_int_line (t : IntKind) (st : Statics) (id : String) (w : Nat) (v : Int)
    (hw1 : 1 ≤ w) (hw : w ≤ 63) :
    ∃ m : Nat, m = ((v % 2 ^ (if t.sizeof ≤ 4 then 32 else 64)).toNat) % 2 ^ w ∧
      record_val (.int t) st id w v = some (st, "b" ++ fmt_b m ++ " " ++ id ++ "\n") ∧
      bin_value (fmt_b m).data = m ∧ (∀ c ∈ (fmt_b m).data, c = '0' ∨ c = '1') ∧
      ((fmt_b m).data.head? = some '0' → m = 0) ∧ (fmt_b m).length ≤ w := by
  refine ⟨_, rfl, ?_, (fmt_b_spec _).1, (fmt_b_spec _).2.1, (fmt_b_spec _).2.2.1,
    (fmt_b_spec _).2.2.2 w hw1 (Nat.mod_lt _ (Nat.pos_pow_of_pos _ (by decide)))⟩
  by_cases hs : t.sizeof ≤ 4
  · simp [record_val, hs, vcdEmitValueChange32, shl_one_lt w (by omega),
      Nat.and_pow_two_sub_one_eq_mod]
  · simp [record_val, hs, vcdEmitValueChange64, shl_one_lt w (by omega),
      Nat.and_pow_two_sub_one_eq_mod]

theorem record_int_line_witness :
    ∃ m : Nat, m = (((0 : Int) % 2 ^ (if IntKind.unsigned_char.sizeof ≤ 4 then 32 else 64)).toNat)
        % 2 ^ 8 ∧
      record_val (.int .unsigned_char) Statics.fresh "aaaab" 8 (0 : Int)
        = some (Statics.fresh, "b" ++ fmt_b m ++ " " ++ "aaaab" ++ "\n") ∧
      bin_value (fmt_b m).data = m ∧ (∀ c ∈ (fmt_b m).data, c = '0' ∨ c = '1') ∧
      ((fmt_b m).data.head? = some '0' → m = 0) ∧ (fmt_b m).length ≤ 8 :=
  record_int_line .unsigned_char Statics.fresh "aaaab" 8 0 (by decide) (by decide)

/-- C3 (as the specification states it) fails: the 8-bit integer trace with value 0 is
recorded as `b0 aaaab`, not as the line with eight digits. -/
theorem record_int_drops_leading_zeros :
    trace_counter.record Statics.fresh = some (Statics.fresh, "b0 aaaab\n") ∧
      trace_counter.record Statics.fresh
        ≠ some (Statics.fresh, spec_int_line 8 "aaaab" 0) ∧
      spec_int_line 8 "aaaab" 0 = "b00000000 aaaab\n" := by
  decide

/-! ## Value lines of vectors and booleans -/

theorem vcdEmitValueChange_multi (handle : String) (bits : Nat) (val : String)
    (h : bits ≠ 1) : vcdEmitValueChange handle bits val = "b" ++ handle ++ " " ++ val ++ "\n" := by
  simp [vcdEmitValueChange, h]

/-- C4: at the two-bit bit-vector trace with snapshot `10` and identifier `aaaaa` the code
writes the identifier directly after `b` and the bit string after the space
(`baaaaa 10`), whereas the described line is `b10 aaaaa`. -/
theorem record_vector_swaps_identifier_and_value :
    trace_bv.record Statics.fresh = some (Statics.fresh, "baaaaa 10\n") ∧
      spec_vector_line "aaaaa" (bv_to_string [false, true]) = "b10 aaaaa\n" ∧
      trace_bv.record Statics.fresh
        ≠ some (Statics.fresh, spec_vector_line "aaaaa" (bv_to_string [false, true])) := by
  decide

/-- C5: `record()` of a boolean trace writes one value character, `1` for a true snapshot
and `0` for a false one, immediately followed by the identifier and a newline. -/
theorem record_bool_line (name id : String) (is_alias : Bool) (bits : Nat) (old_val : Bool)
    (act_val : Nat) (st : Statics) :
    (vcd_trace.mk .bool name id is_alias bits old_val act_val).record st
      = some (st, String.mk [if old_val then '1' else '0'] ++ id ++ "\n") := by
  cases old_val <;> rfl

/-! ## Registration with a width -/

theorem trace_width_all_traces (f : mt_vcd_trace_file) (t : IntKind) (mem : Mem) (object : Nat)
    (name : String) (width : Int) :
    (f.trace_width t mem object name width).all_traces
      = f.all_traces ++ [vcd_trace_t (.int t) mem object name (-1)] := rfl

/-- The constructor honours a non-negative width. -/
theorem vcd_trace_t_bits (k : Kind) (mem : Mem) (object : Nat) (name : String) (width : Nat) :
    (vcd_trace_t k mem object name (width : Int)).bits = width := by
  simp [vcd_trace_t]

/-- The trace object created by the width-taking `trace` overload has the natural width
`sizeof(T)*8` of its type, whatever width is passed. -/
theorem trace_width_bits (f : mt_vcd_trace_file) (t : IntKind) (mem : Mem) (object : Nat)
    (name : String) (width : Int) :
    ((f.trace_width t mem object name width).all_traces.getLast?).map vcd_trace.bits
      = some (t.sizeof * 8) := by
  simp [trace_width_all_traces, vcd_trace_t, get_bits]

/-- C6: an `unsigned int` registered with the explicit width 8 gets a trace record of
width 32, not 8. -/
theorem trace_width_ignores_width :
    file_width8.all_traces.map vcd_trace.bits = [32] ∧
      file_width8.all_traces.map vcd_trace.bits ≠ [8] := by
  decide

/-! ## Change detection -/

theorem ieee_ne_self (e m p : Nat) : ieee_ne e m p p = ieee_is_nan e m p := by
  simp [ieee_ne]

theorem Kind.ne_self (k : Kind) (v : Val k) : k.ne v v = k.is_nan v := by
  cases k <;> simp [Kind.ne, Kind.is_nan, ieee_ne_self]

theorem Kind.ne_iff_of_not_float (k : Kind) (a b : Val k) (hk : k.is_float = false) :
    k.ne a b = true ↔ a ≠ b := by
  cases k <;> first
    | exact Bool.noConfusion hk
    | exact bne_iff_ne

theorem changed_fst (t : vcd_trace) (mem : Mem) : (changed t mem).1 = t.changed mem := by
  unfold changed; split <;> simp_all

theorem changed_snd (t : vcd_trace) (mem : Mem) :
    (changed t mem).2 = if t.changed mem then t.update mem else t := by
  unfold changed; split <;> simp_all

theorem vcd_trace.changed_eq (t : vcd_trace) (mem : Mem) (h : t.is_alias = false) :
    t.changed mem = t.ne_live mem := by
  simp [vcd_trace.changed, vcd_trace.ne_live, vcd_trace.live, h]

theorem vcd_trace.update_synced (t : vcd_trace) (mem : Mem) : (t.update mem).synced mem = true := by
  simp [vcd_trace.update, vcd_trace.synced, vcd_trace.live]

theorem vcd_trace.synced_ne_live (t : vcd_trace) (mem : Mem) (h : t.synced mem = true) :
    t.ne_live mem = t.live_is_nan mem := by
  have h1 : t.old_val = t.live mem := by simpa [vcd_trace.synced] using h
  unfold vcd_trace.ne_live vcd_trace.live_is_nan
  rw [h1]
  exact Kind.ne_self _ _

theorem changed_at_set_ne (traces : List vcd_trace) (mem : Mem) (i j : Nat) (t : vcd_trace)
    (h : i ≠ j) : changed_at (traces.set i t) mem j = changed_at traces mem j := by
  simp [changed_at, List.getElem?_set_ne h]

/-- The comparison loop on distinct positions: the collected positions are those whose
trace `changed()` reports, in order, and exactly those traces are updated. -/
theorem compare_all_spec (mem : Mem) (l : List Nat) :
    ∀ (traces : List vcd_trace) (acc : List Nat), l.Nodup →
      (compare_all mem l (traces, acc)).2 = acc ++ l.filter (changed_at traces mem) ∧
      ∀ j : Nat, (compare_all mem l (traces, acc)).1[j]? =
        if j ∈ l then (traces[j]?).map (fun t => if t.changed mem then t.update mem else t)
        else traces[j]? := by
  induction l with
  | nil => intro traces acc _; simp [compare_all]
  | cons i rest ih =>
    intro traces acc hnd
    obtain ⟨hi, hrest⟩ := List.nodup_cons.1 hnd
    cases hti : traces[i]? with
    | none =>
      have hstep : compare_all mem (i :: rest) (traces, acc) = compare_all mem rest (traces, acc) := by
        simp [compare_all, hti]
      obtain ⟨h1, h2⟩ := ih traces acc hrest
      rw [hstep]
      refine ⟨?_, ?_⟩
      · rw [h1, List.filter_cons]
        simp [changed_at, hti]
      · intro j
        rw [h2 j]
        by_cases hj : j = i
        · subst hj; simp [hi, hti]
        · simp [hj]
    | some t =>
      by_cases hc : t.changed mem = true
      · have hstep : compare_all mem (i :: rest) (traces, acc)
            = compare_all mem rest (traces.set i (t.update mem), acc ++ [i]) := by
          simp [compare_all, hti, changed_fst, changed_snd, hc]
        obtain ⟨h1, h2⟩ := ih (traces.set i (t.update mem)) (acc ++ [i]) hrest
        rw [hstep]
        refine ⟨?_, ?_⟩
        · rw [h1, List.filter_cons]
          have hci : changed_at traces mem i = true := by simp [changed_at, hti, hc]
          rw [hci]
          simp only [if_true, List.append_assoc, List.singleton_append]
          congr 2
          apply List.filter_congr
          intro j hj
          exact changed_at_set_ne _ _ _ _ _ (fun h => hi (h ▸ hj))
        · intro j
          rw [h2 j]
          have hlen : i < traces.length := (List.getElem?_eq_some_iff.1 hti).1
          by_cases hj : j = i
          · subst hj
            simp [hi, hti, hc, List.getElem?_set_self hlen]
          · have hne : i ≠ j := fun h => hj h.symm
            simp [hj, List.getElem?_set_ne hne]
      · have hc2 : t.changed mem = false := by simpa using hc
        have hstep : compare_all mem (i :: rest) (traces, acc)
            = compare_all mem rest (traces, acc) := by
          simp [compare_all, hti, changed_fst, hc2]
        obtain ⟨h1, h2⟩ := ih traces acc hrest
        rw [hstep]
        refine ⟨?_, ?_⟩
        · rw [h1, List.filter_cons]
          simp [changed_at, hti, hc2]
        · intro j
          rw [h2 j]
          by_cases hj : j = i
          · subst hj; simp [hi, hti, hc2]
          · simp [hj]

theorem compare_all_length (mem : Mem) (l : List Nat) :
    ∀ (traces : List vcd_trace) (acc : List Nat),
      (compare_all mem l (traces, acc)).1.length = traces.length := by
  induction l with
  | nil => intro traces acc; rfl
  | cons i rest ih =>
    intro traces acc
    cases hti : traces[i]? with
    | none => simp [compare_all, hti, ih]
    | some t =>
      by_cases hc : (changed t mem).1 = true
      · simp [compare_all, hti, hc, ih]
      · simp [compare_all, hti, hc, ih]

/-- The record loop writes the lines of the listed traces after what was written before. -/
theorem record_all_eq_emit_lines (traces : List vcd_trace) (l : List Nat) :
    ∀ (st : Statics) (pre : List String),
      record_all traces l (some (st, pre))
        = (emit_lines st (l.filterMap fun i => traces[i]?)).map fun w => (w.1, pre ++ w.2) := by
  induction l with
  | nil => intro st pre; simp [record_all, emit_lines]
  | cons i rest ih =>
    intro st pre
    cases hti : traces[i]? with
    | none => simp [record_all, hti, ih]
    | some t =>
      cases hr : t.record st with
      | none =>
        have hnone : ∀ l2 : List Nat, record_all traces l2 none = none := by
          intro l2
          induction l2 with
          | nil => rfl
          | cons k l2 ih2 => cases hk : traces[k]? <;> simp [record_all, hk, ih2]
        simp [record_all, hti, hr, emit_lines, hnone]
      | some r =>
        simp [record_all, hti, hr, emit_lines, ih, Option.map_map, Function.comp_def]

theorem emit_lines_length (ts : List vcd_trace) :
    ∀ (st st2 : Statics) (ls : List String), emit_lines st ts = some (st2, ls) →
      ls.length = ts.length := by
  induction ts with
  | nil => intro st st2 ls h; simp [emit_lines] at h; simp [h.2.symm]
  | cons t ts ih =>
    intro st st2 ls h
    simp only [emit_lines] at h
    cases hr : t.record st with
    | none => simp [hr] at h
    | some r =>
      simp only [hr, Option.some_bind] at h
      cases he : emit_lines r.1 ts with
      | none => simp [he] at h
      | some w =>
        simp only [he, Option.map_some', Option.some.injEq, Prod.mk.injEq] at h
        rw [← h.2]
        simp [ih r.1 w.1 w.2 (by rw [he])]

/-! ## A settled, enabled cycle of the initialized recorder -/

theorem cycle_enabled (f : mt_vcd_trace_file) (st : Statics) (env : Env)
    (hinit : f.initialized = true) (hen : env.check_enabled ≠ some false) :
    f.cycle st env false =
      if (compare_all env.mem f.active_traces (f.all_traces, [])).2.length ≠ 0 then
        ⟨{ f with all_traces := (compare_all env.mem f.active_traces (f.all_traces, [])).1,
                  changed_traces := (compare_all env.mem f.active_traces (f.all_traces, [])).2 },
          [], record_all (compare_all env.mem f.active_traces (f.all_traces, [])).1
            (compare_all env.mem f.active_traces (f.all_traces, [])).2
            (some (st, ["#" ++ env.time_stamp ++ "\n"]))⟩
      else
        ⟨{ f with all_traces := (compare_all env.mem f.active_traces (f.all_traces, [])).1,
                  changed_traces := (compare_all env.mem f.active_traces (f.all_traces, [])).2 },
          [], some (st, [])⟩ := by
  unfold mt_vcd_trace_file.cycle
  simp [hinit, hen]

theorem wf_changed_at (f : mt_vcd_trace_file) (mem : Mem) (hwf : f.wf) (i : Nat)
    (hi : i ∈ f.active_traces) : changed_at f.all_traces mem i = differs_at f.all_traces mem i := by
  have h := hwf.2 i hi
  unfold changed_at differs_at
  cases ht : f.all_traces[i]? with
  | none => rfl
  | some t =>
    rw [ht] at h
    simp only [Option.map_some', Option.some.injEq] at h
    exact vcd_trace.changed_eq t mem h

/-- What the comparison loop of a well-formed recorder computes. -/
theorem compare_all_wf (f : mt_vcd_trace_file) (mem : Mem) (hwf : f.wf) :
    (compare_all mem f.active_traces (f.all_traces, [])).2
        = f.active_traces.filter (differs_at f.all_traces mem) ∧
      (∀ i ∈ f.active_traces, ∀ t : vcd_trace, f.all_traces[i]? = some t →
        (compare_all mem f.active_traces (f.all_traces, [])).1[i]?
          = some (if t.ne_live mem then t.update mem else t)) ∧
      (∀ i : Nat, i ∉ f.active_traces →
        (compare_all mem f.active_traces (f.all_traces, [])).1[i]? = f.all_traces[i]?) := by
  obtain ⟨h1, h2⟩ := compare_all_spec mem f.active_traces f.all_traces [] hwf.1
  refine ⟨?_, ?_, ?_⟩
  · rw [h1, List.nil_append]
    exact List.filter_congr (fun i hi => wf_changed_at f mem hwf i hi)
  · intro i hi t ht
    have ha := hwf.2 i hi
    rw [ht] at ha
    simp only [Option.map_some', Option.some.injEq] at ha
    rw [h2 i, if_pos hi, ht, Option.map_some', vcd_trace.changed_eq t mem ha]
  · intro i hi
    rw [h2 i, if_neg hi]

theorem filterMap_updated (f : mt_vcd_trace_file) (mem : Mem) (hwf : f.wf) :
    (f.active_traces.filter (differs_at f.all_traces mem)).filterMap
        (fun i => (compare_all mem f.active_traces (f.all_traces, [])).1[i]?)
      = (f.active_traces.filter (differs_at f.all_traces mem)).filterMap
        (fun i => (f.all_traces[i]?).map fun t => t.update mem) := by
  apply List.filterMap_congr
  intro i hi
  obtain ⟨hia, hd⟩ := List.mem_filter.1 hi
  cases ht : f.all_traces[i]? with
  | none => simp [differs_at, ht] at hd
  | some t =>
    have hne : t.ne_live mem = true := by simpa [differs_at, ht] using hd
    rw [(compare_all_wf f mem hwf).2.1 i hia t ht, hne]
    simp

theorem length_filterMap_updated (f : mt_vcd_trace_file) (mem : Mem) (l : List Nat)
    (h : ∀ i ∈ l, differs_at f.all_traces mem i = true) :
    (l.filterMap fun i => (f.all_traces[i]?).map fun t => t.update mem).length = l.length := by
  induction l with
  | nil => rfl
  | cons i rest ih =>
    have hi := h i (List.mem_cons_self _ _)
    cases ht : f.all_traces[i]? with
    | none => simp [differs_at, ht] at hi
    | some t =>
      simp [List.filterMap_cons, ht, ih (fun j hj => h j (List.mem_cons_of_mem _ hj))]

theorem cycle_enabled_file (f : mt_vcd_trace_file) (st : Statics) (env : Env)
    (hinit : f.initialized = true) (hen : env.check_enabled ≠ some false) :
    (f.cycle st env false).file =
      { f with all_traces := (compare_all env.mem f.active_traces (f.all_traces, [])).1,
               changed_traces := (compare_all env.mem f.active_traces (f.all_traces, [])).2 } := by
  rw [cycle_enabled f st env hinit hen]; split <;> rfl

theorem cycle_enabled_written_nil (f : mt_vcd_trace_file) (st : Statics) (env : Env)
    (hinit : f.initialized = true) (hen : env.check_enabled ≠ some false) :
    (compare_all env.mem f.active_traces (f.all_traces, [])).2 = [] →
      (f.cycle st env false).written = some (st, []) := by
  intro h0
  rw [cycle_enabled f st env hinit hen, h0]; rfl

/-- What an enabled settled cycle writes when it collected a trace: the timestamp line and
the value lines of the collected traces recorded from the live values. -/
theorem cycle_enabled_written (f : mt_vcd_trace_file) (st : Statics) (env : Env)
    (hinit : f.initialized = true) (hwf : f.wf) (hen : env.check_enabled ≠ some false) :
    (compare_all env.mem f.active_traces (f.all_traces, [])).2 ≠ [] →
      (f.cycle st env false).written
        = (emit_lines st ((f.active_traces.filter (differs_at f.all_traces env.mem)).filterMap
            fun i => (f.all_traces[i]?).map fun t => t.update env.mem)).map
            fun w => (w.1, ("#" ++ env.time_stamp ++ "\n") :: w.2) := by
  intro h1
  have hlen : (compare_all env.mem f.active_traces (f.all_traces, [])).2.length ≠ 0 := by
    intro h; exact h1 (List.length_eq_zero.1 h)
  rw [cycle_enabled f st env hinit hen, if_pos hlen]
  show record_all _ _ _ = _
  rw [record_all_eq_emit_lines, (compare_all_wf f env.mem hwf).1, filterMap_updated f env.mem hwf]
  rfl

/-- C7 (as the code behaves): a settled, enabled cycle of the initialized recorder collects
exactly the active traces whose snapshot differs from the live value under the `!=` of
their kind, in active-set order; nothing is written when none is collected; otherwise
the timestamp line is written, followed by one value line per collected trace recorded
from the live value; the snapshot of a collected trace is the live value afterwards, and
the snapshot of every active trace compares equal to the live value unless that is a NaN
(for the kinds that are not floating point it is the live value). -/
theorem cycle_collects_changed (f : mt_vcd_trace_file) (st : Statics) (env : Env)
    (hinit : f.initialized = true) (hwf : f.wf) (hen : env.check_enabled ≠ some false) :
    (f.cycle st env false).file.changed_traces
        = f.active_traces.filter (differs_at f.all_traces env.mem) ∧
      ((f.cycle st env false).file.changed_traces = [] →
        (f.cycle st env false).written = some (st, [])) ∧
      ((f.cycle st env false).file.changed_traces ≠ [] →
        (f.cycle st env false).written
          = (emit_lines st ((f.cycle st env false).file.changed_traces.filterMap
              fun i => (f.all_traces[i]?).map fun t => t.update env.mem)).map
              fun w => (w.1, ("#" ++ env.time_stamp ++ "\n") :: w.2)) ∧
      (∀ (st2 : Statics) (ls : List String), (f.cycle st env false).written = some (st2, ls) →
        (f.cycle st env false).file.changed_traces ≠ [] →
        ls.length = 1 + (f.cycle st env false).file.changed_traces.length) ∧
      (∀ i ∈ f.active_traces, ∀ t : vcd_trace, f.all_traces[i]? = some t →
        (f.cycle st env false).file.all_traces[i]?
            = some (if t.ne_live env.mem then t.update env.mem else t) ∧
          (t.ne_live env.mem = true →
            (if t.ne_live env.mem then t.update env.mem else t).synced env.mem = true) ∧
          (t.live_is_nan env.mem = false →
            (if t.ne_live env.mem then t.update env.mem else t).ne_live env.mem = false) ∧
          (t.kind.is_float = false →
            (if t.ne_live env.mem then t.update env.mem else t).synced env.mem = true)) ∧
      (∀ i : Nat, i ∉ f.active_traces →
        (f.cycle st env false).file.all_traces[i]? = f.all_traces[i]?) ∧
      (f.cycle st env false).file.active_traces = f.active_traces ∧
      (f.cycle st env false).file.initialized = true := by
  obtain ⟨hc2, hc1, hc3⟩ := compare_all_wf f env.mem hwf
  have hfile := cycle_enabled_file f st env hinit hen
  have hwritten0 := cycle_enabled_written_nil f st env hinit hen
  have hwritten1 := cycle_enabled_written f st env hinit hwf hen
  rw [hfile]
  simp only []
  refine ⟨hc2, ?_, ?_, ?_, ?_, hc3, trivial, hinit⟩
  · intro h0; exact hwritten0 h0
  · intro h1; rw [hwritten1 h1, hc2]
  · intro st2 ls hw h1
    rw [hwritten1 h1] at hw
    cases he : emit_lines st ((f.active_traces.filter (differs_at f.all_traces env.mem)).filterMap
        fun i => (f.all_traces[i]?).map fun t => t.update env.mem) with
    | none => rw [he] at hw; exact Option.noConfusion hw
    | some w =>
      rw [he] at hw
      simp only [Option.map_some', Option.some.injEq, Prod.mk.injEq] at hw
      rw [← hw.2, hc2, List.length_cons, emit_lines_length _ _ _ _ he,
        length_filterMap_updated f env.mem _ (fun i hi => (List.mem_filter.1 hi).2)]
      omega
  · intro i hi t ht
    refine ⟨hc1 i hi t ht, ?_, ?_, ?_⟩
    · intro hne; rw [if_pos hne]; exact vcd_trace.update_synced t env.mem
    · intro hnan
      by_cases hne : t.ne_live env.mem = true
      · rw [if_pos hne, vcd_trace.synced_ne_live _ _ (vcd_trace.update_synced t env.mem)]
        exact hnan
      · rw [if_neg hne]; simpa using hne
    · intro hk
      by_cases hne : t.ne_live env.mem = true
      · rw [if_pos hne]; exact vcd_trace.update_synced t env.mem
      · rw [if_neg hne]
        have hne2 : ¬ (t.kind.ne t.old_val (t.live env.mem) = true) := hne
        rw [Kind.ne_iff_of_not_float _ _ _ hk] at hne2
        simpa [vcd_trace.synced] using hne2

/-- C7 (as the specification states it) fails for floating-point traces, whichever way
"differs" and "equals" are read.  The active `float` trace with snapshot `+0.0` and live
value `-0.0` (different representations) is not collected, nothing is written and the
snapshot still has a different representation afterwards.  The active `float` trace whose
snapshot and live value are the same NaN pattern is collected and written although its
snapshot does not differ in representation, and afterwards its snapshot still compares
unequal to the live value. -/
theorem cycle_collection_wrong_for_floats :
    file_float_init.initialized = true ∧ file_float_init.active_traces = [0] ∧
      file_float_init.all_traces.map (fun t => t.synced env_negzero.mem) = [false] ∧
      (file_float_init.cycle Statics.fresh env_negzero false).file.changed_traces = [] ∧
      (file_float_init.cycle Statics.fresh env_negzero false).written
        = some (Statics.fresh, []) ∧
      (file_float_init.cycle Statics.fresh env_negzero false).file.all_traces.map
        (fun t => t.synced env_negzero.mem) = [false] ∧
      file_float_nan_init.initialized = true ∧ file_float_nan_init.active_traces = [0] ∧
      file_float_nan_init.all_traces.map (fun t => t.synced env_nan.mem) = [true] ∧
      (file_float_nan_init.cycle Statics.fresh env_nan false).file.changed_traces = [0] ∧
      (file_float_nan_init.cycle Statics.fresh env_nan false).file.all_traces.map
        (fun t => t.ne_live env_nan.mem) = [true] := by
  decide

theorem cycle_collects_changed_witness :
    (file_flag_counter_init.cycle Statics.fresh env_flag false).file.changed_traces
        = file_flag_counter_init.active_traces.filter
          (differs_at file_flag_counter_init.all_traces env_flag.mem) ∧
      (file_flag_counter_init.cycle Statics.fresh env_flag false).written
        = some (Statics.fresh, ["#5\n", "1aaaab\n"]) :=
  ⟨(cycle_collects_changed file_flag_counter_init Statics.fresh env_flag (by decide) (by decide)
    (by decide)).1, by decide⟩

/-! ## Two consecutive cycles -/

theorem vcd_trace.update_update (t : vcd_trace) (mem : Mem) :
    (t.update mem).update mem = t.update mem := rfl

/-- The initial dump updates exactly the listed traces. -/
theorem dump_all_traces (mem : Mem) (l : List Nat) :
    ∀ (traces : List vcd_trace) (out : Option (Statics × List String)) (j : Nat),
      (dump_all mem l (traces, out)).1[j]? =
        if j ∈ l then (traces[j]?).map (fun t => t.update mem) else traces[j]? := by
  induction l with
  | nil => intro traces out j; simp [dump_all]
  | cons i rest ih =>
    intro traces out j
    cases hti : traces[i]? with
    | none =>
      have hstep : dump_all mem (i :: rest) (traces, out) = dump_all mem rest (traces, out) := by
        simp [dump_all, hti]
      rw [hstep, ih traces out j]
      by_cases hj : j = i
      · subst hj; simp [hti]
      · simp [hj]
    | some t =>
      have hlen : i < traces.length := (List.getElem?_eq_some_iff.1 hti).1
      have hstep : (dump_all mem (i :: rest) (traces, out)).1[j]? =
          if j ∈ rest then ((traces.set i (t.update mem))[j]?).map (fun t => t.update mem)
          else (traces.set i (t.update mem))[j]? := by
        cases out with
        | none => simp only [dump_all, hti]; exact ih _ _ j
        | some w =>
          simp only [dump_all, hti]
          exact ih _ _ j
      rw [hstep]
      by_cases hj : j = i
      · subst hj
        simp [hti, List.getElem?_set_self hlen, vcd_trace.update_update]
      · have hne : i ≠ j := fun h => hj h.symm
        simp [hj, List.getElem?_set_ne hne]

/-- The comparison loop changes nothing when no listed trace reports a change. -/
theorem compare_all_unchanged (mem : Mem) (l : List Nat) :
    ∀ (traces : List vcd_trace) (acc : List Nat),
      (∀ i ∈ l, ∀ t : vcd_trace, traces[i]? = some t → t.changed mem = false) →
      compare_all mem l (traces, acc) = (traces, acc) := by
  induction l with
  | nil => intro traces acc _; rfl
  | cons i rest ih =>
    intro traces acc h
    have hrest := ih traces acc (fun k hk => h k (List.mem_cons_of_mem _ hk))
    cases hti : traces[i]? with
    | none => simp [compare_all, hti, hrest]
    | some t =>
      have hc := h i (List.mem_cons_self _ _) t hti
      simp [compare_all, hti, changed_fst, hc, hrest]

theorem vcd_trace.changed_update (t : vcd_trace) (mem : Mem)
    (h : t.live_is_nan mem = false) : (t.update mem).changed mem = false := by
  have h1 : (t.update mem).ne_live mem = false := by
    rw [vcd_trace.synced_ne_live _ _ (vcd_trace.update_synced t mem)]; exact h
  have h2 : (t.update mem).kind.ne (t.update mem).old_val (mem (t.update mem).kind
      (t.update mem).act_val) = false := h1
  simp [vcd_trace.changed, h2]

/-- Whether the live value is a NaN depends on the kind and the address only. -/
theorem live_is_nan_of_core (t u : vcd_trace) (mem : Mem) (h : t.core = u.core) :
    t.live_is_nan mem = u.live_is_nan mem := by
  obtain ⟨k, n, id, al, b, ov, a⟩ := t
  obtain ⟨k2, n2, id2, al2, b2, ov2, a2⟩ := u
  simp only [vcd_trace.core, Prod.mk.injEq] at h
  obtain ⟨_, rfl, _, rfl⟩ := h
  rfl

theorem init_core_perm (f : mt_vcd_trace_file) (env : Env) :
    ((f.init env).1.all_traces.map vcd_trace.core).Perm (f.all_traces.map vcd_trace.core) := by
  rw [init_all_traces, (init_inv_loop f.vcd_name_index (sort_traces f.all_traces)).core_eq]
  exact (sort_traces_perm f.all_traces).map _

theorem cycle_first_file (f : mt_vcd_trace_file) (st : Statics) (env : Env)
    (hun : f.initialized = false) :
    (f.cycle st env false).file =
      { (f.init env).1 with
        all_traces := (dump_all env.mem (f.init env).1.active_traces
          ((f.init env).1.all_traces,
            some (st, (f.init env).2.chunks ++ ["$enddefinitions  $end\n\n$dumpvars\n"]))).1
        initialized := true } := by
  unfold mt_vcd_trace_file.cycle
  simp [hun]

theorem cycle_first_written (f : mt_vcd_trace_file) (st : Statics) (env : Env)
    (hun : f.initialized = false) :
    (f.cycle st env false).written =
      (dump_all env.mem (f.init env).1.active_traces
          ((f.init env).1.all_traces,
            some (st, (f.init env).2.chunks ++ ["$enddefinitions  $end\n\n$dumpvars\n"]))).2.map
        fun w => (w.1, w.2 ++ ["$end\n\n"]) := by
  unfold mt_vcd_trace_file.cycle
  simp [hun]

theorem cycle_delta (f : mt_vcd_trace_file) (st : Statics) (env : Env) :
    f.cycle st env true = ⟨f, [], some (st, [])⟩ := by
  unfold mt_vcd_trace_file.cycle
  simp

theorem cycle_disabled (f : mt_vcd_trace_file) (st : Statics) (env : Env)
    (hinit : f.initialized = true) (hen : env.check_enabled = some false) :
    f.cycle st env false = ⟨f, [], some (st, [])⟩ := by
  unfold mt_vcd_trace_file.cycle
  simp [hinit, hen]

theorem dump_all_none (mem : Mem) (l : List Nat) :
    ∀ traces : List vcd_trace, (dump_all mem l (traces, none)).2 = none := by
  induction l with
  | nil => intro traces; rfl
  | cons i rest ih =>
    intro traces
    cases hti : traces[i]? with
    | none => simp [dump_all, hti, ih]
    | some t => simp [dump_all, hti, ih]

theorem set_update_map (traces : List vcd_trace) (mem : Mem) (i : Nat) (t : vcd_trace)
    (hti : traces[i]? = some t) (j : Nat) :
    ((traces.set i (t.update mem))[j]?).map (fun u => u.update mem)
      = (traces[j]?).map (fun u => u.update mem) := by
  have hlen : i < traces.length := (List.getElem?_eq_some_iff.1 hti).1
  by_cases hj : j = i
  · subst hj; simp [hti, List.getElem?_set_self hlen, vcd_trace.update_update]
  · have hne : i ≠ j := fun h => hj h.symm
    simp [List.getElem?_set_ne hne]

/-- The initial dump writes, after what was written before, the value lines of the listed
traces recorded from the live values. -/
theorem dump_all_written (mem : Mem) (l : List Nat) :
    ∀ (traces : List vcd_trace) (st : Statics) (pre : List String),
      (dump_all mem l (traces, some (st, pre))).2
        = (emit_lines st (l.filterMap fun i => (traces[i]?).map fun t => t.update mem)).map
            fun w => (w.1, pre ++ w.2) := by
  induction l with
  | nil => intro traces st pre; simp [dump_all, emit_lines]
  | cons i rest ih =>
    intro traces st pre
    cases hti : traces[i]? with
    | none => simp [dump_all, hti, ih]
    | some t =>
      have hfm : (rest.filterMap fun k => ((traces.set i (t.update mem))[k]?).map
            fun u => u.update mem)
          = rest.filterMap fun k => (traces[k]?).map fun u => u.update mem :=
        List.filterMap_congr (fun k _ => set_update_map traces mem i t hti k)
      cases hr : (t.update mem).record st with
      | none =>
        simp [dump_all, hti, vcd_trace.update_and_record, hr, dump_all_none, emit_lines]
      | some r =>
        simp only [dump_all, hti, vcd_trace.update_and_record, hr, Option.map_some',
          List.filterMap_cons, emit_lines, Option.some_bind]
        rw [ih, hfm]
        simp [Option.map_map, Function.comp_def]

/-- After the first settled cycle every trace the active set points to has the live value
as its snapshot. -/
theorem cycle_first_synced (f : mt_vcd_trace_file) (st : Statics) (env : Env)
    (hun : f.initialized = false) (i : Nat) (hi : i ∈ (f.cycle st env false).file.active_traces)
    (t : vcd_trace) (ht : (f.cycle st env false).file.all_traces[i]? = some t) :
    ∃ u ∈ (f.init env).1.all_traces, t = u.update env.mem := by
  rw [cycle_first_file f st env hun] at hi ht
  simp only [] at hi ht
  rw [dump_all_traces, if_pos hi] at ht
  cases hu : (f.init env).1.all_traces[i]? with
  | none => rw [hu] at ht; exact Option.noConfusion ht
  | some u =>
    rw [hu] at ht
    exact ⟨u, List.getElem?_mem hu, (Option.some.inj ht).symm⟩

/-- C8 (as the code behaves): from the uninitialized state, the first settled cycle writes
the header, the declarations, the `$dumpvars` and `$end` markers and the value lines of
the active traces between them; a directly following settled cycle with unchanged live
values writes nothing and changes no trace, provided no observed live value is a
floating-point NaN. -/
theorem second_cycle_silent (f : mt_vcd_trace_file) (st st2 : Statics) (env env2 : Env)
    (hun : f.initialized = false) (hmem : env2.mem = env.mem)
    (hnan : ∀ t ∈ f.all_traces, t.live_is_nan env.mem = false) :
    (f.cycle st env false).written
        = (emit_lines st ((f.init env).1.active_traces.filterMap
            fun i => ((f.init env).1.all_traces[i]?).map fun t => t.update env.mem)).map
            (fun w => (w.1, ((f.init env).2.chunks ++ ["$enddefinitions  $end\n\n$dumpvars\n"]
              ++ w.2) ++ ["$end\n\n"])) ∧
      ((f.cycle st env false).file.cycle st2 env2 false).written = some (st2, []) ∧
      ((f.cycle st env false).file.cycle st2 env2 false).file.all_traces
        = (f.cycle st env false).file.all_traces := by
  have hinit : (f.cycle st env false).file.initialized = true := by
    rw [cycle_first_file f st env hun]
  have hquiet : compare_all env2.mem (f.cycle st env false).file.active_traces
      ((f.cycle st env false).file.all_traces, [])
        = ((f.cycle st env false).file.all_traces, []) := by
    apply compare_all_unchanged
    intro i hi t ht
    obtain ⟨u, hu, rfl⟩ := cycle_first_synced f st env hun i hi t ht
    rw [hmem]
    apply vcd_trace.changed_update
    have hc : u.core ∈ f.all_traces.map vcd_trace.core :=
      (init_core_perm f env).mem_iff.1 (List.mem_map_of_mem _ hu)
    obtain ⟨t0, ht0, hcore⟩ := List.mem_map.1 hc
    rw [← live_is_nan_of_core t0 u env.mem hcore]
    exact hnan t0 ht0
  refine ⟨?_, ?_, ?_⟩
  · rw [cycle_first_written f st env hun, dump_all_written, Option.map_map]
    rfl
  · by_cases hen : env2.check_enabled = some false
    · rw [cycle_disabled _ st2 env2 hinit hen]
    · rw [cycle_enabled _ st2 env2 hinit hen, hquiet]; rfl
  · by_cases hen : env2.check_enabled = some false
    · rw [cycle_disabled _ st2 env2 hinit hen]
    · rw [cycle_enabled _ st2 env2 hinit hen, hquiet]; rfl

theorem second_cycle_silent_witness :
    ((file_flag_counter.cycle Statics.fresh env_zero false).file.cycle
        Statics.fresh env_zero false).written = some (Statics.fresh, []) :=
  (second_cycle_silent file_flag_counter Statics.fresh Statics.fresh env_zero env_zero rfl rfl
    (by decide)).2.1

/-- C8 (as the specification states it) fails: with a `float` that holds a NaN, the second
of two consecutive settled cycles without any mutation writes a timestamp line and a
value line again. -/
theorem second_cycle_emits_nan_again :
    ((file_float_nan.cycle Statics.fresh env_nan false).file.cycle
        Statics.fresh env_nan false).written
      = some (Statics.fresh, ["#5\n", "b1111111110000000000000000000000 aaaaa\n"]) := by
  decide

/-! ## `changed()` and `update()` -/

/-- C9 (as the code behaves): `changed()` is false directly after `update()` unless the
live value is a floating-point NaN; for a trace that is not an alias `changed()` is true
when the snapshot differs from the live value under the `!=` of the kind, which for the
kinds that are not floating point means that the representations differ. -/
theorem changed_after_update (t : vcd_trace) (mem : Mem) :
    (t.live_is_nan mem = false → (t.update mem).changed mem = false) ∧
      (t.is_alias = false → t.ne_live mem = true → t.changed mem = true) ∧
      (t.is_alias = false → t.kind.is_float = false → t.synced mem = false →
        t.changed mem = true) := by
  refine ⟨vcd_trace.changed_update t mem, ?_, ?_⟩
  · intro ha hne
    rw [vcd_trace.changed_eq t mem ha]; exact hne
  · intro ha hk hs
    rw [vcd_trace.changed_eq t mem ha]
    have hne : t.old_val ≠ t.live mem := by simpa [vcd_trace.synced] using hs
    exact (Kind.ne_iff_of_not_float _ _ _ hk).2 hne

theorem changed_after_update_witness :
    (trace_flag.update mem_flag).changed mem_flag = false ∧
      trace_flag.changed mem_flag = true ∧ trace_flag.changed mem_flag = true :=
  ⟨(changed_after_update trace_flag mem_flag).1 (by decide),
    (changed_after_update trace_flag mem_flag).2.1 (by decide) (by decide),
    (changed_after_update trace_flag mem_flag).2.2 (by decide) (by decide) (by decide)⟩

/-- C9 (as the specification states it) fails: for a `float` holding a NaN `changed()` is
true directly after `update()`, and for a non-alias `float` trace whose snapshot `+0.0`
differs in representation from the live value `-0.0`, `changed()` is false. -/
theorem changed_wrong_for_nan_and_zero :
    (trace_float.update mem_nan).changed mem_nan = true ∧
      trace_float.is_alias = false ∧ trace_float.synced mem_negzero = false ∧
      trace_float.changed mem_negzero = false := by
  decide

/-! ## Skipped cycles -/

/-- C10 (as the code behaves): an unsettled call and, in the initialized state, a settled
call whose enable predicate returns false return the recorder and the static buffers
unchanged and write nothing.  Therefore an active trace whose snapshot differs from its
live value under the `!=` of its kind when dumping resumes (for the kinds that are not
floating point: whose live value was mutated to another representation) is collected by
the next settled enabled cycle and its snapshot becomes the live value; that cycle writes
the timestamp line followed by the value lines of the collected traces, recorded from
the live values in active-set order, and the trace is one of them. -/
theorem skipped_cycle_changes_nothing (f : mt_vcd_trace_file) (st : Statics) (env : Env) :
    f.cycle st env true = ⟨f, [], some (st, [])⟩ ∧
      (f.initialized = true → env.check_enabled = some false →
        f.cycle st env false = ⟨f, [], some (st, [])⟩) ∧
      (f.initialized = true → env.check_enabled = some false → f.wf →
        ∀ (st2 : Statics) (env2 : Env) (i : Nat) (t : vcd_trace),
          env2.check_enabled ≠ some false → i ∈ f.active_traces → f.all_traces[i]? = some t →
          (t.ne_live env2.mem = true ∨
            (t.kind.is_float = false ∧ t.synced env2.mem = false)) →
          i ∈ ((f.cycle st env false).file.cycle st2 env2 false).file.changed_traces ∧
          ((f.cycle st env false).file.cycle st2 env2 false).file.all_traces[i]?
            = some (t.update env2.mem) ∧
          ((f.cycle st env false).file.cycle st2 env2 false).written
            = (emit_lines st2 ((f.active_traces.filter
                (differs_at f.all_traces env2.mem)).filterMap
                  fun j => (f.all_traces[j]?).map fun u => u.update env2.mem)).map
                (fun w => (w.1, ("#" ++ env2.time_stamp ++ "\n") :: w.2)) ∧
          t.update env2.mem ∈ (f.active_traces.filter
            (differs_at f.all_traces env2.mem)).filterMap
              fun j => (f.all_traces[j]?).map fun u => u.update env2.mem) := by
  refine ⟨cycle_delta f st env, cycle_disabled f st env, ?_⟩
  intro hinit hdis hwf st2 env2 i t hen hi hti hdiff
  have hne : t.ne_live env2.mem = true := by
    rcases hdiff with h | ⟨hk, hs⟩
    · exact h
    · have hne : t.old_val ≠ t.live env2.mem := by simpa [vcd_trace.synced] using hs
      exact (Kind.ne_iff_of_not_float _ _ _ hk).2 hne
  rw [cycle_disabled f st env hinit hdis]
  simp only []
  obtain ⟨hc2, hc1, _⟩ := compare_all_wf f env2.mem hwf
  have hmem : i ∈ f.active_traces.filter (differs_at f.all_traces env2.mem) :=
    List.mem_filter.2 ⟨hi, by simp [differs_at, hti, hne]⟩
  have hnonempty : (compare_all env2.mem f.active_traces (f.all_traces, [])).2 ≠ [] := by
    rw [hc2]; exact List.ne_nil_of_mem hmem
  rw [cycle_enabled_file f st2 env2 hinit hen]
  simp only []
  refine ⟨by rw [hc2]; exact hmem, by rw [hc1 i hi t hti, if_pos hne],
    cycle_enabled_written f st2 env2 hinit hwf hen hnonempty, ?_⟩
  exact List.mem_filterMap.2 ⟨i, hmem, by rw [hti]; rfl⟩

theorem skipped_cycle_changes_nothing_witness :
    1 ∈ ((file_flag_counter_init.cycle Statics.fresh env_flag_disabled false).file.cycle
        Statics.fresh env_flag false).file.changed_traces ∧
      ((file_flag_counter_init.cycle Statics.fresh env_flag_disabled false).file.cycle
        Statics.fresh env_flag false).file.all_traces[1]? = some (trace_flag.update env_flag.mem) ∧
      ((file_flag_counter_init.cycle Statics.fresh env_flag_disabled false).file.cycle
        Statics.fresh env_flag false).written = some (Statics.fresh, ["#5\n", "1aaaab\n"]) :=
  ⟨((skipped_cycle_changes_nothing file_flag_counter_init Statics.fresh env_flag_disabled).2.2
      (by decide) (by decide) (by decide) Statics.fresh env_flag 1 trace_flag (by decide)
      (by decide) rfl (Or.inl (by decide))).1,
    ((skipped_cycle_changes_nothing file_flag_counter_init Statics.fresh env_flag_disabled).2.2
      (by decide) (by decide) (by decide) Statics.fresh env_flag 1 trace_flag (by decide)
      (by decide) rfl (Or.inl (by decide))).2.1, by decide⟩

/-- C10 (as the specification states it) fails for a value mutated during a disabled
interval: the `float` `top.f` has the snapshot `+0.0`; while the enable predicate
returns false it becomes `-0.0` (another representation) and the disabled cycle changes
nothing; the next settled cycle, whose predicate returns true, collects nothing and
writes nothing, and the snapshot is still `+0.0`. -/
theorem mutation_while_disabled_not_emitted :
    file_float_init.initialized = true ∧ file_float_init.active_traces = [0] ∧
      file_float_init.all_traces.map (fun t => t.synced env_zero.mem) = [true] ∧
      env_negzero_disabled.check_enabled = some false ∧
      file_float_init.all_traces.map (fun t => t.synced env_negzero_disabled.mem) = [false] ∧
      (file_float_init.cycle Statics.fresh env_negzero_disabled false).written
        = some (Statics.fresh, []) ∧
      env_negzero_enabled.check_enabled = some true ∧
      ((file_float_init.cycle Statics.fresh env_negzero_disabled false).file.cycle
        Statics.fresh env_negzero_enabled false).file.changed_traces = [] ∧
      ((file_float_init.cycle Statics.fresh env_negzero_disabled false).file.cycle
        Statics.fresh env_negzero_enabled false).written = some (Statics.fresh, []) ∧
      ((file_float_init.cycle Statics.fresh env_negzero_disabled false).file.cycle
        Statics.fresh env_negzero_enabled false).file.all_traces.map
          (fun t => t.synced env_negzero_enabled.mem) = [false] := by
  decide

/-! ## The initialized state is well formed -/

/-- The first settled cycle of a recorder whose active set is still empty leaves a
well-formed initialized recorder. -/
theorem cycle_first_wf (f : mt_vcd_trace_file) (st : Statics) (env : Env)
    (hun : f.initialized = false) (hfresh : f.active_traces = []) :
    (f.cycle st env false).file.initialized = true ∧ (f.cycle st env false).file.wf := by
  rw [cycle_first_file f st env hun]
  refine ⟨rfl, ?_, ?_⟩
  · show (f.init env).1.active_traces.Nodup
    rw [init_active_traces, hfresh, List.nil_append]
    exact copy_if_not_alias_nodup _
  · intro i hi
    have hi2 : i ∈ copy_if_not_alias (f.init env).1.all_traces := by
      have h : i ∈ (f.init env).1.active_traces := hi
      rwa [init_active_traces, hfresh, List.nil_append] at h
    obtain ⟨q, hq, hqa⟩ := (mem_copy_if_not_alias _ _).1 hi2
    show Option.map vcd_trace.is_alias (dump_all _ _ _).1[i]? = some false
    rw [dump_all_traces, if_pos hi, hq]
    simp [vcd_trace.update, hqa]

/-- Every call of `cycle` keeps an initialized well-formed recorder initialized and well
formed. -/
theorem cycle_wf (f : mt_vcd_trace_file) (st : Statics) (env : Env) (delta_cycle : Bool)
    (hinit : f.initialized = true) (hwf : f.wf) :
    (f.cycle st env delta_cycle).file.initialized = true ∧
      (f.cycle st env delta_cycle).file.wf := by
  cases delta_cycle with
  | true => rw [cycle_delta]; exact ⟨hinit, hwf⟩
  | false =>
    by_cases hen : env.check_enabled = some false
    · rw [cycle_disabled f st env hinit hen]; exact ⟨hinit, hwf⟩
    · rw [cycle_enabled_file f st env hinit hen]
      refine ⟨hinit, hwf.1, ?_⟩
      intro i hi
      have ha := hwf.2 i hi
      cases ht : f.all_traces[i]? with
      | none => rw [ht] at ha; exact Option.noConfusion ha
      | some t =>
        rw [ht] at ha
        simp only [Option.map_some', Option.some.injEq] at ha
        show Option.map vcd_trace.is_alias (compare_all _ _ _).1[i]? = some false
        rw [(compare_all_wf f env.mem hwf).2.1 i hi t ht]
        by_cases hne : t.ne_live env.mem = true
        · simp [hne, vcd_trace.update, ha]
        · simp [hne, ha]

/-! ## The identifier allocator as a base-26 encoder -/

theorem obtain_name_data (n : Nat) :
    (obtain_name n).1.data =
      [Char.ofNat (n / 26 / 26 / 26 / 26 % 26 + 97), Char.ofNat (n / 26 / 26 / 26 % 26 + 97),
        Char.ofNat (n / 26 / 26 % 26 + 97), Char.ofNat (n / 26 % 26 + 97),
        Char.ofNat (n % 26 + 97)] := rfl

/-- C16: for a counter below `26^5`, `obtain_name()` returns five lowercase letters that
denote the counter in base 26 (most significant first, `a` as digit 0) and increments the
counter; the names returned at two different counters below `26^5` differ. -/
theorem obtain_name_base26 (n : Nat) (hn : n < 26 ^ 5) :
    (obtain_name n).1.length = 5 ∧ (∀ c ∈ (obtain_name n).1.data, is_lowercase c = true) ∧
      base26_value (obtain_name n).1.data = n ∧ (obtain_name n).2 = n + 1 ∧
      ∀ j : Nat, j < 26 ^ 5 → j ≠ n → (obtain_name j).1 ≠ (obtain_name n).1 := by
  have h1 := char_ofNat_toNat_small (n / 26 / 26 / 26 / 26 % 26 + 97) (by omega)
  have h2 := char_ofNat_toNat_small (n / 26 / 26 / 26 % 26 + 97) (by omega)
  have h3 := char_ofNat_toNat_small (n / 26 / 26 % 26 + 97) (by omega)
  have h4 := char_ofNat_toNat_small (n / 26 % 26 + 97) (by omega)
  have h5 := char_ofNat_toNat_small (n % 26 + 97) (by omega)
  refine ⟨rfl, ?_, ?_, rfl, ?_⟩
  · intro c hc
    rw [obtain_name_data] at hc
    simp only [List.mem_cons, List.mem_singleton, List.not_mem_nil, or_false] at hc
    rcases hc with rfl | rfl | rfl | rfl | rfl <;>
      simp only [is_lowercase, decide_eq_true_eq, h1, h2, h3, h4, h5] <;> omega
  · rw [obtain_name_data]
    simp only [base26_value, List.foldl_cons, List.foldl_nil, h1, h2, h3, h4, h5]
    norm_num at hn
    omega
  · intro j hj hne heq
    exact hne (obtain_name_inj j n hj hn heq)

theorem obtain_name_base26_witness :
    (obtain_name 27).1 = "aaabb" ∧ (obtain_name 27).1.length = 5 ∧
      base26_value (obtain_name 27).1.data = 27 ∧ (obtain_name 27).2 = 27 + 1 :=
  ⟨by decide, (obtain_name_base26 27 (by norm_num)).1, (obtain_name_base26 27 (by norm_num)).2.2.1,
    (obtain_name_base26 27 (by norm_num)).2.2.2.1⟩

/-! ## Late registration -/

theorem trace_fields (f : mt_vcd_trace_file) (k : Kind) (mem : Mem) (object : Nat)
    (name : String) :
    (f.trace k mem object name).all_traces
        = f.all_traces ++ [vcd_trace_t k mem object name (-1)] ∧
      (f.trace k mem object name).active_traces = f.active_traces ∧
      (f.trace k mem object name).changed_traces = f.changed_traces ∧
      (f.trace k mem object name).vcd_name_index = f.vcd_name_index ∧
      (f.trace k mem object name).initialized = f.initialized :=
  ⟨rfl, rfl, rfl, rfl, rfl⟩

/-- C14 (as the code behaves): a `trace(object, name)` call is accepted in every state of
the recorder, also when it is initialized: it appends a new trace record (without
identifier, not an alias) to `all_traces`, keeps the existing trace records and leaves
the active set, the identifier counter and the initialized flag unchanged. -/
theorem trace_appends_in_every_state (f : mt_vcd_trace_file) (k : Kind) (mem : Mem)
    (object : Nat) (name : String) :
    (f.trace k mem object name).all_traces
        = f.all_traces ++ [vcd_trace_t k mem object name (-1)] ∧
      (vcd_trace_t k mem object name (-1)).fst_hndl = "" ∧
      (vcd_trace_t k mem object name (-1)).is_alias = false ∧
      (∀ i : Nat, i < f.all_traces.length →
        (f.trace k mem object name).all_traces[i]? = f.all_traces[i]?) ∧
      (f.trace k mem object name).active_traces = f.active_traces ∧
      (f.trace k mem object name).vcd_name_index = f.vcd_name_index ∧
      (f.trace k mem object name).initialized = f.initialized := by
  refine ⟨rfl, rfl, rfl, ?_, rfl, rfl, rfl⟩
  intro i hi
  rw [(trace_fields f k mem object name).1, List.getElem?_append_left hi]

/-- C14 (as the specification states it) fails: on the initialized recorder of the
scenario a further `trace` call is not rejected, `all_traces` grows from two to three
entries. -/
theorem trace_after_init_not_rejected :
    file_flag_counter_init.initialized = true ∧
      file_flag_counter_init.all_traces.map vcd_trace.name = ["top.counter", "top.flag"] ∧
      (file_flag_counter_init.trace .bool mem_zero 400 "top.late").all_traces.map vcd_trace.name
        = ["top.counter", "top.flag", "top.late"] := by
  decide

/-! ## 64-bit patterns -/

theorem vcdEmitValueChange32_truncates (handle : String) (bits : Nat) (p q : Nat)
    (h : p % 2 ^ 32 = q % 2 ^ 32) :
    vcdEmitValueChange32 handle bits (p : Int) = vcdEmitValueChange32 handle bits (q : Int) := by
  have hp : ((p : Int) % 2 ^ 32).toNat = p % 2 ^ 32 := by
    have : ((p : Int) % 2 ^ 32) = ((p % 2 ^ 32 : Nat) : Int) := by push_cast; rfl
    rw [this, Int.toNat_ofNat]
  have hq : ((q : Int) % 2 ^ 32).toNat = q % 2 ^ 32 := by
    have : ((q : Int) % 2 ^ 32) = ((q % 2 ^ 32 : Nat) : Int) := by push_cast; rfl
    rw [this, Int.toNat_ofNat]
  unfold vcdEmitValueChange32
  rw [hp, hq, h]

theorem shl_one_64 : shl_one 64 = none := by decide

/-- The value line of a `double`, `sc_fxnum`, `sc_fxnum_fast`, `sc_fxval` or
`sc_fxval_fast` trace is undefined for every pattern: the mask is `(1 << 64) - 1`. -/
theorem record_val_pattern64_undefined (st : Statics) (handle : String) (bits p : Nat) :
    record_val .double st handle bits p = none ∧ record_val .sc_fxnum st handle bits p = none ∧
      record_val .sc_fxnum_fast st handle bits p = none ∧
      record_val .sc_fxval st handle bits p = none ∧
      record_val .sc_fxval_fast st handle bits p = none := by
  simp [record_val, vcdEmitValueChange32, vcdEmitValueChange64, shl_one_64]

/-- C15: the `double` snapshot `1.0` is passed to `vcdEmitValueChange32`, whose `uint32_t`
parameter keeps the lower 32 bits only, with the width 64, for which the mask shift is
undefined; the fixed-point snapshot goes to `vcdEmitValueChange64` with the same undefined
shift.  Even with a defined mask width the 32-bit emitter writes the same line `b0 aaaaa`
for the patterns of `1.0` and `2.0`, which differ in the upper 32 bits only. -/
theorem record_double_loses_upper_bits :
    trace_double.record Statics.fresh = none ∧ trace_fxval.record Statics.fresh = none ∧
      pattern_one ≠ pattern_two ∧ pattern_one % 2 ^ 32 = pattern_two % 2 ^ 32 ∧
      vcdEmitValueChange32 "aaaaa" 63 pattern_one = some "b0 aaaaa\n" ∧
      vcdEmitValueChange32 "aaaaa" 63 pattern_two = some "b0 aaaaa\n" := by
  decide

/-! ## Names with brackets -/

theorem trace_keeps_name (f : mt_vcd_trace_file) (k : Kind) (mem : Mem) (object : Nat)
    (name : String) :
    ((f.trace k mem object name).all_traces.getLast?).map vcd_trace.name = some name := by
  simp [(trace_fields f k mem object name).1, vcd_trace_t]

/-- C17: the boolean registered as `top.sig[0]` is declared with the display name `sig[0]`;
`trace` stores the name as given and never calls `prune_name`, which would have
produced `sig(0)`. -/
theorem declaration_keeps_brackets :
    (file_bracket.init env_zero).2.chunks
        = ["$date\n     Jan 01, 2021       00:00:00\n$end\n\n",
           "$version\n SystemC 2.3.3\n$end\n\n", "$timescale\n     1 ps\n$end\n\n",
           "$comment\ntracing 1 distinct traces out of 1 traces\n$end\n\n",
           "$scope module SystemC $end\n", "$scope module top $end\n",
           "$var wire 1 aaaaa  sig[0] $end\n", "$upscope $end\n", "$upscope $end\n"] ∧
      (prune_name "tr" false "sig[0]").1 = "sig(0)" := by
  decide

theorem prune_name_warned (name : String) (warned : Bool) (orig_name : String) :
    (prune_name name warned orig_name).2.1 = warned := rfl

/-- The static flag of `prune_name` keeps its value over any sequence of calls. -/
theorem prune_names_warned (name : String) (names : List String) :
    ∀ warned : Bool, (prune_names name warned names).1 = warned := by
  induction names with
  | nil => intro warned; rfl
  | cons n ns ih => intro warned; simp only [prune_names, ih, prune_name_warned]

/-- C18: two `prune_name` calls in one run, for `a[0]` and for `b[1]`, issue two
warnings: the static flag `warned` is still false after the first call. -/
theorem prune_name_warns_every_time :
    (prune_name "tr" false "a[0]").2.2.length = 1 ∧ (prune_name "tr" false "a[0]").2.1 = false ∧
      (prune_name "tr" (prune_name "tr" false "a[0]").2.1 "b[1]").2.2.length = 1 ∧
      (prune_names "tr" false ["a[0]", "b[1]"]).2.length = 2 := by
  decide

/-! ## The static buffer of the numeric vectors -/

/-- C20: after `record()` of the `sc_int_base` trace of length 3 with snapshot `101`,
`record()` of the trace of length 2 with snapshot `10` passes the three characters `101`
to the emitter: the third character is left over from the earlier call (no terminator
is written behind the two digits). -/
theorem record_keeps_stale_buffer_tail :
    trace_int3.record Statics.fresh
        = some (⟨some ⟨4096, ['1', '0', '1']⟩, none, none, none⟩, "baaaaa 101\n") ∧
      trace_int2.record ⟨some ⟨4096, ['1', '0', '1']⟩, none, none, none⟩
        = some (⟨some ⟨4096, ['1', '0', '1']⟩, none, none, none⟩, "baaaab 101\n") ∧
      trace_int2.record Statics.fresh
        = some (⟨some ⟨4096, ['1', '0']⟩, none, none, none⟩, "baaaab 10\n") := by
  decide

/-! ## The initial dump -/

theorem emit_lines_filterMap_forall₂ (F : Nat → Option vcd_trace) (l : List Nat) :
    (∀ i ∈ l, (F i).isSome = true) →
    ∀ (st st2 : Statics) (ls : List String), emit_lines st (l.filterMap F) = some (st2, ls) →
      List.Forall₂ (fun i line => ∃ (t : vcd_trace) (sa sb : Statics),
        F i = some t ∧ t.record sa = some (sb, line)) l ls := by
  induction l with
  | nil =>
    intro _ st st2 ls h
    simp only [List.filterMap_nil, emit_lines, Option.some.injEq, Prod.mk.injEq] at h
    rw [← h.2]; exact List.Forall₂.nil
  | cons i rest ih =>
    intro hl st st2 ls h
    have hi := hl i (List.mem_cons_self _ _)
    cases hF : F i with
    | none => rw [hF] at hi; exact Bool.noConfusion hi
    | some t =>
      simp only [List.filterMap_cons, hF, emit_lines] at h
      cases hr : t.record st with
      | none => simp [hr] at h
      | some r =>
        simp only [hr, Option.some_bind] at h
        cases he : emit_lines r.1 (rest.filterMap F) with
        | none => simp [he] at h
        | some w =>
          simp only [he, Option.map_some', Option.some.injEq, Prod.mk.injEq] at h
          rw [← h.2]
          exact List.Forall₂.cons ⟨t, st, r.1, hF, hr⟩
            (ih (fun k hk => hl k (List.mem_cons_of_mem _ hk)) r.1 w.1 w.2 he)

theorem emit_lines_isSome (ts : List vcd_trace) :
    (∀ t ∈ ts, ∀ sa : Statics, (t.record sa).isSome = true) →
    ∀ st : Statics, (emit_lines st ts).isSome = true := by
  induction ts with
  | nil => intro _ st; rfl
  | cons t ts ih =>
    intro h st
    have ht := h t (List.mem_cons_self _ _) st
    cases hr : t.record st with
    | none => rw [hr] at ht; exact Bool.noConfusion ht
    | some r =>
      have hrest := ih (fun u hu => h u (List.mem_cons_of_mem _ hu)) r.1
      cases he : emit_lines r.1 ts with
      | none => rw [he] at hrest; exact Bool.noConfusion hrest
      | some w => simp [emit_lines, hr, he]

/-- The structure of the first settled cycle of a recorder whose active set is still
empty: the recorder is initialized, the snapshot of every active trace becomes its live
value, and between the `$dumpvars` chunk and the `$end` chunk there is one line per
active trace, in active-set order, each a line `record()` gives for that trace with its
live value in some state of the static buffers; the text is defined whenever the value
line of every active trace is.  What such a line holds depends on the static buffers
the preceding lines left. -/
theorem first_cycle_dump_structure (f : mt_vcd_trace_file) (st : Statics) (env : Env)
    (hun : f.initialized = false) (hfresh : f.active_traces = []) :
    (f.cycle st env false).file.initialized = true ∧
      (f.cycle st env false).file.active_traces = (f.init env).1.active_traces ∧
      (∀ i ∈ (f.init env).1.active_traces, ∃ t : vcd_trace,
        (f.init env).1.all_traces[i]? = some t ∧
        (f.cycle st env false).file.all_traces[i]? = some (t.update env.mem) ∧
        (t.update env.mem).synced env.mem = true) ∧
      (∀ w : Statics × List String, (f.cycle st env false).written = some w →
        ∃ lines : List String,
          w.2 = ((f.init env).2.chunks ++ ["$enddefinitions  $end\n\n$dumpvars\n"] ++ lines)
            ++ ["$end\n\n"] ∧
          lines.length = (f.init env).1.active_traces.length ∧
          List.Forall₂ (fun i line => ∃ (t : vcd_trace) (sa sb : Statics),
            (f.init env).1.all_traces[i]? = some t ∧
            (t.update env.mem).record sa = some (sb, line))
            (f.init env).1.active_traces lines) ∧
      ((∀ i ∈ (f.init env).1.active_traces, ∀ t : vcd_trace,
          (f.init env).1.all_traces[i]? = some t →
          ∀ sa : Statics, ((t.update env.mem).record sa).isSome = true) →
        ((f.cycle st env false).written).isSome = true) := by
  have hact : ∀ i ∈ (f.init env).1.active_traces, ∃ t : vcd_trace,
      (f.init env).1.all_traces[i]? = some t := by
    intro i hi
    rw [init_active_traces, hfresh, List.nil_append] at hi
    obtain ⟨q, hq, _⟩ := (mem_copy_if_not_alias _ _).1 hi
    exact ⟨q, hq⟩
  have hsome : ∀ i ∈ (f.init env).1.active_traces,
      (((f.init env).1.all_traces[i]?).map fun t => t.update env.mem).isSome = true := by
    intro i hi
    obtain ⟨t, ht⟩ := hact i hi
    rw [ht]; rfl
  have hwr := cycle_first_written f st env hun
  rw [dump_all_written, Option.map_map] at hwr
  rw [cycle_first_file f st env hun]
  refine ⟨rfl, rfl, ?_, ?_, ?_⟩
  · intro i hi
    obtain ⟨t, ht⟩ := hact i hi
    refine ⟨t, ht, ?_, vcd_trace.update_synced t env.mem⟩
    show (dump_all _ _ _).1[i]? = _
    rw [dump_all_traces, if_pos hi, ht]; rfl
  · intro w hw
    rw [hwr] at hw
    cases he : emit_lines st ((f.init env).1.active_traces.filterMap
        fun i => ((f.init env).1.all_traces[i]?).map fun t => t.update env.mem) with
    | none => rw [he] at hw; exact Option.noConfusion hw
    | some w0 =>
      rw [he] at hw
      simp only [Option.map_some', Function.comp_apply, Option.some.injEq] at hw
      have hf := emit_lines_filterMap_forall₂ _ _ hsome st w0.1 w0.2 he
      refine ⟨w0.2, by rw [← hw], hf.length_eq.symm, ?_⟩
      refine hf.imp ?_
      rintro i line ⟨u, sa, sb, hu, hrec⟩
      cases ht : (f.init env).1.all_traces[i]? with
      | none => rw [ht] at hu; exact Option.noConfusion hu
      | some t =>
        rw [ht] at hu
        simp only [Option.map_some', Option.some.injEq] at hu
        exact ⟨t, sa, sb, rfl, by rw [hu]; exact hrec⟩
  · intro hdef
    rw [hwr]
    have hall : ∀ u ∈ (f.init env).1.active_traces.filterMap
        (fun i => ((f.init env).1.all_traces[i]?).map fun t => t.update env.mem),
        ∀ sa : Statics, (u.record sa).isSome = true := by
      intro u hu sa
      obtain ⟨i, hi, hiu⟩ := List.mem_filterMap.1 hu
      cases ht : (f.init env).1.all_traces[i]? with
      | none => rw [ht] at hiu; exact Option.noConfusion hiu
      | some t =>
        rw [ht] at hiu
        simp only [Option.map_some', Option.some.injEq] at hiu
        rw [← hiu]; exact hdef i hi t ht sa
    have := emit_lines_isSome _ hall st
    cases he : emit_lines st ((f.init env).1.active_traces.filterMap
        fun i => ((f.init env).1.all_traces[i]?).map fun t => t.update env.mem) with
    | none => rw [he] at this; exact Bool.noConfusion this
    | some w0 => rfl

theorem first_cycle_dump_structure_witness :
    (file_flag_counter.cycle Statics.fresh env_zero false).file.initialized = true ∧
      (file_flag_counter.cycle Statics.fresh env_zero false).file.active_traces = [0, 1] ∧
      (file_flag_counter.cycle Statics.fresh env_zero false).written
        = some (Statics.fresh,
            ["$date\n     Jan 01, 2021       00:00:00\n$end\n\n",
             "$version\n SystemC 2.3.3\n$end\n\n", "$timescale\n     1 ps\n$end\n\n",
             "$comment\ntracing 2 distinct traces out of 2 traces\n$end\n\n",
             "$scope module SystemC $end\n", "$scope module top $end\n",
             "$var wire 8 aaaaa counter [7:0] $end\n", "$var wire 1 aaaab  flag $end\n",
             "$upscope $end\n", "$upscope $end\n",
             "$enddefinitions  $end\n\n$dumpvars\n", "b0 aaaaa\n", "0aaaab\n", "$end\n\n"]) :=
  ⟨(first_cycle_dump_structure file_flag_counter Statics.fresh env_zero rfl rfl).1,
    by decide, by decide⟩

/-- C11: on the first settled cycle of the recorder with the three-bit `top.a` (live value
`101`) and the two-bit `top.b` (live value `10`) both traces are active, both snapshots
become the live values and the recorder is initialized, but the value line written for
`top.b` between `$dumpvars` and `$end` is `baaaab 101`: it carries the digits `101`, the
third left in the static buffer by the line of `top.a`, and not the live value `10` (the
line of the specification is `b10 aaaab`). -/
theorem first_cycle_line_not_live_value :
    file_int3_int2.initialized = false ∧
      (file_int3_int2.init env_ints).1.active_traces = [0, 1] ∧
      (file_int3_int2.cycle Statics.fresh env_ints false).file.initialized = true ∧
      (file_int3_int2.cycle Statics.fresh env_ints false).file.all_traces.map
        (fun t => (t.name, t.fst_hndl, t.bits, t.synced env_ints.mem))
          = [("top.a", "aaaaa", 3, true), ("top.b", "aaaab", 2, true)] ∧
      (file_int3_int2.cycle Statics.fresh env_ints false).written
        = some (⟨some ⟨4096, ['1', '0', '1']⟩, none, none, none⟩,
            ["$date\n     Jan 01, 2021       00:00:00\n$end\n\n",
             "$version\n SystemC 2.3.3\n$end\n\n", "$timescale\n     1 ps\n$end\n\n",
             "$comment\ntracing 2 distinct traces out of 2 traces\n$end\n\n",
             "$scope module SystemC $end\n", "$scope module top $end\n",
             "$var wire 3 aaaaa a [2:0] $end\n", "$var wire 2 aaaab b [1:0] $end\n",
             "$upscope $end\n", "$upscope $end\n",
             "$enddefinitions  $end\n\n$dumpvars\n", "baaaaa 101\n", "baaaab 101\n",
             "$end\n\n"]) ∧
      bv_to_string (mem_ints .sc_int_base 200) = "10" ∧
      spec_vector_line "aaaab" (bv_to_string (mem_ints .sc_int_base 200)) = "b10 aaaab\n" := by
  decide

/-! ## The declarations of the scope tree -/

theorem foldl_append_printed (g : String × vcd_trace → Printed) (ts : List (String × vcd_trace)) :
    ∀ init : Printed, ts.foldl (fun acc e => acc.append (g e)) init
      = ⟨init.chunks ++ ts.flatMap (fun e => (g e).chunks),
          init.errors ++ ts.flatMap (fun e => (g e).errors)⟩ := by
  induction ts with
  | nil => intro init; simp
  | cons e ts ih =>
    intro init
    rw [List.foldl_cons, ih]
    simp [Printed.append, List.flatMap_cons, List.append_assoc]

/-- Printing a scope: the scope header, the declarations of its leaves in their order,
the child scopes, the scope footer. -/
theorem print_mk (ts : List (String × vcd_trace)) (ss : List (String × vcd_scope_stack))
    (scope_name : String) :
    (vcd_scope_stack.print (.mk ts ss) scope_name).chunks
        = ["$scope module " ++ scope_name ++ " $end\n"]
          ++ ts.flatMap (fun e => (print_variable_declaration_line e.1 e.2).chunks)
          ++ (vcd_scope_stack.print_scopes ss).chunks ++ ["$upscope $end\n"] ∧
      (vcd_scope_stack.print (.mk ts ss) scope_name).errors
        = ts.flatMap (fun e => (print_variable_declaration_line e.1 e.2).errors)
          ++ (vcd_scope_stack.print_scopes ss).errors := by
  rw [vcd_scope_stack.print, foldl_append_printed]
  simp [Printed.append, List.append_assoc]

theorem print_scopes_cons (n : String) (c : vcd_scope_stack)
    (rest : List (String × vcd_scope_stack)) :
    vcd_scope_stack.print_scopes ((n, c) :: rest)
      = (vcd_scope_stack.print c n).append (vcd_scope_stack.print_scopes rest) := by
  rw [vcd_scope_stack.print_scopes]

theorem is_declaration_scope (scope_name : String) :
    is_declaration ("$scope module " ++ scope_name ++ " $end\n") = false := by
  simp [is_declaration, String.data_append]

theorem is_declaration_upscope : is_declaration "$upscope $end\n" = false := by decide

theorem is_declaration_line (scoped_name : String) (trc : vcd_trace) :
    ∀ c ∈ (print_variable_declaration_line scoped_name trc).chunks, is_declaration c = true := by
  intro c hc
  unfold print_variable_declaration_line at hc
  split at hc
  · exact absurd hc (List.not_mem_nil c)
  · rw [List.mem_singleton.1 hc]
    simp [is_declaration, String.data_append]
  · rw [List.mem_singleton.1 hc]
    simp [is_declaration, String.data_append]

theorem filter_declaration_leaves (ts : List (String × vcd_trace)) :
    (ts.flatMap fun e => (print_variable_declaration_line e.1 e.2).chunks).filter is_declaration
      = ts.flatMap fun e => (print_variable_declaration_line e.1 e.2).chunks := by
  apply List.filter_eq_self.2
  intro c hc
  obtain ⟨e, _, he⟩ := List.mem_flatMap.1 hc
  exact is_declaration_line e.1 e.2 c he

mutual
/-- The declaration lines and the error reports of a printed scope are those of its
leaves, in the order of `leaves`. -/
theorem print_declarations : ∀ (sc : vcd_scope_stack) (scope_name : String),
    (sc.print scope_name).chunks.filter is_declaration
        = sc.leaves.flatMap (fun e => (print_variable_declaration_line e.1 e.2).chunks) ∧
      (sc.print scope_name).errors
        = sc.leaves.flatMap (fun e => (print_variable_declaration_line e.1 e.2).errors)
  | .mk ts ss, scope_name => by
    obtain ⟨h1, h2⟩ := print_scopes_declarations ss
    rw [(print_mk ts ss scope_name).1, (print_mk ts ss scope_name).2, vcd_scope_stack.leaves]
    refine ⟨?_, ?_⟩
    · simp only [List.filter_append, List.flatMap_append, filter_declaration_leaves, h1]
      simp [List.filter_cons, is_declaration_scope, is_declaration_upscope]
    · rw [List.flatMap_append, h2]
/-- The declaration lines and the error reports of the printed child scopes. -/
theorem print_scopes_declarations : ∀ ss : List (String × vcd_scope_stack),
    (vcd_scope_stack.print_scopes ss).chunks.filter is_declaration
        = (vcd_scope_stack.leaves_scopes ss).flatMap
            (fun e => (print_variable_declaration_line e.1 e.2).chunks) ∧
      (vcd_scope_stack.print_scopes ss).errors
        = (vcd_scope_stack.leaves_scopes ss).flatMap
            (fun e => (print_variable_declaration_line e.1 e.2).errors)
  | [] => by
    rw [vcd_scope_stack.print_scopes, vcd_scope_stack.leaves_scopes]
    exact ⟨rfl, rfl⟩
  | (n, c) :: rest => by
    obtain ⟨h1, h2⟩ := print_declarations c n
    obtain ⟨h3, h4⟩ := print_scopes_declarations rest
    rw [print_scopes_cons, vcd_scope_stack.leaves_scopes]
    refine ⟨?_, ?_⟩
    · simp only [Printed.append, List.filter_append, List.flatMap_append, h1, h3]
    · simp only [Printed.append, List.flatMap_append, h2, h4]
end

/-! ## Building the scope tree -/

theorem leaves_scopes_append (a b : List (String × vcd_scope_stack)) :
    vcd_scope_stack.leaves_scopes (a ++ b)
      = vcd_scope_stack.leaves_scopes a ++ vcd_scope_stack.leaves_scopes b := by
  induction a with
  | nil => simp [vcd_scope_stack.leaves_scopes]
  | cons e a ih =>
    obtain ⟨n, c⟩ := e
    simp [vcd_scope_stack.leaves_scopes, ih, List.append_assoc]

theorem all_nodes_scopes_iff (P : List (String × vcd_trace) → List String → Prop)
    (ss : List (String × vcd_scope_stack)) :
    vcd_scope_stack.all_nodes_scopes P ss ↔ ∀ e ∈ ss, e.2.all_nodes P := by
  induction ss with
  | nil => simp [vcd_scope_stack.all_nodes_scopes]
  | cons e ss ih =>
    obtain ⟨n, c⟩ := e
    simp [vcd_scope_stack.all_nodes_scopes, ih]

theorem all_nodes_mk (P : List (String × vcd_trace) → List String → Prop)
    (ts : List (String × vcd_trace)) (ss : List (String × vcd_scope_stack)) :
    (vcd_scope_stack.mk ts ss).all_nodes P
      ↔ P ts (ss.map Prod.fst) ∧ ∀ e ∈ ss, e.2.all_nodes P := by
  rw [vcd_scope_stack.all_nodes, all_nodes_scopes_iff]

mutual
/-- A property implied at every scope holds at every scope. -/
theorem all_nodes_mono (P Q : List (String × vcd_trace) → List String → Prop)
    (h : ∀ ts ks, P ts ks → Q ts ks) : ∀ sc : vcd_scope_stack, sc.all_nodes P → sc.all_nodes Q
  | .mk ts ss => by
    intro hp
    rw [vcd_scope_stack.all_nodes] at hp ⊢
    exact ⟨h _ _ hp.1, all_nodes_scopes_mono P Q h ss hp.2⟩
/-- The list version of `all_nodes_mono`. -/
theorem all_nodes_scopes_mono (P Q : List (String × vcd_trace) → List String → Prop)
    (h : ∀ ts ks, P ts ks → Q ts ks) : ∀ ss : List (String × vcd_scope_stack),
      vcd_scope_stack.all_nodes_scopes P ss → vcd_scope_stack.all_nodes_scopes Q ss
  | [] => by
    intro _
    rw [vcd_scope_stack.all_nodes_scopes]
    trivial
  | (n, c) :: rest => by
    intro hp
    rw [vcd_scope_stack.all_nodes_scopes] at hp ⊢
    exact ⟨all_nodes_mono P Q h c hp.1, all_nodes_scopes_mono P Q h rest hp.2⟩
end

theorem add_trace_rec_single (seg : String) (trace : vcd_trace)
    (ts : List (String × vcd_trace)) (ss : List (String × vcd_scope_stack)) :
    vcd_scope_stack.add_trace_rec [seg] trace (.mk ts ss) = .mk (ts ++ [(seg, trace)]) ss := by
  rw [vcd_scope_stack.add_trace_rec]

theorem add_trace_rec_descend (seg r : String) (rest : List String) (trace : vcd_trace)
    (ts : List (String × vcd_trace)) (ss : List (String × vcd_scope_stack)) :
    vcd_scope_stack.add_trace_rec (seg :: r :: rest) trace (.mk ts ss)
      = if ss.any (fun e => e.1 == seg) then
          .mk ts (ss.map fun e =>
            if e.1 == seg then (e.1, vcd_scope_stack.add_trace_rec (r :: rest) trace e.2) else e)
        else
          .mk ts (ss ++ [(seg, vcd_scope_stack.add_trace_rec (r :: rest) trace .empty)]) := by
  rw [vcd_scope_stack.add_trace_rec]
  intro h
  exact List.noConfusion h

theorem any_key_iff (ss : List (String × vcd_scope_stack)) (seg : String) :
    ss.any (fun e => e.1 == seg) = true ↔ seg ∈ ss.map Prod.fst := by
  simp only [List.any_eq_true, List.mem_map, beq_iff_eq]

theorem map_child_keys (ss : List (String × vcd_scope_stack)) (seg : String)
    (g : vcd_scope_stack → vcd_scope_stack) :
    (ss.map fun e => if e.1 == seg then (e.1, g e.2) else e).map Prod.fst = ss.map Prod.fst := by
  rw [List.map_map]
  apply List.map_congr_left
  intro e _
  simp only [Function.comp_apply]
  split <;> rfl

/-- Adding a trace keeps a property of all scopes, provided the property survives a new
leaf, a new child name, holds for a new empty scope and is kept where nothing changes. -/
theorem add_trace_rec_all_nodes (P Q : List (String × vcd_trace) → List String → Prop)
    (trace : vcd_trace) (name : String)
    (hmono : ∀ ts ks, P ts ks → Q ts ks)
    (hleaf : ∀ ts ks, P ts ks → Q (ts ++ [(name, trace)]) ks)
    (hchild : ∀ ts ks k, P ts ks → k ∉ ks → Q ts (ks ++ [k]))
    (hempty : P [] []) :
    ∀ (segs : List String) (sc : vcd_scope_stack), segs.getLast? = some name →
      sc.all_nodes P → (sc.add_trace_rec segs trace).all_nodes Q := by
  intro segs
  induction segs with
  | nil => intro sc h; exact absurd h (by simp)
  | cons seg rest ih =>
    intro sc hlast hp
    obtain ⟨ts, ss⟩ := sc
    rw [all_nodes_mk] at hp
    cases rest with
    | nil =>
      rw [add_trace_rec_single, all_nodes_mk]
      have hn : seg = name := by simpa using hlast
      subst hn
      exact ⟨hleaf _ _ hp.1, fun e he => all_nodes_mono P Q hmono e.2 (hp.2 e he)⟩
    | cons r rest =>
      have hlast2 : (r :: rest).getLast? = some name := by
        rw [← hlast, List.getLast?_cons_cons]
      rw [add_trace_rec_descend]
      by_cases hany : ss.any (fun e => e.1 == seg) = true
      · rw [if_pos hany, all_nodes_mk, map_child_keys]
        refine ⟨hmono _ _ hp.1, ?_⟩
        intro e he
        obtain ⟨e0, he0, rfl⟩ := List.mem_map.1 he
        by_cases hk : (e0.1 == seg) = true
        · rw [if_pos hk]
          exact ih e0.2 hlast2 (hp.2 e0 he0)
        · rw [if_neg hk]
          exact all_nodes_mono P Q hmono e0.2 (hp.2 e0 he0)
      · rw [if_neg hany, all_nodes_mk, List.map_append]
        have hnotin : seg ∉ ss.map Prod.fst := fun h => hany ((any_key_iff ss seg).2 h)
        refine ⟨hchild _ _ seg hp.1 hnotin, ?_⟩
        intro e he
        rcases List.mem_append.1 he with he | he
        · exact all_nodes_mono P Q hmono e.2 (hp.2 e he)
        · rw [List.mem_singleton.1 he]
          apply ih _ hlast2
          rw [vcd_scope_stack.empty, all_nodes_mk]
          exact ⟨hempty, fun e he => absurd he (List.not_mem_nil e)⟩

theorem map_child_cons (n : String) (c : vcd_scope_stack) (ss : List (String × vcd_scope_stack))
    (seg : String) (g : vcd_scope_stack → vcd_scope_stack) :
    (((n, c) :: ss).map fun e => if e.1 == seg then (e.1, g e.2) else e)
      = (if n == seg then (n, g c) else (n, c))
        :: (ss.map fun e => if e.1 == seg then (e.1, g e.2) else e) := rfl

theorem map_child_absent (ss : List (String × vcd_scope_stack)) (seg : String)
    (g : vcd_scope_stack → vcd_scope_stack) (h : seg ∉ ss.map Prod.fst) :
    (ss.map fun e => if e.1 == seg then (e.1, g e.2) else e) = ss := by
  induction ss with
  | nil => rfl
  | cons e ss ih =>
    obtain ⟨n, c⟩ := e
    have h1 : ¬ ((n == seg) = true) := by
      intro heq
      exact h (by rw [List.map_cons]; exact List.mem_cons.2 (Or.inl (beq_iff_eq.1 heq).symm))
    have h2 : seg ∉ ss.map Prod.fst := fun hm => h (List.mem_cons_of_mem _ hm)
    rw [map_child_cons, if_neg h1, ih h2]

/-- Replacing the child called `seg` (its name occurs once) by a tree with one more leaf
adds that leaf to the leaves of the children. -/
theorem leaves_scopes_map_child (seg : String) (g : vcd_scope_stack → vcd_scope_stack)
    (x : String × vcd_trace) (ss : List (String × vcd_scope_stack)) :
    (ss.map Prod.fst).Nodup → seg ∈ ss.map Prod.fst →
    (∀ e ∈ ss, e.1 = seg → ((g e.2).leaves).Perm (e.2.leaves ++ [x])) →
    (vcd_scope_stack.leaves_scopes
      (ss.map fun e => if e.1 == seg then (e.1, g e.2) else e)).Perm
      (vcd_scope_stack.leaves_scopes ss ++ [x]) := by
  induction ss with
  | nil => intro _ h; exact absurd h (by simp)
  | cons e ss ih =>
    intro hnd hmem hg
    obtain ⟨n, c⟩ := e
    rw [List.map_cons, List.nodup_cons] at hnd
    by_cases hk : (n == seg) = true
    · have hns : n = seg := beq_iff_eq.1 hk
      have hrest := map_child_absent ss seg g (hns ▸ hnd.1)
      rw [map_child_cons, if_pos hk, hrest, vcd_scope_stack.leaves_scopes,
        vcd_scope_stack.leaves_scopes]
      have hc := hg (n, c) (List.mem_cons_self _ _) hns
      refine (hc.append_right _).trans ?_
      rw [List.append_assoc, List.append_assoc]
      exact List.Perm.append_left _ List.perm_append_comm
    · have hne : n ≠ seg := fun h => hk (beq_iff_eq.2 h)
      have hmem2 : seg ∈ ss.map Prod.fst := by
        rcases List.mem_cons.1 hmem with h | h
        · exact absurd h.symm hne
        · exact h
      have := ih hnd.2 hmem2 (fun e he => hg e (List.mem_cons_of_mem _ he))
      rw [map_child_cons, if_neg hk, vcd_scope_stack.leaves_scopes,
        vcd_scope_stack.leaves_scopes, List.append_assoc]
      exact List.Perm.append_left _ this

/-- Adding a trace to a tree whose child names are unique at every scope adds exactly
one leaf: the trace under its last segment. -/
theorem add_trace_rec_leaves (trace : vcd_trace) (name : String) :
    ∀ (segs : List String) (sc : vcd_scope_stack), segs.getLast? = some name →
      sc.all_nodes (fun _ ks => ks.Nodup) →
      ((sc.add_trace_rec segs trace).leaves).Perm (sc.leaves ++ [(name, trace)]) := by
  intro segs
  induction segs with
  | nil => intro sc h; exact absurd h (by simp)
  | cons seg rest ih =>
    intro sc hlast hp
    obtain ⟨ts, ss⟩ := sc
    rw [all_nodes_mk] at hp
    cases rest with
    | nil =>
      have hn : seg = name := by simpa using hlast
      subst hn
      rw [add_trace_rec_single, vcd_scope_stack.leaves, vcd_scope_stack.leaves,
        List.append_assoc, List.append_assoc]
      exact List.Perm.append_left _ List.perm_append_comm
    | cons r rest =>
      have hlast2 : (r :: rest).getLast? = some name := by
        rw [← hlast, List.getLast?_cons_cons]
      rw [add_trace_rec_descend]
      by_cases hany : ss.any (fun e => e.1 == seg) = true
      · rw [if_pos hany, vcd_scope_stack.leaves, vcd_scope_stack.leaves, List.append_assoc]
        apply List.Perm.append_left
        exact leaves_scopes_map_child seg _ _ ss hp.1 ((any_key_iff ss seg).1 hany)
          (fun e he _ => ih e.2 hlast2 (hp.2 e he))
      · rw [if_neg hany, vcd_scope_stack.leaves, vcd_scope_stack.leaves, leaves_scopes_append,
          List.append_assoc]
        apply List.Perm.append_left
        apply List.Perm.append_left
        have hemp : vcd_scope_stack.empty.all_nodes (fun _ ks => ks.Nodup) := by
          rw [vcd_scope_stack.empty, all_nodes_mk]
          exact ⟨List.nodup_nil, fun e he => absurd he (List.not_mem_nil e)⟩
        have := ih .empty hlast2 hemp
        simpa [vcd_scope_stack.leaves_scopes, vcd_scope_stack.empty, vcd_scope_stack.leaves]
          using this

/-! ## The scope tree built by `init()` -/

theorem split_go_ne_nil (sep : Char) (cs : List Char) :
    ∀ cur : List Char, split_go sep cs cur ≠ [] := by
  induction cs with
  | nil => intro cur; simp [split_go]
  | cons c cs ih =>
    intro cur
    rw [split_go]
    split
    · exact List.cons_ne_nil _ _
    · exact ih _

theorem split_getLast (name : String) :
    (split name '.').getLast? = some (last_segment name) := by
  unfold last_segment
  cases h : (split name '.').getLast? with
  | none =>
    rw [List.getLast?_eq_none_iff] at h
    exact absurd h (split_go_ne_nil _ _ _)
  | some x => rfl

theorem init_step_done_scope (s : init_state) (e : vcd_trace) :
    ∃ trc : vcd_trace, (init_step s e).done = s.done ++ [trc] ∧
      (init_step s e).scope = s.scope.add_trace trc := by
  cases hl : s.alias_map.lookup e.get_hash with
  | none => rw [init_step_none s e hl]; exact ⟨_, rfl, rfl⟩
  | some v => rw [init_step_some s e v hl]; exact ⟨_, rfl, rfl⟩

theorem scope_inv_step (s : init_state) (e : vcd_trace)
    (h1 : s.scope.all_nodes (scope_ok s.done))
    (h2 : (s.scope.leaves).Perm (s.done.map fun t => (last_segment t.name, t))) :
    (init_step s e).scope.all_nodes (scope_ok (init_step s e).done) ∧
      ((init_step s e).scope.leaves).Perm
        ((init_step s e).done.map fun t => (last_segment t.name, t)) := by
  obtain ⟨trc, hd, hs⟩ := init_step_done_scope s e
  rw [hd, hs]
  unfold vcd_scope_stack.add_trace
  refine ⟨?_, ?_⟩
  · apply add_trace_rec_all_nodes (scope_ok s.done) (scope_ok (s.done ++ [trc])) trc
      (last_segment trc.name) ?_ ?_ ?_ ?_ _ _ (split_getLast _) h1
    · intro ts ks hp
      exact ⟨hp.1, hp.2.1.trans (List.sublist_append_left _ _), hp.2.2⟩
    · intro ts ks hp
      refine ⟨hp.1, ?_, ?_⟩
      · rw [List.map_append]
        exact List.Sublist.append hp.2.1 (List.Sublist.refl _)
      · intro x hx
        rcases List.mem_append.1 hx with hx | hx
        · exact hp.2.2 x hx
        · rw [List.mem_singleton.1 hx]
    · intro ts ks k hp hk
      refine ⟨?_, hp.2.1.trans (List.sublist_append_left _ _), hp.2.2⟩
      exact List.Nodup.append hp.1 (List.nodup_singleton k)
        (List.disjoint_singleton.2 hk)
    · exact ⟨List.nodup_nil, List.nil_sublist _, fun x hx => absurd hx (List.not_mem_nil x)⟩
  · have hk : s.scope.all_nodes (fun _ ks => ks.Nodup) :=
      all_nodes_mono _ _ (fun _ _ hp => hp.1) _ h1
    refine (add_trace_rec_leaves trc (last_segment trc.name) _ _ (split_getLast _) hk).trans ?_
    rw [List.map_append]
    exact List.Perm.append_right _ h2

theorem scope_inv_foldl (l : List vcd_trace) :
    ∀ s : init_state, s.scope.all_nodes (scope_ok s.done) →
      (s.scope.leaves).Perm (s.done.map fun t => (last_segment t.name, t)) →
      (l.foldl init_step s).scope.all_nodes (scope_ok (l.foldl init_step s).done) ∧
        ((l.foldl init_step s).scope.leaves).Perm
          ((l.foldl init_step s).done.map fun t => (last_segment t.name, t)) := by
  induction l with
  | nil => intro s h1 h2; exact ⟨h1, h2⟩
  | cons e l ih =>
    intro s h1 h2
    obtain ⟨h3, h4⟩ := scope_inv_step s e h1 h2
    exact ih _ h3 h4

/-- The scope tree after the loop of `init()`: its leaves are the processed entries, each
under the last segment of its name, and every scope satisfies `scope_ok`. -/
theorem scope_inv_loop (c0 : Nat) (l : List vcd_trace) :
    (init_loop c0 l).scope.all_nodes (scope_ok (init_loop c0 l).done) ∧
      ((init_loop c0 l).scope.leaves).Perm
        ((init_loop c0 l).done.map fun t => (last_segment t.name, t)) := by
  unfold init_loop
  apply scope_inv_foldl
  · rw [vcd_scope_stack.empty, all_nodes_mk]
    exact ⟨⟨List.nodup_nil, List.nil_sublist _, fun x hx => absurd hx (List.not_mem_nil x)⟩,
      fun e he => absurd he (List.not_mem_nil e)⟩
  · rw [vcd_scope_stack.empty, vcd_scope_stack.leaves, vcd_scope_stack.leaves_scopes]
    exact List.Perm.refl _

theorem init_chunks (f : mt_vcd_trace_file) (env : Env) :
    (f.init env).2.chunks
        = ["$date\n     " ++ env.date ++ "\n$end\n\n",
           "$version\n " ++ env.sc_version ++ "\n$end\n\n",
           "$timescale\n     " ++ env.one_ps ++ "\n$end\n\n",
           write_comment ("tracing " ++ fmt_d (f.init env).1.active_traces.length
             ++ " distinct traces out of " ++ fmt_d (f.init env).1.all_traces.length ++ " traces")]
          ++ ((init_loop f.vcd_name_index (sort_traces f.all_traces)).scope.print
              "SystemC").chunks ∧
      (f.init env).2.errors
        = ((init_loop f.vcd_name_index (sort_traces f.all_traces)).scope.print "SystemC").errors := by
  constructor
  · rfl
  · simp [mt_vcd_trace_file.init, Printed.append]

theorem filter_declaration_header (a b c d : String) (rest : List String) :
    (["$date\n     " ++ a ++ "\n$end\n\n", "$version\n " ++ b ++ "\n$end\n\n",
      "$timescale\n     " ++ c ++ "\n$end\n\n", write_comment d] ++ rest).filter is_declaration
      = rest.filter is_declaration := by
  simp [List.filter_cons, is_declaration, write_comment, String.data_append]

theorem declaration_of_nonzero (t : vcd_trace) (h : t.bits ≠ 0) :
    (declaration_of t).errors = [] ∧
      (declaration_of t).chunks
        = ["$var wire " ++ fmt_d t.bits ++ " " ++ t.fst_hndl ++
            (if t.bits = 1 then "  " ++ last_segment t.name ++ " $end\n"
             else " " ++ last_segment t.name ++ " [" ++ fmt_d (t.bits - 1) ++ ":0] $end\n")] := by
  unfold declaration_of print_variable_declaration_line
  split
  · rename_i h0; exact absurd h0 h
  · rename_i h1
    simp [h1, String.append_assoc]
  · rename_i h0 h1
    have h1n : ¬ t.bits = 1 := h1
    simp [if_neg h1n, String.append_assoc]

theorem declaration_of_zero (t : vcd_trace) (h : t.bits = 0) :
    (declaration_of t).chunks = [] ∧
      (declaration_of t).errors = ["\x27" ++ last_segment t.name ++ "\x27 has 0 bits"] := by
  unfold declaration_of print_variable_declaration_line
  simp [h]

/-- The declaration of a trace depends on its name, its width and its identifier only. -/
theorem declaration_of_congr (a b : vcd_trace) (hn : a.name = b.name) (hb : a.bits = b.bits)
    (hh : a.fst_hndl = b.fst_hndl) : declaration_of a = declaration_of b := by
  unfold declaration_of print_variable_declaration_line
  rw [hn, hb, hh]

/-- The traces `init()` leaves are declared like the entries they come from, each with
the identifier of its object. -/
theorem map_declaration_of_core (f : mt_vcd_trace_file) :
    ∀ d l : List vcd_trace, d.map vcd_trace.core = l.map vcd_trace.core →
      (∀ x ∈ d, x.fst_hndl = init_handle f x.get_hash) →
      d.map declaration_of = l.map fun t => declaration_of (t.with_handle f) := by
  intro d
  induction d with
  | nil =>
    intro l h _
    cases l with
    | nil => rfl
    | cons y l => exact List.noConfusion h
  | cons x d ih =>
    intro l h hx
    cases l with
    | nil => exact List.noConfusion h
    | cons y l =>
      simp only [List.map_cons, List.cons.injEq] at h
      obtain ⟨hc, ht⟩ := h
      simp only [vcd_trace.core, Prod.mk.injEq] at hc
      obtain ⟨hn, ha, hb, _⟩ := hc
      have hhx := hx x (List.mem_cons_self _ _)
      have hd : declaration_of x = declaration_of (y.with_handle f) := by
        refine declaration_of_congr x (y.with_handle f) hn hb ?_
        rw [hhx]
        show init_handle f x.act_val = init_handle f y.act_val
        rw [ha]
      rw [List.map_cons, List.map_cons, hd, ih l ht (fun z hz => hx z (List.mem_cons_of_mem _ hz))]

theorem init_fst_hndl (f : mt_vcd_trace_file) (env : Env) :
    ∀ d ∈ (f.init env).1.all_traces, d.fst_hndl = init_handle f d.get_hash := by
  intro d hd
  rw [init_all_traces] at hd
  unfold init_handle
  rw [(init_inv_loop f.vcd_name_index (sort_traces f.all_traces)).handle d hd]
  rfl

theorem length_flatMap_chunks (g : vcd_trace → vcd_trace) (hg : ∀ t, (g t).bits = t.bits)
    (l : List vcd_trace) :
    (l.flatMap fun t => (declaration_of (g t)).chunks).length
        = (l.filter fun t => t.bits != 0).length ∧
      (l.flatMap fun t => (declaration_of (g t)).errors).length
        = (l.filter fun t => t.bits == 0).length := by
  induction l with
  | nil => exact ⟨rfl, rfl⟩
  | cons t l ih =>
    by_cases h : t.bits = 0
    · have h2 : (g t).bits = 0 := by rw [hg, h]
      obtain ⟨h3, h4⟩ := declaration_of_zero (g t) h2
      simp [List.flatMap_cons, List.filter_cons, h, h3, h4, ih.1, ih.2]
    · have h2 : (g t).bits ≠ 0 := by rw [hg]; exact h
      obtain ⟨h3, h4⟩ := declaration_of_nonzero (g t) h2
      simp [List.flatMap_cons, List.filter_cons, h, h3, h4, ih.1, ih.2]

/-- C12: the declaration lines written by `init()` are, up to their order, exactly the
declaration lines of the registered traces (aliases included), each carrying the
identifier `init()` gives its object (shared by all traces observing the object), and
the reported errors exactly the reports of the registered traces; a trace of non-zero
width contributes one declaration line with its width, its identifier and its last name
segment and no report, a trace of width 0 contributes no line and one report; so there
are as many declaration lines as registered traces of non-zero width.  The traces
`init()` leaves in the recorder are the registered ones (up to order, with name, object,
width and kind unchanged), carry these identifiers and have these declarations.
`SC_REPORT_ERROR` is taken to return. -/
theorem declarations_of_all_traces (f : mt_vcd_trace_file) (env : Env) :
    ((f.init env).2.chunks.filter is_declaration).Perm
        (f.all_traces.flatMap fun t => (declaration_of (t.with_handle f)).chunks) ∧
      ((f.init env).2.errors).Perm
        (f.all_traces.flatMap fun t => (declaration_of (t.with_handle f)).errors) ∧
      (∀ t : vcd_trace, t.bits ≠ 0 →
        (declaration_of t).errors = [] ∧
        (declaration_of t).chunks
          = ["$var wire " ++ fmt_d t.bits ++ " " ++ t.fst_hndl ++
              (if t.bits = 1 then "  " ++ last_segment t.name ++ " $end\n"
               else " " ++ last_segment t.name ++ " [" ++ fmt_d (t.bits - 1)
                 ++ ":0] $end\n")]) ∧
      (∀ t : vcd_trace, t.bits = 0 →
        (declaration_of t).chunks = [] ∧
        (declaration_of t).errors = ["\x27" ++ last_segment t.name ++ "\x27 has 0 bits"]) ∧
      (∀ t : vcd_trace, (t.with_handle f).bits = t.bits ∧ (t.with_handle f).name = t.name ∧
        (t.with_handle f).fst_hndl = init_handle f t.get_hash) ∧
      ((f.init env).2.chunks.filter is_declaration).length
        = (f.all_traces.filter fun t => t.bits != 0).length ∧
      ((f.init env).2.errors).length = (f.all_traces.filter fun t => t.bits == 0).length ∧
      ((f.init env).1.all_traces.map vcd_trace.core).Perm (f.all_traces.map vcd_trace.core) ∧
      (∀ d ∈ (f.init env).1.all_traces, d.fst_hndl = init_handle f d.get_hash) ∧
      ((f.init env).2.chunks.filter is_declaration).Perm
        ((f.init env).1.all_traces.flatMap fun t => (declaration_of t).chunks) ∧
      ((f.init env).2.errors).Perm
        ((f.init env).1.all_traces.flatMap fun t => (declaration_of t).errors) := by
  obtain ⟨_, hperm⟩ := scope_inv_loop f.vcd_name_index (sort_traces f.all_traces)
  obtain ⟨hd, he⟩ := print_declarations
    (init_loop f.vcd_name_index (sort_traces f.all_traces)).scope "SystemC"
  have h1 : ((f.init env).2.chunks.filter is_declaration).Perm
      ((f.init env).1.all_traces.flatMap fun t => (declaration_of t).chunks) := by
    rw [(init_chunks f env).1, filter_declaration_header, hd, init_all_traces]
    refine (List.Perm.flatMap_right _ hperm).trans ?_
    rw [List.flatMap_map]
    exact List.Perm.refl _
  have h2 : ((f.init env).2.errors).Perm
      ((f.init env).1.all_traces.flatMap fun t => (declaration_of t).errors) := by
    rw [(init_chunks f env).2, he, init_all_traces]
    refine (List.Perm.flatMap_right _ hperm).trans ?_
    rw [List.flatMap_map]
    exact List.Perm.refl _
  have hmap := map_declaration_of_core f (f.init env).1.all_traces (sort_traces f.all_traces)
    (by rw [init_all_traces]; exact (init_inv_loop _ _).core_eq) (init_fst_hndl f env)
  have h3 : ((f.init env).1.all_traces.flatMap fun t => (declaration_of t).chunks).Perm
      (f.all_traces.flatMap fun t => (declaration_of (t.with_handle f)).chunks) := by
    have e1 : ((f.init env).1.all_traces.flatMap fun t => (declaration_of t).chunks)
        = ((f.init env).1.all_traces.map declaration_of).flatMap Printed.chunks := by
      rw [List.flatMap_map]
    have e2 : ((sort_traces f.all_traces).flatMap
          fun t => (declaration_of (t.with_handle f)).chunks)
        = ((sort_traces f.all_traces).map
            fun t => declaration_of (t.with_handle f)).flatMap Printed.chunks := by
      rw [List.flatMap_map]
    rw [e1, hmap, ← e2]
    exact List.Perm.flatMap_right _ (sort_traces_perm f.all_traces)
  have h4 : ((f.init env).1.all_traces.flatMap fun t => (declaration_of t).errors).Perm
      (f.all_traces.flatMap fun t => (declaration_of (t.with_handle f)).errors) := by
    have e1 : ((f.init env).1.all_traces.flatMap fun t => (declaration_of t).errors)
        = ((f.init env).1.all_traces.map declaration_of).flatMap Printed.errors := by
      rw [List.flatMap_map]
    have e2 : ((sort_traces f.all_traces).flatMap
          fun t => (declaration_of (t.with_handle f)).errors)
        = ((sort_traces f.all_traces).map
            fun t => declaration_of (t.with_handle f)).flatMap Printed.errors := by
      rw [List.flatMap_map]
    rw [e1, hmap, ← e2]
    exact List.Perm.flatMap_right _ (sort_traces_perm f.all_traces)
  have hlen := length_flatMap_chunks (fun t => t.with_handle f) (fun _ => rfl) f.all_traces
  refine ⟨h1.trans h3, h2.trans h4, declaration_of_nonzero, declaration_of_zero,
    fun t => ⟨rfl, rfl, rfl⟩, ?_, ?_, init_core_perm f env, init_fst_hndl f env, h1, h2⟩
  · rw [(h1.trans h3).length_eq]; exact hlen.1
  · rw [(h2.trans h4).length_eq]; exact hlen.2

/-- The two names bound to the object at address 300 are declared with the one identifier
of the object. -/
theorem init_handle_shared :
    init_handle file_ab_ac 300 = "aaaaa" ∧
      (file_ab_ac.all_traces.flatMap fun t => (declaration_of (t.with_handle file_ab_ac)).chunks)
        = ["$var wire 32 aaaaa b [31:0] $end\n", "$var wire 32 aaaaa c [31:0] $end\n"] ∧
      (file_ab_ac.init env_zero).2.chunks.filter is_declaration
        = ["$var wire 32 aaaaa b [31:0] $end\n", "$var wire 32 aaaaa c [31:0] $end\n"] := by
  decide

/-! ## The order of the declarations -/

/-- C19 (as the code behaves): the rendered tree is the tree built from the name-sorted
entries; in every scope of it the leaves are in the order of the global sort
(lexicographic by full hierarchical name); and a scope is printed as its header, the
declaration lines of its leaves in that order, then its child scopes, then its footer. -/
theorem declarations_sorted_within_scope (f : mt_vcd_trace_file) (env : Env) :
    (f.init env).2.chunks
        = ["$date\n     " ++ env.date ++ "\n$end\n\n",
           "$version\n " ++ env.sc_version ++ "\n$end\n\n",
           "$timescale\n     " ++ env.one_ps ++ "\n$end\n\n",
           write_comment ("tracing " ++ fmt_d (f.init env).1.active_traces.length
             ++ " distinct traces out of " ++ fmt_d (f.init env).1.all_traces.length ++ " traces")]
          ++ ((init_loop f.vcd_name_index (sort_traces f.all_traces)).scope.print
              "SystemC").chunks ∧
      (init_loop f.vcd_name_index (sort_traces f.all_traces)).scope.all_nodes
        (fun ts _ => (ts.map fun e => e.2.name.data).Sorted (· ≤ ·)) ∧
      (∀ (ts : List (String × vcd_trace)) (ss : List (String × vcd_scope_stack))
          (scope_name : String),
        (vcd_scope_stack.print (.mk ts ss) scope_name).chunks
          = ["$scope module " ++ scope_name ++ " $end\n"]
            ++ ts.flatMap (fun e => (print_variable_declaration_line e.1 e.2).chunks)
            ++ (vcd_scope_stack.print_scopes ss).chunks ++ ["$upscope $end\n"]) := by
  refine ⟨(init_chunks f env).1, ?_, fun ts ss n => (print_mk ts ss n).1⟩
  have hsorted : (init_loop f.vcd_name_index (sort_traces f.all_traces)).done.Sorted
      (fun a b => a.name.data ≤ b.name.data) :=
    sorted_of_core_eq _ _ (init_inv_loop _ _).core_eq (sort_traces_sorted _)
  refine all_nodes_mono _ _ ?_ _ (scope_inv_loop _ _).1
  intro ts ks hp
  have h1 : (ts.map Prod.snd).Pairwise (fun a b => a.name.data ≤ b.name.data) :=
    List.Pairwise.sublist hp.2.1 hsorted
  have h2 := List.pairwise_map.1 h1
  exact List.pairwise_map.2 h2

/-- C19 (as the specification states it) fails: with the traces `b` and `a.b` the sorted
order is `a.b`, `b`, but the leaf `b` of the top scope is declared before the leaf of the
child scope `a`, so the declaration lines are not in lexicographic order of the full
names. -/
theorem declarations_not_lexicographic :
    (sort_traces file_b_ab.all_traces).map vcd_trace.name = ["a.b", "b"] ∧
      ((init_loop 0 (sort_traces file_b_ab.all_traces)).scope.leaves.map fun e => e.2.name)
        = ["b", "a.b"] ∧
      (file_b_ab.init env_zero).2.chunks
        = ["$date\n     Jan 01, 2021       00:00:00\n$end\n\n",
           "$version\n SystemC 2.3.3\n$end\n\n", "$timescale\n     1 ps\n$end\n\n",
           "$comment\ntracing 2 distinct traces out of 2 traces\n$end\n\n",
           "$scope module SystemC $end\n", "$var wire 1 aaaab  b $end\n",
           "$scope module a $end\n", "$var wire 1 aaaaa  b $end\n", "$upscope $end\n",
           "$upscope $end\n"] ∧
      ¬ (["b", "a.b"].map String.data).Sorted (· ≤ ·) := by
  decide

/-! ## The identifier allocator beyond its capacity -/

/-- C21: for a counter `n` with `n + 26^5` in the range of `int` (where the arithmetic of
the source is the one of the natural numbers), `obtain_name()` at the counter `n + 26^5`
returns the string it returns at the counter `n` (and increments the counter); so two
different counters give the same identifier. -/
theorem obtain_name_wraps (n : Nat) (_hn : n + 26 ^ 5 < 2 ^ 31) :
    (obtain_name (n + 26 ^ 5)).1 = (obtain_name n).1 ∧
      (obtain_name (n + 26 ^ 5)).2 = n + 26 ^ 5 + 1 ∧
      ∃ i j : Nat, i ≠ j ∧ (obtain_name i).1 = (obtain_name j).1 := by
  have hd : (obtain_name (n + 26 ^ 5)).1.data = (obtain_name n).1.data := by
    rw [obtain_name_data, obtain_name_data]
    have h1 : (n + 26 ^ 5) % 26 = n % 26 := by norm_num; omega
    have h2 : (n + 26 ^ 5) / 26 % 26 = n / 26 % 26 := by norm_num; omega
    have h3 : (n + 26 ^ 5) / 26 / 26 % 26 = n / 26 / 26 % 26 := by norm_num; omega
    have h4 : (n + 26 ^ 5) / 26 / 26 / 26 % 26 = n / 26 / 26 / 26 % 26 := by norm_num; omega
    have h5 : (n + 26 ^ 5) / 26 / 26 / 26 / 26 % 26 = n / 26 / 26 / 26 / 26 % 26 := by
      norm_num; omega
    rw [h1, h2, h3, h4, h5]
  have hs : (obtain_name (n + 26 ^ 5)).1 = (obtain_name n).1 := by
    have := congrArg String.mk hd
    simpa using this
  exact ⟨hs, rfl, n, n + 26 ^ 5, by norm_num, hs.symm⟩

theorem obtain_name_wraps_witness :
    (obtain_name (0 + 26 ^ 5)).1 = (obtain_name 0).1 ∧ (obtain_name 0).1 = "aaaaa" :=
  ⟨(obtain_name_wraps 0 (by norm_num)).1, by decide⟩

/-! ## The mask shift -/

theorem shl_one_isSome (bits : Nat) : (shl_one bits).isSome = true ↔ bits < 64 := by
  unfold shl_one
  split <;> simp_all

/-- The value line of a fixed-width integer trace is defined exactly when its width is
below 64. -/
theorem record_val_int_isSome (t : IntKind) (st : Statics) (handle : String) (bits : Nat)
    (v : Int) : (record_val (.int t) st handle bits v).isSome = true ↔ bits < 64 := by
  rw [← shl_one_isSome]
  by_cases hs : t.sizeof ≤ 4
  · simp [record_val, hs, vcdEmitValueChange32]
  · simp [record_val, hs, vcdEmitValueChange64]

/-- An 8-byte integer registered through `trace` gets the width 64, for which the value
line is undefined. -/
theorem record_int64_undefined (f : mt_vcd_trace_file) (t : IntKind) (ht : t.sizeof = 8)
    (mem : Mem) (object : Nat) (name : String) (width : Int) (st : Statics) :
    ((f.trace_width t mem object name width).all_traces.getLast?).map
        (fun trc => (trc.bits, trc.record st)) = some (64, none) := by
  simp [trace_width_all_traces, vcd_trace_t, get_bits, ht, vcd_trace.record, record_val,
    vcdEmitValueChange32, vcdEmitValueChange64, shl_one_64]

/-- C22: the `uint64` registered through `trace` has the width 64, and `record()` passes
this width as the shift amount of `1ull << bits`: the mask, and with it the value line
and the text of the first settled cycle, is undefined; likewise the `double` trace
(`vcdEmitValueChange32` with 64) and the `sc_fxval` trace (`vcdEmitValueChange64` with
64).  With the width 63 the same emitter is defined. -/
theorem mask_shift_by_64_undefined :
    (file_uint64.init env_zero).1.all_traces.map vcd_trace.bits = [64] ∧
      shl_one 64 = none ∧ trace_uint64.record Statics.fresh = none ∧
      (file_uint64.cycle Statics.fresh env_zero false).written = none ∧
      trace_double.record Statics.fresh = none ∧ trace_fxval.record Statics.fresh = none ∧
      vcdEmitValueChange64 "aaaaa" 63 0 = some "b0 aaaaa\n" := by
  decide

/-! ## Initialization happens once -/

theorem cycle_first_ignores_enable (f : mt_vcd_trace_file) (st : Statics) (env : Env)
    (hun : f.initialized = false) (b : Option Bool) :
    f.cycle st { env with check_enabled := b } false = f.cycle st env false := by
  unfold mt_vcd_trace_file.cycle
  simp only [hun]
  rfl

/-- A value line written by `vcdEmitValueChange` starts with the first character of the
value (one bit) or with `b`. -/
theorem vcdEmitValueChange_chunk (handle : String) (bits : Nat) (val : String)
    (h : val.data.headD (Char.ofNat 0) ≠ '$') :
    is_definition_chunk (vcdEmitValueChange handle bits val) = false := by
  unfold vcdEmitValueChange
  split
  · have h2 : ¬ val.data.head?.getD (Char.ofNat 0) = '$' := by
      simpa [List.headD_eq_head?_getD] using h
    simp [is_definition_chunk, String.data_append, h2]
  · simp [is_definition_chunk, String.data_append]

theorem vcdEmitValueChange32_chunk (handle : String) (bits : Nat) (val : Int) (line : String)
    (h : vcdEmitValueChange32 handle bits val = some line) :
    is_definition_chunk line = false := by
  unfold vcdEmitValueChange32 at h
  cases hs : shl_one bits with
  | none => rw [hs] at h; exact Option.noConfusion h
  | some m =>
    rw [hs] at h
    simp only [Option.map_some', Option.some.injEq] at h
    rw [← h]
    simp [is_definition_chunk, String.data_append]

theorem vcdEmitValueChange64_chunk (handle : String) (bits : Nat) (val : Int) (line : String)
    (h : vcdEmitValueChange64 handle bits val = some line) :
    is_definition_chunk line = false := by
  unfold vcdEmitValueChange64 at h
  cases hs : shl_one bits with
  | none => rw [hs] at h; exact Option.noConfusion h
  | some m =>
    rw [hs] at h
    simp only [Option.map_some', Option.some.injEq] at h
    rw [← h]
    simp [is_definition_chunk, String.data_append]

theorem headD_of_all (cs : List Char) (p : Char → Bool) (d : Char) (hd : p d = true)
    (h : cs.all p = true) : p (cs.headD d) = true := by
  cases cs with
  | nil => exact hd
  | cons c cs => simp only [List.all_cons, Bool.and_eq_true] at h; exact h.1

theorem digit_char (b : Bool) : Char.ofNat (48 + b.toNat) = '0' ∨ Char.ofNat (48 + b.toNat) = '1' := by
  cases b
  · left; rfl
  · right; rfl

/-- Recording a numeric vector into a buffer of binary digits leaves a buffer of binary
digits, and the line written is no chunk of the header or the declarations. -/
theorem record_rawdata_ok (buf : Option rawdata_buf) (handle : String) (bits : Nat)
    (old_val : List Bool) (r : rawdata_buf × String) (hb : rawdata_ok buf = true)
    (h : record_rawdata buf handle bits old_val = some r) :
    rawdata_ok (some r.1) = true ∧ is_definition_chunk r.2 = false := by
  unfold record_rawdata at h
  simp only [] at h
  split at h
  · have hall : ((List.map (fun bitindex => Char.ofNat (48 + (old_val.getD bitindex false).toNat))
          (List.range old_val.length).reverse) ++
        List.drop old_val.length
          (buf.getD ⟨get_buffer_size old_val.length, []⟩).chars).all
            (fun c => c == '0' || c == '1') = true := by
      rw [List.all_eq_true]
      intro c hc
      rcases List.mem_append.1 hc with hc | hc
      · obtain ⟨i, _, rfl⟩ := List.mem_map.1 hc
        rcases digit_char (old_val.getD i false) with h0 | h1
        · rw [h0]; rfl
        · rw [h1]; rfl
      · have hc2 := List.mem_of_mem_drop hc
        cases buf with
        | none => exact absurd hc2 (List.not_mem_nil c)
        | some b =>
          have := List.all_eq_true.1 hb c hc2
          exact this
    simp only [Option.some.injEq] at h
    rw [← h]
    refine ⟨hall, ?_⟩
    apply vcdEmitValueChange_chunk
    have := headD_of_all _ (fun c => c == '0' || c == '1' || c == Char.ofNat 0) (Char.ofNat 0)
      (by decide) (by
        rw [List.all_eq_true] at hall ⊢
        intro c hc
        have := hall c hc
        simp only [Bool.or_eq_true] at this ⊢
        exact Or.inl this)
    intro hd
    rw [hd] at this
    exact absurd this (by decide)
  · exact Option.noConfusion h

theorem headD_map_ne {α : Type} (l : List α) (g : α → Char) (d x : Char) (hd : d ≠ x)
    (hg : ∀ a, g a ≠ x) : (l.map g).headD d ≠ x := by
  cases l with
  | nil => exact hd
  | cons a l => exact hg a

theorem Statics.ok_iff (st : Statics) :
    st.ok = true ↔ rawdata_ok st.sc_int_base = true ∧ rawdata_ok st.sc_uint_base = true ∧
      rawdata_ok st.sc_signed = true ∧ rawdata_ok st.sc_unsigned = true := by
  simp [Statics.ok, and_assoc]

/-- The line `record()` writes is no chunk of the header or the declarations, and
`record()` leaves static buffers of binary digits as such. -/
theorem record_val_ok (k : Kind) (st : Statics) (handle : String) (bits : Nat) (v : Val k)
    (r : Statics × String) (hst : st.ok = true) (h : record_val k st handle bits v = some r) :
    r.1.ok = true ∧ is_definition_chunk r.2 = false := by
  obtain ⟨h1, h2, h3, h4⟩ := (Statics.ok_iff st).1 hst
  cases k with
  | bool =>
    simp only [record_val, Option.some.injEq] at h
    rw [← h]
    refine ⟨hst, vcdEmitValueChange_chunk _ _ _ ?_⟩
    cases (v : Bool) <;> decide
  | sc_bit =>
    simp only [record_val, Option.some.injEq] at h
    rw [← h]
    refine ⟨hst, vcdEmitValueChange_chunk _ _ _ ?_⟩
    cases (v : Bool) <;> decide
  | sc_logic =>
    simp only [record_val, Option.some.injEq] at h
    rw [← h]
    refine ⟨hst, vcdEmitValueChange_chunk _ _ _ ?_⟩
    cases (v : Logic) <;> decide
  | int t =>
    simp only [record_val] at h
    split at h
    · cases he : vcdEmitValueChange32 handle bits v with
      | none => rw [he] at h; exact Option.noConfusion h
      | some line =>
        rw [he] at h
        simp only [Option.map_some', Option.some.injEq] at h
        rw [← h]
        exact ⟨hst, vcdEmitValueChange32_chunk _ _ _ _ he⟩
    · cases he : vcdEmitValueChange64 handle bits v with
      | none => rw [he] at h; exact Option.noConfusion h
      | some line =>
        rw [he] at h
        simp only [Option.map_some', Option.some.injEq] at h
        rw [← h]
        exact ⟨hst, vcdEmitValueChange64_chunk _ _ _ _ he⟩
  | float =>
    simp only [record_val] at h
    cases he : vcdEmitValueChange32 handle 32 (((v : Nat) % 2 ^ 32 : Nat) : Int) with
    | none => rw [he] at h; exact Option.noConfusion h
    | some line =>
      rw [he] at h
      simp only [Option.map_some', Option.some.injEq] at h
      rw [← h]
      exact ⟨hst, vcdEmitValueChange32_chunk _ _ _ _ he⟩
  | double =>
    have := (record_val_pattern64_undefined st handle bits v).1
    rw [this] at h; exact Option.noConfusion h
  | sc_fxnum =>
    have := (record_val_pattern64_undefined st handle bits v).2.1
    rw [this] at h; exact Option.noConfusion h
  | sc_fxnum_fast =>
    have := (record_val_pattern64_undefined st handle bits v).2.2.1
    rw [this] at h; exact Option.noConfusion h
  | sc_fxval =>
    have := (record_val_pattern64_undefined st handle bits v).2.2.2.1
    rw [this] at h; exact Option.noConfusion h
  | sc_fxval_fast =>
    have := (record_val_pattern64_undefined st handle bits v).2.2.2.2
    rw [this] at h; exact Option.noConfusion h
  | sc_int_base =>
    simp only [record_val] at h
    cases he : record_rawdata st.sc_int_base handle bits v with
    | none => rw [he] at h; exact Option.noConfusion h
    | some q =>
      rw [he] at h
      simp only [Option.map_some', Option.some.injEq] at h
      obtain ⟨hq1, hq2⟩ := record_rawdata_ok _ _ _ _ _ h1 he
      rw [← h]
      exact ⟨(Statics.ok_iff _).2 ⟨hq1, h2, h3, h4⟩, hq2⟩
  | sc_uint_base =>
    simp only [record_val] at h
    cases he : record_rawdata st.sc_uint_base handle bits v with
    | none => rw [he] at h; exact Option.noConfusion h
    | some q =>
      rw [he] at h
      simp only [Option.map_some', Option.some.injEq] at h
      obtain ⟨hq1, hq2⟩ := record_rawdata_ok _ _ _ _ _ h2 he
      rw [← h]
      exact ⟨(Statics.ok_iff _).2 ⟨h1, hq1, h3, h4⟩, hq2⟩
  | sc_signed =>
    simp only [record_val] at h
    cases he : record_rawdata st.sc_signed handle bits v with
    | none => rw [he] at h; exact Option.noConfusion h
    | some q =>
      rw [he] at h
      simp only [Option.map_some', Option.some.injEq] at h
      obtain ⟨hq1, hq2⟩ := record_rawdata_ok _ _ _ _ _ h3 he
      rw [← h]
      exact ⟨(Statics.ok_iff _).2 ⟨h1, h2, hq1, h4⟩, hq2⟩
  | sc_unsigned =>
    simp only [record_val] at h
    cases he : record_rawdata st.sc_unsigned handle bits v with
    | none => rw [he] at h; exact Option.noConfusion h
    | some q =>
      rw [he] at h
      simp only [Option.map_some', Option.some.injEq] at h
      obtain ⟨hq1, hq2⟩ := record_rawdata_ok _ _ _ _ _ h4 he
      rw [← h]
      exact ⟨(Statics.ok_iff _).2 ⟨h1, h2, h3, hq1⟩, hq2⟩
  | sc_bv_base =>
    simp only [record_val, Option.some.injEq] at h
    rw [← h]
    refine ⟨hst, vcdEmitValueChange_chunk _ _ _ ?_⟩
    unfold bv_to_string
    apply headD_map_ne _ _ _ _ (by decide)
    intro b
    cases b <;> decide
  | sc_lv_base =>
    simp only [record_val, Option.some.injEq] at h
    rw [← h]
    refine ⟨hst, vcdEmitValueChange_chunk _ _ _ ?_⟩
    unfold lv_to_string
    apply headD_map_ne _ _ _ _ (by decide)
    intro b
    cases b <;> decide

theorem emit_lines_ok (ts : List vcd_trace) :
    ∀ (st : Statics) (w : Statics × List String), st.ok = true → emit_lines st ts = some w →
      w.1.ok = true ∧ ∀ c ∈ w.2, is_definition_chunk c = false := by
  induction ts with
  | nil =>
    intro st w hst h
    simp only [emit_lines, Option.some.injEq] at h
    rw [← h]
    exact ⟨hst, fun c hc => absurd hc (List.not_mem_nil c)⟩
  | cons t ts ih =>
    intro st w hst h
    simp only [emit_lines] at h
    cases hr : t.record st with
    | none => simp [hr] at h
    | some r =>
      simp only [hr, Option.some_bind] at h
      obtain ⟨hr1, hr2⟩ := record_val_ok _ _ _ _ _ r hst hr
      cases he : emit_lines r.1 ts with
      | none => simp [he] at h
      | some w0 =>
        simp only [he, Option.map_some', Option.some.injEq] at h
        obtain ⟨h1, h2⟩ := ih r.1 w0 hr1 he
        rw [← h]
        refine ⟨h1, ?_⟩
        intro c hc
        rcases List.mem_cons.1 hc with rfl | hc
        · exact hr2
        · exact h2 c hc

theorem is_definition_chunk_line (scoped_name : String) (trc : vcd_trace) :
    ∀ c ∈ (print_variable_declaration_line scoped_name trc).chunks,
      is_definition_chunk c = true := by
  intro c hc
  unfold print_variable_declaration_line at hc
  split at hc
  · exact absurd hc (List.not_mem_nil c)
  · rw [List.mem_singleton.1 hc]
    simp [is_definition_chunk, String.data_append]
  · rw [List.mem_singleton.1 hc]
    simp [is_definition_chunk, String.data_append]

mutual
/-- Every chunk of a printed scope starts with `$`. -/
theorem print_definition_chunks : ∀ (sc : vcd_scope_stack) (scope_name : String),
    ∀ c ∈ (sc.print scope_name).chunks, is_definition_chunk c = true
  | .mk ts ss, scope_name => by
    intro c hc
    rw [(print_mk ts ss scope_name).1] at hc
    simp only [List.mem_append, List.mem_singleton, List.mem_flatMap] at hc
    rcases hc with ((rfl | ⟨e, _, he⟩) | hs) | rfl
    · simp [is_definition_chunk, String.data_append]
    · exact is_definition_chunk_line e.1 e.2 c he
    · exact print_scopes_definition_chunks ss c hs
    · decide
/-- Every chunk of the printed child scopes starts with `$`. -/
theorem print_scopes_definition_chunks : ∀ ss : List (String × vcd_scope_stack),
    ∀ c ∈ (vcd_scope_stack.print_scopes ss).chunks, is_definition_chunk c = true
  | [] => by
    intro c hc
    rw [vcd_scope_stack.print_scopes] at hc
    exact absurd hc (List.not_mem_nil c)
  | (n, sc) :: rest => by
    intro c hc
    rw [print_scopes_cons] at hc
    simp only [Printed.append, List.mem_append] at hc
    rcases hc with h | h
    · exact print_definition_chunks sc n c h
    · exact print_scopes_definition_chunks rest c h
end

/-- Every chunk `init()` writes (header, comment, declarations) starts with `$`. -/
theorem init_definition_chunks (f : mt_vcd_trace_file) (env : Env) :
    ∀ c ∈ (f.init env).2.chunks, is_definition_chunk c = true := by
  intro c hc
  rw [(init_chunks f env).1] at hc
  simp only [List.mem_append, List.mem_cons, List.not_mem_nil, or_false] at hc
  rcases hc with (rfl | rfl | rfl | rfl) | h
  · simp [is_definition_chunk, String.data_append]
  · simp [is_definition_chunk, String.data_append]
  · simp [is_definition_chunk, String.data_append]
  · simp [is_definition_chunk, write_comment, String.data_append]
  · exact print_definition_chunks _ _ c h

theorem writes_definitions_nil (g : mt_vcd_trace_file) (st : Statics) :
    writes_definitions ⟨g, [], some (st, [])⟩ = false := rfl

/-- A call of `cycle` on an initialized recorder leaves it initialized, reports nothing
and writes no chunk of the header or the declarations; static buffers of binary digits
stay such. -/
theorem cycle_initialized_no_definitions (g : mt_vcd_trace_file) (st : Statics) (env : Env)
    (delta_cycle : Bool) (hinit : g.initialized = true) (hst : st.ok = true) :
    (g.cycle st env delta_cycle).file.initialized = true ∧
      (g.cycle st env delta_cycle).errors = [] ∧
      writes_definitions (g.cycle st env delta_cycle) = false ∧
      ((g.cycle st env delta_cycle).statics st).ok = true := by
  cases delta_cycle with
  | true =>
    rw [cycle_delta]
    exact ⟨hinit, rfl, rfl, hst⟩
  | false =>
    by_cases hen : env.check_enabled = some false
    · rw [cycle_disabled g st env hinit hen]
      exact ⟨hinit, rfl, rfl, hst⟩
    · rw [cycle_enabled g st env hinit hen]
      split
      · refine ⟨hinit, rfl, ?_, ?_⟩
        · show writes_definitions ⟨_, _, record_all _ _ _⟩ = false
          rw [record_all_eq_emit_lines]
          cases he : emit_lines st
              ((compare_all env.mem g.active_traces (g.all_traces, [])).2.filterMap
                fun i => (compare_all env.mem g.active_traces (g.all_traces, [])).1[i]?) with
          | none => rfl
          | some w =>
            obtain ⟨_, h2⟩ := emit_lines_ok _ st w hst he
            simp only [writes_definitions, Option.map_some', List.any_eq_false,
              List.mem_append, List.mem_singleton]
            intro c hc
            rcases hc with rfl | hc
            · simp [is_definition_chunk, String.data_append]
            · simp [h2 c hc]
        · show (cycle_result.statics ⟨_, _, record_all _ _ _⟩ st).ok = true
          rw [record_all_eq_emit_lines]
          cases he : emit_lines st
              ((compare_all env.mem g.active_traces (g.all_traces, [])).2.filterMap
                fun i => (compare_all env.mem g.active_traces (g.all_traces, [])).1[i]?) with
          | none => exact hst
          | some w => exact (emit_lines_ok _ st w hst he).1
      · exact ⟨hinit, rfl, rfl, hst⟩

/-- Every call of a sequence of `cycle` calls on an initialized recorder leaves it
initialized, reports nothing and writes no chunk of the header or the declarations. -/
theorem run_cycles_initialized (calls : List (Env × Bool)) :
    ∀ (g : mt_vcd_trace_file) (st : Statics), g.initialized = true → st.ok = true →
      ∀ r ∈ run_cycles g st calls,
        r.file.initialized = true ∧ r.errors = [] ∧ writes_definitions r = false := by
  induction calls with
  | nil => intro g st _ _ r hr; exact absurd hr (List.not_mem_nil r)
  | cons call rest ih =>
    intro g st hinit hst r hr
    obtain ⟨h1, h2, h3, h4⟩ := cycle_initialized_no_definitions g st call.1 call.2 hinit hst
    rw [run_cycles] at hr
    rcases List.mem_cons.1 hr with rfl | hr
    · exact ⟨h1, h2, h3⟩
    · exact ih _ _ h1 h4 r hr

/-- The first settled cycle leaves static buffers of binary digits as such. -/
theorem cycle_first_statics (f : mt_vcd_trace_file) (st : Statics) (env : Env)
    (hun : f.initialized = false) (hst : st.ok = true) :
    ((f.cycle st env false).statics st).ok = true := by
  unfold cycle_result.statics
  rw [cycle_first_written f st env hun, dump_all_written]
  cases he : emit_lines st ((f.init env).1.active_traces.filterMap
      fun i => ((f.init env).1.all_traces[i]?).map fun t => t.update env.mem) with
  | none => exact hst
  | some w => exact (emit_lines_ok _ st w hst he).1

/-- In a sequence of `cycle` calls at most one call writes chunks of the header or the
declarations. -/
theorem run_cycles_definitions_once (calls : List (Env × Bool)) :
    ∀ (f : mt_vcd_trace_file) (st : Statics), st.ok = true →
      ((run_cycles f st calls).filter writes_definitions).length ≤ 1 := by
  induction calls with
  | nil => intro f st _; simp [run_cycles]
  | cons call rest ih =>
    intro f st hst
    by_cases hinit : f.initialized = true
    · have h0 : (run_cycles f st (call :: rest)).filter writes_definitions = [] := by
        rw [List.filter_eq_nil_iff]
        intro r hr
        rw [(run_cycles_initialized (call :: rest) f st hinit hst r hr).2.2]
        exact Bool.false_ne_true
      rw [h0]; exact Nat.zero_le _
    · have hun : f.initialized = false := by simpa using hinit
      rw [run_cycles]
      cases hd : call.2 with
      | true =>
        rw [cycle_delta, List.filter_cons, writes_definitions_nil]
        exact ih f st hst
      | false =>
        have hi2 : (f.cycle st call.1 false).file.initialized = true := by
          rw [cycle_first_file f st call.1 hun]
        have h0 : (run_cycles (f.cycle st call.1 false).file
            ((f.cycle st call.1 false).statics st) rest).filter writes_definitions = [] := by
          rw [List.filter_eq_nil_iff]
          intro r hr
          rw [(run_cycles_initialized rest _ _ hi2
            (cycle_first_statics f st call.1 hun hst) r hr).2.2]
          exact Bool.false_ne_true
        rw [List.filter_cons, h0]
        split <;> simp

/-- C23: the first settled cycle of an uninitialized recorder does not depend on the
enable predicate; it leaves the recorder initialized and writes the header, the comment,
the declarations, the `$dumpvars` chunk, the value lines of the active traces and the
`$end` chunk.  Every chunk of the header and the declarations starts with `$`, and the
first settled cycle writes such chunks whenever its text is defined.  With static buffers
that hold binary digits only (as the buffers before any call, and after every call, do),
every call of any following sequence of cycle calls leaves the recorder initialized,
reports nothing and writes no chunk starting with `$`; so in any sequence of cycle calls
on the recorder at most one call, the first settled one, writes header and
declarations. -/
theorem initializing_cycle_ignores_enable (f : mt_vcd_trace_file) (st : Statics) (env : Env)
    (hun : f.initialized = false) :
    (∀ b : Option Bool,
        f.cycle st { env with check_enabled := b } false = f.cycle st env false) ∧
      (f.cycle st env false).file.initialized = true ∧
      (f.cycle st env false).written
        = (emit_lines st ((f.init env).1.active_traces.filterMap
            fun i => ((f.init env).1.all_traces[i]?).map fun t => t.update env.mem)).map
            (fun w => (w.1,
              ((["$date\n     " ++ env.date ++ "\n$end\n\n",
                 "$version\n " ++ env.sc_version ++ "\n$end\n\n",
                 "$timescale\n     " ++ env.one_ps ++ "\n$end\n\n",
                 write_comment ("tracing " ++ fmt_d (f.init env).1.active_traces.length
                   ++ " distinct traces out of " ++ fmt_d (f.init env).1.all_traces.length
                   ++ " traces")]
                ++ ((init_loop f.vcd_name_index (sort_traces f.all_traces)).scope.print
                    "SystemC").chunks
                ++ ["$enddefinitions  $end\n\n$dumpvars\n"] ++ w.2) ++ ["$end\n\n"]))) ∧
      (∀ c ∈ ["$date\n     " ++ env.date ++ "\n$end\n\n",
               "$version\n " ++ env.sc_version ++ "\n$end\n\n",
               "$timescale\n     " ++ env.one_ps ++ "\n$end\n\n",
               write_comment ("tracing " ++ fmt_d (f.init env).1.active_traces.length
                 ++ " distinct traces out of " ++ fmt_d (f.init env).1.all_traces.length
                 ++ " traces")]
              ++ ((init_loop f.vcd_name_index (sort_traces f.all_traces)).scope.print
                  "SystemC").chunks,
        is_definition_chunk c = true) ∧
      (((f.cycle st env false).written).isSome = true →
        writes_definitions (f.cycle st env false) = true) ∧
      (st.ok = true →
        ((f.cycle st env false).statics st).ok = true ∧
        (∀ (calls : List (Env × Bool)) (st2 : Statics), st2.ok = true →
          ∀ r ∈ run_cycles (f.cycle st env false).file st2 calls,
            r.file.initialized = true ∧ r.errors = [] ∧ writes_definitions r = false) ∧
        ∀ calls : List (Env × Bool),
          ((run_cycles f st calls).filter writes_definitions).length ≤ 1) := by
  have hinit : (f.cycle st env false).file.initialized = true := by
    rw [cycle_first_file f st env hun]
  have hw : (f.cycle st env false).written
        = (emit_lines st ((f.init env).1.active_traces.filterMap
            fun i => ((f.init env).1.all_traces[i]?).map fun t => t.update env.mem)).map
            (fun w => (w.1,
              ((["$date\n     " ++ env.date ++ "\n$end\n\n",
                 "$version\n " ++ env.sc_version ++ "\n$end\n\n",
                 "$timescale\n     " ++ env.one_ps ++ "\n$end\n\n",
                 write_comment ("tracing " ++ fmt_d (f.init env).1.active_traces.length
                   ++ " distinct traces out of " ++ fmt_d (f.init env).1.all_traces.length
                   ++ " traces")]
                ++ ((init_loop f.vcd_name_index (sort_traces f.all_traces)).scope.print
                    "SystemC").chunks
                ++ ["$enddefinitions  $end\n\n$dumpvars\n"] ++ w.2) ++ ["$end\n\n"]))) := by
    rw [cycle_first_written f st env hun, dump_all_written, Option.map_map, (init_chunks f env).1]
    rfl
  refine ⟨cycle_first_ignores_enable f st env hun, hinit, hw, ?_, ?_, ?_⟩
  · have := init_definition_chunks f env
    rw [(init_chunks f env).1] at this
    exact this
  · intro hsome
    unfold writes_definitions
    rw [hw] at hsome ⊢
    cases he : emit_lines st ((f.init env).1.active_traces.filterMap
        fun i => ((f.init env).1.all_traces[i]?).map fun t => t.update env.mem) with
    | none => rw [he] at hsome; exact Bool.noConfusion hsome
    | some w =>
      simp [is_definition_chunk, String.data_append]
  · intro hst
    exact ⟨cycle_first_statics f st env hun hst,
      fun calls st2 hst2 => run_cycles_initialized calls _ st2 hinit hst2,
      fun calls => run_cycles_definitions_once calls f st hst⟩

theorem initializing_cycle_ignores_enable_witness :
    env_flag_disabled.check_enabled = some false ∧
      (file_flag_counter.cycle Statics.fresh env_flag_disabled false).file.initialized = true ∧
      (file_flag_counter.cycle Statics.fresh env_flag_disabled false).written
        = some (Statics.fresh,
            ["$date\n     Jan 01, 2021       00:00:00\n$end\n\n",
             "$version\n SystemC 2.3.3\n$end\n\n", "$timescale\n     1 ps\n$end\n\n",
             "$comment\ntracing 2 distinct traces out of 2 traces\n$end\n\n",
             "$scope module SystemC $end\n", "$scope module top $end\n",
             "$var wire 8 aaaaa counter [7:0] $end\n", "$var wire 1 aaaab  flag $end\n",
             "$upscope $end\n", "$upscope $end\n",
             "$enddefinitions  $end\n\n$dumpvars\n", "b0 aaaaa\n", "1aaaab\n", "$end\n\n"]) ∧
      (run_cycles file_flag_counter Statics.fresh
          [(env_zero, true), (env_flag_disabled, false), (env_zero, false),
            (env_flag, false)]).map (fun r => (r.file.initialized, writes_definitions r))
        = [(false, false), (true, true), (true, false), (true, false)] ∧
      ((run_cycles file_flag_counter Statics.fresh
          [(env_zero, true), (env_flag_disabled, false), (env_zero, false),
            (env_flag, false)]).filter writes_definitions).length ≤ 1 :=
  ⟨rfl, (initializing_cycle_ignores_enable file_flag_counter Statics.fresh env_flag_disabled
    rfl).2.1, by decide, by decide,
    (initializing_cycle_ignores_enable file_flag_counter Statics.fresh env_flag_disabled
      rfl).2.2.2.2.2 (by decide) |>.2.2 _⟩

/-! ## The widths of registered traces -/

end scc
